import Mathlib

/-!
Shallow embedding of the ark-rust-kernel core (memory, paging, process
management, syscall dispatch) and verification of the specification's
claims about it.

Conventions of the embedding:
* Rust `usize` values are modelled as `Nat`; wrap-around is made explicit
  with `% 2 ^ 64` at the operations where the kernel relies on release-mode
  wrapping semantics (`round_up_to`); elsewhere the kernel's values stay far
  below `2 ^ 64` and plain `Nat` arithmetic is exact.
* Physical memory is a function `pageId → cell → value`.  A page that holds
  page-table entries is read at word indexes `0..511`; a data page is read
  at byte offsets `0..4095`.  The kernel never reads the same page through
  both views, so a single cell function per page is faithful.
* Code that can `panic!`/`assert!`/`todo!` is modelled with `Option`:
  `none` is a panic.
-/

namespace Ark

/-! ## Constants (src/src/config.rs, src/src/memory/mod.rs) -/

def PAGE_SIZE : Nat := 4096

def KERNEL_SPACE_BASE : Nat := 0x80000000

def PROCESS_USER_STACK_BASE : Nat := KERNEL_SPACE_BASE

def PROCESS_KERNEL_STACK_SIZE : Nat := 512

def PROCESS_MAX_USER_STACK_SIZE : Nat := 0x20000000

def PROCESS_MMAP_BASE : Nat := PROCESS_USER_STACK_BASE - PROCESS_MAX_USER_STACK_SIZE

def HARDWARE_BASE_ADDR : Nat := 0xC0000000

/-- Modulus of the 64-bit machine word. -/
def USIZE : Nat := 2 ^ 64

/-! ## Address arithmetic (src/src/memory/address.rs)

`round_up_to` / `round_down_to` are the bit-mask formulas of the `Addr`
trait; the addition in `round_up_to` wraps like release-mode Rust. -/

/-- Addr::round_up_to: `((addr + (to - 1)) & !(to - 1))` on a 64-bit word. -/
def round_up_to (x k : Nat) : Nat :=
  ((x + (k - 1)) % USIZE) &&& ((USIZE - 1) ^^^ (k - 1))

/-- Addr::round_down_to: `addr & !(to - 1)` on a 64-bit word. -/
def round_down_to (x k : Nat) : Nat :=
  x &&& ((USIZE - 1) ^^^ (k - 1))

/-- Addr::to_offset with a negative offset saturates at zero; with a
nonnegative offset it adds.  We split it into the two directions. -/
def to_offset_neg (x off : Nat) : Nat :=
  if x < off then 0 else x - off

/-! Bridging lemmas for the bit-level formulas. -/

theorem mask_testBit (mBits i : Nat) (hm : mBits ≤ 64) :
    ((USIZE - 1) ^^^ (2 ^ mBits - 1)).testBit i = (decide (mBits ≤ i) && decide (i < 64)) := by
  rw [USIZE]
  rw [Nat.testBit_xor, Nat.testBit_two_pow_sub_one, Nat.testBit_two_pow_sub_one]
  rcases Nat.lt_or_ge i mBits with h | h
  · simp [h, Nat.lt_of_lt_of_le h hm, Nat.not_le_of_lt h]
  · rcases Nat.lt_or_ge i 64 with h2 | h2
    · simp [h, h2, Nat.not_lt_of_le h]
    · simp [Nat.not_lt_of_le h2, Nat.not_lt_of_le (Nat.le_trans hm h2), h]

theorem and_not_mask_eq (w mBits : Nat) (hw : w < USIZE) (hm : mBits ≤ 64) :
    w &&& ((USIZE - 1) ^^^ (2 ^ mBits - 1)) = w / 2 ^ mBits * 2 ^ mBits := by
  have hdiv : w / 2 ^ mBits * 2 ^ mBits = (w >>> mBits) <<< mBits := by
    rw [Nat.shiftRight_eq_div_pow, Nat.shiftLeft_eq]
  rw [hdiv]
  apply Nat.eq_of_testBit_eq
  intro i
  rw [Nat.testBit_land, mask_testBit _ _ hm, Nat.testBit_shiftLeft]
  rcases Nat.lt_or_ge i mBits with h | h
  · simp [Nat.not_le_of_lt h]
  · rcases Nat.lt_or_ge i 64 with h2 | h2
    · have : mBits + (i - mBits) = i := by omega
      simp [h, h2, Nat.testBit_shiftRight, this]
    · have hbit : w.testBit i = false := by
        apply Nat.testBit_lt_two_pow
        calc w < USIZE := hw
        _ ≤ 2 ^ i := by
          rw [USIZE]
          exact Nat.pow_le_pow_right (by omega) h2
      have h3 : mBits + (i - mBits) = i := by omega
      simp [hbit, Nat.not_lt_of_le h2, Nat.testBit_shiftRight, h3]

theorem round_up_to_pow2_eq (x mBits : Nat) (hm : mBits ≤ 64) :
    round_up_to x (2 ^ mBits) =
      ((x + (2 ^ mBits - 1)) % USIZE) / 2 ^ mBits * 2 ^ mBits := by
  rw [round_up_to, and_not_mask_eq _ _ (Nat.mod_lt _ (by rw [USIZE]; positivity)) hm]

theorem round_down_to_pow2_eq (x mBits : Nat) (hx : x < USIZE) (hm : mBits ≤ 64) :
    round_down_to x (2 ^ mBits) = x / 2 ^ mBits * 2 ^ mBits := by
  rw [round_down_to, and_not_mask_eq _ _ hx hm]

theorem div_mul_round_aux (a k : Nat) (hk : 0 < k) : (a * k + (k - 1)) / k = a := by
  rw [Nat.add_comm, Nat.add_mul_div_right _ _ hk, Nat.div_eq_of_lt (by omega)]
  omega

theorem round_down_4096 (x : Nat) (hx : x < USIZE) :
    round_down_to x PAGE_SIZE = x / 4096 * 4096 := by
  have h : PAGE_SIZE = 2 ^ 12 := by decide
  rw [h, round_down_to_pow2_eq x 12 hx (by omega)]
  norm_num

/-! ## Claim C9: round_up_to -/

/-- Claim C9 counterexample: with `k = 3` (not a power of two) the claim
"`round_up_to(x, k) = x` iff `x % k == 0`" already fails at `x = 1`:
the mask formula returns `1` although `1 % 3 ≠ 0`. -/
theorem round_up_to_c9_counterexample :
    round_up_to 1 3 = 1 ∧ (1 : Nat) % 3 ≠ 0 := by
  constructor
  · decide
  · decide

/-- Claim C9 (amended): for `k = 2 ^ m` a power of two (`m ≤ 63`),
`round_up_to (x, k)` is idempotent and equals `x` iff `x % k = 0` (for any
64-bit `x`), and is monotonic in `x` as long as the addition `y + (k - 1)`
does not wrap. -/
theorem round_up_to_pow2_props (mBits : Nat) (hm : mBits ≤ 63) :
    (∀ x y : Nat, x ≤ y → y + (2 ^ mBits - 1) < USIZE →
      round_up_to x (2 ^ mBits) ≤ round_up_to y (2 ^ mBits)) ∧
    (∀ x : Nat, x < USIZE →
      round_up_to (round_up_to x (2 ^ mBits)) (2 ^ mBits) = round_up_to x (2 ^ mBits)) ∧
    (∀ x : Nat, x < USIZE →
      (round_up_to x (2 ^ mBits) = x ↔ x % 2 ^ mBits = 0)) := by
  have hm64 : mBits ≤ 64 := by omega
  have hkpos : 0 < 2 ^ mBits := Nat.pos_pow_of_pos _ (by omega)
  have keyU : ∀ z : Nat, z + (2 ^ mBits - 1) < USIZE →
      round_up_to z (2 ^ mBits) = (z + (2 ^ mBits - 1)) / 2 ^ mBits * 2 ^ mBits := by
    intro z hz
    rw [round_up_to_pow2_eq z mBits hm64, Nat.mod_eq_of_lt hz]
  refine ⟨?_, ?_, ?_⟩
  · intro x y hxy hy
    have hx : x + (2 ^ mBits - 1) < USIZE := by omega
    rw [keyU x hx, keyU y hy]
    exact Nat.mul_le_mul_right _ (Nat.div_le_div_right (by omega))
  · intro x _
    set r := round_up_to x (2 ^ mBits) with hr
    have hralign : r % 2 ^ mBits = 0 := by
      rw [hr, round_up_to_pow2_eq x mBits hm64]
      exact Nat.mul_mod_left _ _
    have hrlt : r < USIZE := by
      rw [hr, round_up_to_pow2_eq x mBits hm64]
      calc ((x + (2 ^ mBits - 1)) % USIZE) / 2 ^ mBits * 2 ^ mBits
          ≤ (x + (2 ^ mBits - 1)) % USIZE := Nat.div_mul_le_self _ _
        _ < USIZE := Nat.mod_lt _ (by rw [USIZE]; positivity)
    have hrle : r ≤ USIZE - 2 ^ mBits := by
      have h1 : 2 ^ mBits ∣ r := Nat.dvd_of_mod_eq_zero hralign
      have h2 : 2 ^ mBits ∣ USIZE := by
        rw [USIZE]
        exact pow_dvd_pow 2 hm64
      have h3 : r ≠ USIZE := by omega
      have : r + 2 ^ mBits ≤ USIZE := by
        rcases h1 with ⟨a, ha⟩
        rcases h2 with ⟨b, hb⟩
        have hab : a < b := by
          by_contra hab
          push_neg at hab
          have : USIZE ≤ r := by
            rw [ha, hb]
            exact Nat.mul_le_mul_left _ hab
          omega
        calc r + 2 ^ mBits = 2 ^ mBits * (a + 1) := by rw [ha]; ring
          _ ≤ 2 ^ mBits * b := Nat.mul_le_mul_left _ (by omega)
          _ = USIZE := hb.symm
      omega
    have hkU : 2 ^ mBits ≤ USIZE := by
      rw [USIZE]
      exact Nat.pow_le_pow_right (by omega) hm64
    have hnowrap : r + (2 ^ mBits - 1) < USIZE := by omega
    rw [keyU r hnowrap]
    rcases Nat.dvd_of_mod_eq_zero hralign with ⟨a, ha⟩
    rw [ha, Nat.mul_comm (2 ^ mBits) a, div_mul_round_aux a _ hkpos]
  · intro x hx
    constructor
    · intro h
      rw [← h, round_up_to_pow2_eq x mBits hm64]
      exact Nat.mul_mod_left _ _
    · intro h
      have hle : x ≤ USIZE - 2 ^ mBits := by
        rcases Nat.dvd_of_mod_eq_zero h with ⟨a, ha⟩
        have h2 : 2 ^ mBits ∣ USIZE := by
          rw [USIZE]
          exact pow_dvd_pow 2 hm64
        rcases h2 with ⟨b, hb⟩
        have hab : a < b := by
          by_contra hab
          push_neg at hab
          have : USIZE ≤ x := by
            rw [ha, hb]
            exact Nat.mul_le_mul_left _ hab
          omega
        have : x + 2 ^ mBits ≤ USIZE := by
          calc x + 2 ^ mBits = 2 ^ mBits * (a + 1) := by rw [ha]; ring
            _ ≤ 2 ^ mBits * b := Nat.mul_le_mul_left _ (by omega)
            _ = USIZE := hb.symm
        omega
      have hkU : 2 ^ mBits ≤ USIZE := by
        rw [USIZE]
        exact Nat.pow_le_pow_right (by omega) hm64
      have hnowrap : x + (2 ^ mBits - 1) < USIZE := by omega
      rw [keyU x hnowrap]
      rcases Nat.dvd_of_mod_eq_zero h with ⟨a, ha⟩
      rw [ha, Nat.mul_comm (2 ^ mBits) a, div_mul_round_aux a _ hkpos]

/-- Witness for the amended C9 theorem at `m = 12` (`k = 4096`). -/
theorem round_up_to_pow2_props_witness :
    (12 : Nat) ≤ 63 ∧
    ((∀ x y : Nat, x ≤ y → y + (2 ^ 12 - 1) < USIZE →
      round_up_to x (2 ^ 12) ≤ round_up_to y (2 ^ 12)) ∧
    (∀ x : Nat, x < USIZE →
      round_up_to (round_up_to x (2 ^ 12)) (2 ^ 12) = round_up_to x (2 ^ 12)) ∧
    (∀ x : Nat, x < USIZE →
      (round_up_to x (2 ^ 12) = x ↔ x % 2 ^ 12 = 0))) :=
  ⟨by decide, round_up_to_pow2_props 12 (by decide)⟩


/-! ## Machine state: physical memory and the frame allocator

The frame allocator itself is the external `buddy_system_allocator` crate
(not part of this repository's sources).

Modelled from the spec: the frame allocator serves single-page and
multi-page requests; a request of `n` frames returns the start of a run of
`n` frames that have not been handed out, so allocation is modelled as a
monotone watermark `freeStart`.  Frame contents are whatever physical RAM
holds — allocation itself never writes memory (only `PhyPage::alloc`
clears, see below). -/

structure Machine where
  mem : Nat → Nat → Nat
  freeStart : Nat
  thead : Bool

/-- Write one cell of one physical page. -/
def Machine.writeCell (m : Machine) (p i v : Nat) : Machine :=
  { m with mem := fun p2 i2 => if p2 = p ∧ i2 = i then v else m.mem p2 i2 }

/-- Clear a whole physical page (core::ptr::write_bytes of 4096 zero bytes;
every view of an all-zero page is zero, so all cells are set to 0). -/
def Machine.zeroPage (m : Machine) (p : Nat) : Machine :=
  { m with mem := fun p2 i2 => if p2 = p then 0 else m.mem p2 i2 }

/-- PhyPage::copy_u8(0, other 4096 bytes): copy the 4096 bytes of page
`src` over the front of page `dst`. -/
def Machine.copyPageBytes (m : Machine) (dst src : Nat) : Machine :=
  { m with mem := fun p2 i2 =>
      if p2 = dst ∧ i2 < PAGE_SIZE then m.mem src i2 else m.mem p2 i2 }

/-- Bump the allocator watermark. -/
def Machine.incFree (m : Machine) (n : Nat) : Machine :=
  { m with freeStart := m.freeStart + n }

/-- PhyPage::alloc (src/src/memory/page_allocator.rs): take one frame from
the allocator, then clear its 4096 bytes.  Returns the page id. -/
def pageAlloc (m : Machine) : Machine × Nat :=
  ((m.zeroPage m.freeStart).incFree 1, m.freeStart)

/-- PhyPage::alloc_many (src/src/memory/page_allocator.rs): one allocator
request of `count` frames, then `PhyPage::new` on each id in
`start_id..start_id + count`.  `PhyPage::new` does not clear the frame
(the clearing code is commented out with a TODO). -/
def pageAllocMany (m : Machine) (count : Nat) : Machine × List Nat :=
  (m.incFree count, (List.range count).map (fun i => m.freeStart + i))

/-! ## Claim C8: PhyPage creation -/

/-- Claim C8 counterexample: on a machine whose RAM holds the byte 1
everywhere, the first frame handed back by `alloc_many(2)` still holds 1
at offset 0 — `PhyPage::new` (used by `alloc_many`) performs no clearing,
so the frames of `alloc_many` are not zeroed. -/
theorem phyPage_c8_counterexample :
    (pageAllocMany ⟨fun _ _ => 1, 5, false⟩ 2).2 = [5, 6] ∧
    (pageAllocMany ⟨fun _ _ => 1, 5, false⟩ 2).1.mem 5 0 = 1 ∧
    (1 : Nat) ≠ 0 := by
  refine ⟨rfl, rfl, by decide⟩

/-- Claim C8 (amended): `PhyPage::alloc()` yields a frame cleared to zero,
and the `n` frames of `alloc_many(n)` are physically contiguous
(consecutive page ids); `alloc_many` does not clear its frames. -/
theorem phyPage_creation_props (m : Machine) :
    (∀ i, (pageAlloc m).1.mem (pageAlloc m).2 i = 0) ∧
    (∀ count j, j < count →
      (pageAllocMany m count).2.get? j = some (m.freeStart + j)) ∧
    (∀ count, (pageAllocMany m count).2.length = count) := by
  refine ⟨?_, ?_, ?_⟩
  · intro i
    simp [pageAlloc, Machine.incFree, Machine.zeroPage]
  · intro count j hj
    simp [pageAllocMany, List.getElem?_map, List.getElem?_range hj]
  · intro count
    simp [pageAllocMany]

/-- Witness for the amended C8 theorem: the three properties hold on a
concrete machine; e.g. the zeroed cell and the contiguous ids of
`alloc_many(3)`. -/
theorem phyPage_creation_props_witness :
    (∀ i, (pageAlloc ⟨fun _ _ => 7, 4, false⟩).1.mem
        (pageAlloc ⟨fun _ _ => 7, 4, false⟩).2 i = 0) ∧
    (∀ count j, j < count →
      (pageAllocMany ⟨fun _ _ => 7, 4, false⟩ count).2.get? j = some (4 + j)) ∧
    (∀ count, (pageAllocMany ⟨fun _ _ => 7, 4, false⟩ count).2.length = count) :=
  phyPage_creation_props ⟨fun _ _ => 7, 4, false⟩

/-! ## Page-table entries (src/src/memory/paging.rs)

PTEFlags bit values: V=1, R=2, W=4, X=8, U=16, G=32, A=64, D=128. -/

/-- PageTableEntry::new: `page_id << 10 | flags`. -/
def pteNew (pageId flags : Nat) : Nat :=
  pageId <<< 10 ||| flags

/-- PageTableEntry::page_id: `(pte >> 10) & ((1 << 44) - 1)`. -/
def ptePageId (pte : Nat) : Nat :=
  (pte >>> 10) &&& (2 ^ 44 - 1)

/-- PageTableEntry::flags: the PTE truncated to its low byte (`pte as u8`). -/
def pteFlags (pte : Nat) : Nat :=
  pte % 256

/-- PageTableEntry::valid: flags contain V (bit 0). -/
def pteValid (pte : Nat) : Bool :=
  pteFlags pte &&& 1 = 1

/-- PageTable::prepare_flags: A is set when R is granted, D when W is
granted, and V always. -/
def prepareFlags (flags : Nat) : Nat :=
  let f1 := if flags &&& 2 ≠ 0 then flags ||| 64 else flags
  let f2 := if f1 &&& 4 ≠ 0 then f1 ||| 128 else f1
  f2 ||| 1

/-- T-Head C906 extend bits: strong-order above the hardware base,
cacheable plus bufferable below it. -/
def quirkBits (va : Nat) : Nat :=
  if HARDWARE_BASE_ADDR ≤ va then 1 <<< 63 else (1 <<< 62) ||| (1 <<< 61)

/-- Raw value written by PageTable::set_pte for `(va, pa, flags)` given the
vendor check result. -/
def mkPteVal (thead : Bool) (va pa flags : Nat) : Nat :=
  let v := pteNew (pa / PAGE_SIZE) (prepareFlags flags)
  if thead then v ||| quirkBits va else v

/-- PageTable::set_pte: asserts the target PTE is not already valid
(`none` = panic), then stores the prepared entry, with the T-Head extend
bits OR-ed in when the vendor matches. -/
def setPte (m : Machine) (tbl idx pa va flags : Nat) : Option Machine :=
  if pteValid (m.mem tbl idx) then none
  else some (m.writeCell tbl idx (mkPteVal m.thead va pa flags))

/-- VirtPageId::get_pte_indexes, level-0 (root) index. -/
def idx0 (vpn : Nat) : Nat := (vpn >>> 18) &&& 511

/-- VirtPageId::get_pte_indexes, level-1 index. -/
def idx1 (vpn : Nat) : Nat := (vpn >>> 9) &&& 511

/-- VirtPageId::get_pte_indexes, level-2 (leaf) index. -/
def idx2 (vpn : Nat) : Nat := vpn &&& 511

/-- PageTable: the root frame plus every owned table frame. -/
structure PageTable where
  root : Nat
  pages : List Nat

/-- PageTable::new: the root is one freshly allocated (hence zeroed)
frame. -/
def PageTable.new (m : Machine) : Machine × PageTable :=
  let r := pageAlloc m
  (r.1, ⟨r.2, [r.2]⟩)

/-- PageTable::to_satp: `root ppn | 8 << 60`. -/
def PageTable.toSatp (pt : PageTable) : Nat :=
  pt.root ||| (8 <<< 60)

/-- Level-1 table reached from root index `i0`, when the root entry is
valid. -/
def l1At (m : Machine) (pt : PageTable) (i0 : Nat) : Option Nat :=
  let e := m.mem pt.root i0
  if pteValid e then some (ptePageId e) else none

/-- Level-2 table reached from indexes `(i0, i1)`, when both interior
entries are valid. -/
def l2At (m : Machine) (pt : PageTable) (i0 i1 : Nat) : Option Nat :=
  match l1At m pt i0 with
  | none => none
  | some t1 =>
    let e := m.mem t1 i1
    if pteValid e then some (ptePageId e) else none

/-- PageTable::find_pte: walk the three levels without allocating; the
result is the location (table page, index) of the leaf PTE, or `none` if
an interior entry is invalid.  The leaf itself is not validity-checked. -/
def findPte (m : Machine) (pt : PageTable) (vpn : Nat) : Option (Nat × Nat) :=
  match l2At m pt (idx0 vpn) (idx1 vpn) with
  | none => none
  | some t2 => some (t2, idx2 vpn)

/-- PageTable::find_pte_create: like find_pte but allocating (zeroed)
interior tables where an entry is invalid, recording them in `pages` and
continuing through the page id read back from the written entry. -/
def findPteCreate (m : Machine) (pt : PageTable) (vpn : Nat) :
    Machine × PageTable × Nat × Nat :=
  let e0 := m.mem pt.root (idx0 vpn)
  let s1 : Machine × PageTable × Nat :=
    if pteValid e0 then (m, pt, ptePageId e0)
    else
      let r := pageAlloc m
      (r.1.writeCell pt.root (idx0 vpn) (pteNew r.2 1),
       ⟨pt.root, pt.pages ++ [r.2]⟩, ptePageId (pteNew r.2 1))
  let m1 := s1.1
  let pt1 := s1.2.1
  let t1 := s1.2.2
  let e1 := m1.mem t1 (idx1 vpn)
  let s2 : Machine × PageTable × Nat :=
    if pteValid e1 then (m1, pt1, ptePageId e1)
    else
      let r := pageAlloc m1
      (r.1.writeCell t1 (idx1 vpn) (pteNew r.2 1),
       ⟨pt1.root, pt1.pages ++ [r.2]⟩, ptePageId (pteNew r.2 1))
  (s2.1, s2.2.1, s2.2.2, idx2 vpn)

/-- PageTable::map: find-or-create the leaf PTE of `va`'s page and set it
(`none` = the already-mapped assertion fired). -/
def mapPT (m : Machine) (pt : PageTable) (va pa flags : Nat) :
    Option (Machine × PageTable) :=
  let r := findPteCreate m pt (va / PAGE_SIZE)
  match setPte r.1 r.2.2.1 r.2.2.2 pa va flags with
  | none => none
  | some m2 => some (m2, r.2.1)

/-- PageTable::unmap: find the leaf PTE, assert it is valid, clear it
(`none` = the unwrap or the assertion fired). -/
def unmapPT (m : Machine) (pt : PageTable) (va : Nat) : Option Machine :=
  match findPte m pt (va / PAGE_SIZE) with
  | none => none
  | some loc =>
    if pteValid (m.mem loc.1 loc.2) then some (m.writeCell loc.1 loc.2 0)
    else none

/-- PageTable::map_big: write a 1 GiB entry directly into the root at
index `va >> 30` (`none` = slice-bound panic or the validity assertion). -/
def mapBig (m : Machine) (pt : PageTable) (va pa flags : Nat) : Option Machine :=
  if va >>> 30 < 512 then setPte m pt.root (va >>> 30) pa va flags else none

/-- PageTable::translate: find the leaf PTE of `va`'s page; if it is
valid, return the entry's frame base plus `va`'s offset below its
rounded-down page base. -/
def translatePT (m : Machine) (pt : PageTable) (va : Nat) : Option Nat :=
  match findPte m pt (va / PAGE_SIZE) with
  | none => none
  | some loc =>
    if pteValid (m.mem loc.1 loc.2) then
      some (ptePageId (m.mem loc.1 loc.2) * PAGE_SIZE + (va - round_down_to va PAGE_SIZE))
    else none

/-! ## Arithmetic facts about the PTE encodings -/

theorem pteValid_iff (v : Nat) : pteValid v = decide (v % 2 = 1) := by
  have h : pteFlags v &&& 1 = v % 2 := by
    rw [pteFlags, Nat.and_one_is_mod]
    omega
  rw [pteValid, h]

theorem pteValid_zero : pteValid 0 = false := by decide

theorem pteNew_eq_add (p f : Nat) (hf : f < 1024) :
    pteNew p f = 2 ^ 10 * p + f := by
  rw [pteNew, Nat.shiftLeft_eq, Nat.mul_comm p]
  exact (Nat.mul_add_lt_is_or hf _).symm

theorem or_lt_256 (a b : Nat) (ha : a < 256) (hb : b < 256) : a ||| b < 256 := by
  have h : (256 : Nat) = 2 ^ 8 := by decide
  rw [h] at ha hb ⊢
  exact Nat.or_lt_two_pow ha hb

theorem prepareFlags_lt (f : Nat) (hf : f < 256) : prepareFlags f < 256 := by
  suffices h : ∀ g : Nat, g < 256 → ((if g &&& 4 ≠ 0 then g ||| 128 else g) ||| 1) < 256 by
    have h1 : (if f &&& 2 ≠ 0 then f ||| 64 else f) < 256 := by
      split
      · exact or_lt_256 _ _ hf (by decide)
      · exact hf
    exact h _ h1
  intro g hg
  have h2 : (if g &&& 4 ≠ 0 then g ||| 128 else g) < 256 := by
    split
    · exact or_lt_256 _ _ hg (by decide)
    · exact hg
  exact or_lt_256 _ _ h2 (by decide)

theorem prepareFlags_odd (f : Nat) : prepareFlags f % 2 = 1 := by
  rw [prepareFlags]
  rw [Nat.or_mod_two_eq_one]
  right
  decide

/-- The T-Head extend bits are a multiple of `2 ^ 61`. -/
theorem quirkBits_eq (va : Nat) :
    quirkBits va = 2 ^ 61 * (if HARDWARE_BASE_ADDR ≤ va then 4 else 3) := by
  rw [quirkBits]
  split
  · decide
  · decide

/-- Closed additive form of the written leaf PTE. -/
theorem mkPteVal_eq_add (th : Bool) (va pa fl : Nat) (hfl : fl < 256)
    (hp : pa / PAGE_SIZE < 2 ^ 44) :
    mkPteVal th va pa fl =
      2 ^ 61 * (if th then (if HARDWARE_BASE_ADDR ≤ va then 4 else 3) else 0) +
        (2 ^ 10 * (pa / PAGE_SIZE) + prepareFlags fl) := by
  have hpf : prepareFlags fl < 1024 :=
    Nat.lt_of_lt_of_le (prepareFlags_lt fl hfl) (by omega)
  have hv : 2 ^ 10 * (pa / PAGE_SIZE) + prepareFlags fl < 2 ^ 61 := by
    omega
  rw [mkPteVal, pteNew_eq_add _ _ hpf]
  cases th with
  | false => simp
  | true =>
    simp only [if_true]
    rw [quirkBits_eq, Nat.lor_comm]
    exact (Nat.mul_add_lt_is_or hv _).symm

/-- Field extraction from the additive PTE form: page id. -/
theorem ptePageId_of_add (c p pf : Nat) (hpf : pf < 2 ^ 10) (hp : p < 2 ^ 44) :
    ptePageId (2 ^ 61 * c + (2 ^ 10 * p + pf)) = p := by
  rw [ptePageId, Nat.shiftRight_eq_div_pow, Nat.and_pow_two_sub_one_eq_mod]
  have h1 : 2 ^ 61 * c + (2 ^ 10 * p + pf) = 2 ^ 10 * (2 ^ 51 * c + p) + pf := by ring
  rw [h1, Nat.mul_add_div (by omega), Nat.div_eq_of_lt hpf, Nat.add_zero]
  have h3 : 2 ^ 51 * c + p = 2 ^ 44 * (2 ^ 7 * c) + p := by ring
  rw [h3, Nat.mul_add_mod, Nat.mod_eq_of_lt hp]

/-- Field extraction from the additive PTE form: validity. -/
theorem pteValid_of_add (c p pf : Nat) (hodd : pf % 2 = 1) :
    pteValid (2 ^ 61 * c + (2 ^ 10 * p + pf)) = true := by
  rw [pteValid_iff, decide_eq_true_eq]
  omega

/-- Field extraction from the additive PTE form: flag byte. -/
theorem pteFlags_of_add (c p pf : Nat) (hpf : pf < 256) :
    pteFlags (2 ^ 61 * c + (2 ^ 10 * p + pf)) = pf := by
  rw [pteFlags]
  have h1 : 2 ^ 61 * c + (2 ^ 10 * p + pf) = 256 * (2 ^ 53 * c + 4 * p) + pf := by ring
  rw [h1, Nat.mul_add_mod, Nat.mod_eq_of_lt hpf]

theorem mkPteVal_valid (th : Bool) (va pa fl : Nat) (hfl : fl < 256)
    (hp : pa / PAGE_SIZE < 2 ^ 44) :
    pteValid (mkPteVal th va pa fl) = true := by
  rw [mkPteVal_eq_add th va pa fl hfl hp]
  exact pteValid_of_add _ _ _ (prepareFlags_odd fl)

theorem mkPteVal_pageId (th : Bool) (va pa fl : Nat) (hfl : fl < 256)
    (hp : pa / PAGE_SIZE < 2 ^ 44) :
    ptePageId (mkPteVal th va pa fl) = pa / PAGE_SIZE := by
  rw [mkPteVal_eq_add th va pa fl hfl hp]
  exact ptePageId_of_add _ _ _
    (Nat.lt_of_lt_of_le (prepareFlags_lt fl hfl) (by omega)) hp

theorem mkPteVal_flags (th : Bool) (va pa fl : Nat) (hfl : fl < 256)
    (hp : pa / PAGE_SIZE < 2 ^ 44) :
    pteFlags (mkPteVal th va pa fl) = prepareFlags fl := by
  rw [mkPteVal_eq_add th va pa fl hfl hp]
  exact pteFlags_of_add _ _ _ (prepareFlags_lt fl hfl)

/-- The interior entry written by find_pte_create. -/
theorem pteNew_interior_eq (p : Nat) : pteNew p 1 = 2 ^ 61 * 0 + (2 ^ 10 * p + 1) := by
  rw [pteNew_eq_add p 1 (by omega)]
  ring

theorem pteNew_interior_valid (p : Nat) : pteValid (pteNew p 1) = true := by
  rw [pteNew_interior_eq]
  exact pteValid_of_add _ _ _ (by omega)

theorem pteNew_interior_pageId (p : Nat) (hp : p < 2 ^ 44) :
    ptePageId (pteNew p 1) = p := by
  rw [pteNew_interior_eq]
  exact ptePageId_of_add _ _ _ (by omega) hp

/-! ## Reading physical memory over writes -/

theorem writeCell_read (m : Machine) (p i v p2 i2 : Nat) :
    (m.writeCell p i v).mem p2 i2 = if p2 = p ∧ i2 = i then v else m.mem p2 i2 := rfl

theorem writeCell_read_same (m : Machine) (p i v : Nat) :
    (m.writeCell p i v).mem p i = v := by
  rw [writeCell_read]
  simp

theorem writeCell_read_ne_page (m : Machine) (p i v p2 i2 : Nat) (h : p2 ≠ p) :
    (m.writeCell p i v).mem p2 i2 = m.mem p2 i2 := by
  rw [writeCell_read]
  simp [h]

theorem writeCell_read_ne_cell (m : Machine) (p i v i2 : Nat) (h : i2 ≠ i) :
    (m.writeCell p i v).mem p i2 = m.mem p i2 := by
  rw [writeCell_read]
  simp [h]

theorem writeCell_freeStart (m : Machine) (p i v : Nat) :
    (m.writeCell p i v).freeStart = m.freeStart := rfl

theorem writeCell_thead (m : Machine) (p i v : Nat) :
    (m.writeCell p i v).thead = m.thead := rfl

theorem zeroPage_read (m : Machine) (p p2 i2 : Nat) :
    (m.zeroPage p).mem p2 i2 = if p2 = p then 0 else m.mem p2 i2 := rfl

theorem copyPageBytes_read (m : Machine) (dst src p2 i2 : Nat) :
    (m.copyPageBytes dst src).mem p2 i2 =
      if p2 = dst ∧ i2 < PAGE_SIZE then m.mem src i2 else m.mem p2 i2 := rfl

theorem pageAlloc_fst_mem (m : Machine) (p2 i2 : Nat) :
    (pageAlloc m).1.mem p2 i2 = if p2 = m.freeStart then 0 else m.mem p2 i2 := rfl

theorem pageAlloc_fst_freeStart (m : Machine) :
    (pageAlloc m).1.freeStart = m.freeStart + 1 := rfl

theorem pageAlloc_fst_thead (m : Machine) : (pageAlloc m).1.thead = m.thead := rfl

theorem pageAlloc_snd (m : Machine) : (pageAlloc m).2 = m.freeStart := rfl

/-! ## Index arithmetic -/

theorem idx0_eq (vpn : Nat) : idx0 vpn = vpn / 2 ^ 18 % 512 := by
  rw [idx0, Nat.shiftRight_eq_div_pow]
  have h : (511 : Nat) = 2 ^ 9 - 1 := by decide
  rw [h, Nat.and_pow_two_sub_one_eq_mod]

theorem idx1_eq (vpn : Nat) : idx1 vpn = vpn / 2 ^ 9 % 512 := by
  rw [idx1, Nat.shiftRight_eq_div_pow]
  have h : (511 : Nat) = 2 ^ 9 - 1 := by decide
  rw [h, Nat.and_pow_two_sub_one_eq_mod]

theorem idx2_eq (vpn : Nat) : idx2 vpn = vpn % 512 := by
  rw [idx2]
  have h : (511 : Nat) = 2 ^ 9 - 1 := by decide
  rw [h, Nat.and_pow_two_sub_one_eq_mod]

theorem idx0_lt (vpn : Nat) : idx0 vpn < 512 := by
  rw [idx0_eq]
  exact Nat.mod_lt _ (by omega)

theorem idx1_lt (vpn : Nat) : idx1 vpn < 512 := by
  rw [idx1_eq]
  exact Nat.mod_lt _ (by omega)

theorem idx2_lt (vpn : Nat) : idx2 vpn < 512 := by
  rw [idx2_eq]
  exact Nat.mod_lt _ (by omega)

/-- Two page numbers below `2 ^ 27` with equal Sv39 indexes are equal. -/
theorem vpn_ext (vpn vpn2 : Nat) (h : vpn < 2 ^ 27) (h2 : vpn2 < 2 ^ 27)
    (e0 : idx0 vpn = idx0 vpn2) (e1 : idx1 vpn = idx1 vpn2)
    (e2 : idx2 vpn = idx2 vpn2) : vpn = vpn2 := by
  rw [idx0_eq, idx0_eq] at e0
  rw [idx1_eq, idx1_eq] at e1
  rw [idx2_eq, idx2_eq] at e2
  omega

/-! ## Page-table well-formedness

`ex` marks the root indexes that are exempt from the table discipline —
for a process page table this is the slot holding the kernel huge-page
entry, which the three-level software walk must never be sent through. -/

/-- Governed root index. -/
def Gov (ex : Nat → Prop) (i0 : Nat) : Prop := i0 < 512 ∧ ¬ ex i0

/-- Structural invariant of a page table inside a machine. -/
structure PTInv (m : Machine) (pt : PageTable) (ex : Nat → Prop) : Prop where
  root_lt : pt.root < m.freeStart
  l1_lt : ∀ i0 t1, Gov ex i0 → l1At m pt i0 = some t1 → t1 < m.freeStart
  l1_ne_root : ∀ i0 t1, Gov ex i0 → l1At m pt i0 = some t1 → t1 ≠ pt.root
  l1_inj : ∀ i0 i0' t, Gov ex i0 → Gov ex i0' →
    l1At m pt i0 = some t → l1At m pt i0' = some t → i0 = i0'
  l2_lt : ∀ i0 i1 t2, Gov ex i0 → i1 < 512 → l2At m pt i0 i1 = some t2 →
    t2 < m.freeStart
  l2_ne_root : ∀ i0 i1 t2, Gov ex i0 → i1 < 512 → l2At m pt i0 i1 = some t2 →
    t2 ≠ pt.root
  l2_ne_l1 : ∀ i0 i1 t2 j0, Gov ex i0 → i1 < 512 → Gov ex j0 →
    l2At m pt i0 i1 = some t2 → l1At m pt j0 ≠ some t2
  l2_inj : ∀ i0 i1 i0' i1' t, Gov ex i0 → i1 < 512 → Gov ex i0' → i1' < 512 →
    l2At m pt i0 i1 = some t → l2At m pt i0' i1' = some t → i0 = i0' ∧ i1 = i1'

/-- A physical page is one of the table pages of `pt` (root or reachable
interior) as far as the governed part of the walk is concerned. -/
def IsTable (m : Machine) (pt : PageTable) (ex : Nat → Prop) (p : Nat) : Prop :=
  p = pt.root ∨ (∃ i0, Gov ex i0 ∧ l1At m pt i0 = some p) ∨
    (∃ i0 i1, Gov ex i0 ∧ i1 < 512 ∧ l2At m pt i0 i1 = some p)

/-- The leaf PTE of `vpn` is missing or invalid (the state in which
`map` is allowed). -/
def LeafFree (m : Machine) (pt : PageTable) (vpn : Nat) : Prop :=
  ∀ loc, findPte m pt vpn = some loc → pteValid (m.mem loc.1 loc.2) = false

/-- A fresh page table is well-formed for any exemption set. -/
theorem PTInv_new (m : Machine) (ex : Nat → Prop) :
    PTInv (PageTable.new m).1 (PageTable.new m).2 ex := by
  have hmem : ∀ i, (PageTable.new m).1.mem (PageTable.new m).2.root i = 0 := by
    intro i
    simp [PageTable.new, pageAlloc, Machine.zeroPage, Machine.incFree]
  have hl1 : ∀ i0, l1At (PageTable.new m).1 (PageTable.new m).2 i0 = none := by
    intro i0
    rw [l1At]
    simp [hmem, pteValid_zero]
  refine ⟨?_, ?_, ?_, ?_, ?_, ?_, ?_, ?_⟩
  · show m.freeStart < m.freeStart + 1
    omega
  · intro i0 t1 _ h
    rw [hl1] at h
    cases h
  · intro i0 t1 _ h
    rw [hl1] at h
    cases h
  · intro i0 i0' t _ _ h
    rw [hl1] at h
    cases h
  · intro i0 i1 t2 _ _ h
    rw [l2At, hl1] at h
    cases h
  · intro i0 i1 t2 _ _ h
    rw [l2At, hl1] at h
    cases h
  · intro i0 i1 t2 j0 _ _ _ h
    rw [l2At, hl1] at h
    cases h
  · intro i0 i1 i0' i1' t _ _ _ _ h
    rw [l2At, hl1] at h
    cases h

/-- Every leaf of a fresh page table is free, and translation through a
fresh table yields `none`. -/
theorem fresh_leaves (m : Machine) :
    (∀ vpn, findPte (PageTable.new m).1 (PageTable.new m).2 vpn = none) ∧
    (∀ va, translatePT (PageTable.new m).1 (PageTable.new m).2 va = none) := by
  have hmem : ∀ i, (PageTable.new m).1.mem (PageTable.new m).2.root i = 0 := by
    intro i
    simp [PageTable.new, pageAlloc, Machine.zeroPage, Machine.incFree]
  have hl1 : ∀ i0, l1At (PageTable.new m).1 (PageTable.new m).2 i0 = none := by
    intro i0
    rw [l1At]
    simp [hmem, pteValid_zero]
  have hfind : ∀ vpn, findPte (PageTable.new m).1 (PageTable.new m).2 vpn = none := by
    intro vpn
    rw [findPte, l2At, hl1]
  refine ⟨hfind, ?_⟩
  intro va
  rw [translatePT, hfind]

/-! ## Walk helper lemmas -/

theorem l1At_of_valid (m : Machine) (pt : PageTable) (i0 : Nat)
    (h : pteValid (m.mem pt.root i0) = true) :
    l1At m pt i0 = some (ptePageId (m.mem pt.root i0)) := by
  rw [l1At]
  simp [h]

theorem l1At_of_invalid (m : Machine) (pt : PageTable) (i0 : Nat)
    (h : pteValid (m.mem pt.root i0) = false) :
    l1At m pt i0 = none := by
  rw [l1At]
  simp [h]

theorem l2At_of_valid (m : Machine) (pt : PageTable) (i0 i1 t1 : Nat)
    (h1 : l1At m pt i0 = some t1)
    (h : pteValid (m.mem t1 i1) = true) :
    l2At m pt i0 i1 = some (ptePageId (m.mem t1 i1)) := by
  rw [l2At, h1]
  simp [h]

theorem l2At_of_invalid (m : Machine) (pt : PageTable) (i0 i1 t1 : Nat)
    (h1 : l1At m pt i0 = some t1)
    (h : pteValid (m.mem t1 i1) = false) :
    l2At m pt i0 i1 = none := by
  rw [l2At, h1]
  simp [h]

theorem l2At_none_of_l1_none (m : Machine) (pt : PageTable) (i0 i1 : Nat)
    (h1 : l1At m pt i0 = none) : l2At m pt i0 i1 = none := by
  rw [l2At, h1]

/-- Walks only read the root cell and the level-1 cell, so machines that
agree there produce the same interior results. -/
theorem l1At_congr (m m2 : Machine) (pt pt2 : PageTable) (i0 : Nat)
    (hroot : pt2.root = pt.root)
    (hcell : m2.mem pt.root i0 = m.mem pt.root i0) :
    l1At m2 pt2 i0 = l1At m pt i0 := by
  rw [l1At, l1At, hroot, hcell]

theorem findPte_eq_l2 (m : Machine) (pt : PageTable) (vpn : Nat) :
    findPte m pt vpn =
      match l2At m pt (idx0 vpn) (idx1 vpn) with
      | none => none
      | some t2 => some (t2, idx2 vpn) := rfl

/-- Page-aligned address plus a sub-page offset: page number and offset
recovery. -/
theorem page_plus_off_div (vpn off : Nat) (hoff : off < PAGE_SIZE) :
    (vpn * PAGE_SIZE + off) / PAGE_SIZE = vpn := by
  rw [PAGE_SIZE] at *
  rw [Nat.mul_comm, Nat.mul_add_div (by omega), Nat.div_eq_of_lt hoff]
  omega

theorem translatePT_some_off (m : Machine) (pt : PageTable) (vpn off : Nat)
    (loc : Nat × Nat) (hoff : off < PAGE_SIZE)
    (h64 : vpn * PAGE_SIZE + off < USIZE)
    (hfind : findPte m pt vpn = some loc)
    (hvalid : pteValid (m.mem loc.1 loc.2) = true) :
    translatePT m pt (vpn * PAGE_SIZE + off) =
      some (ptePageId (m.mem loc.1 loc.2) * PAGE_SIZE + off) := by
  rw [translatePT, page_plus_off_div vpn off hoff, hfind]
  simp only [hvalid, if_true]
  have hrd : round_down_to (vpn * PAGE_SIZE + off) PAGE_SIZE = vpn * PAGE_SIZE := by
    rw [round_down_4096 _ h64]
    have hdd : (vpn * PAGE_SIZE + off) / 4096 = vpn := page_plus_off_div vpn off hoff
    rw [hdd]
    rw [PAGE_SIZE]
  rw [hrd]
  congr 1
  omega

theorem translatePT_none_off (m : Machine) (pt : PageTable) (vpn off : Nat)
    (hoff : off < PAGE_SIZE)
    (hfree : LeafFree m pt vpn) :
    translatePT m pt (vpn * PAGE_SIZE + off) = none := by
  rw [translatePT, page_plus_off_div vpn off hoff]
  cases hcase : findPte m pt vpn with
  | none => rfl
  | some loc =>
    have := hfree loc hcase
    simp [this]

/-- Transport of the invariant along equal walks. -/
theorem PTInv_congr (m m2 : Machine) (pt pt2 : PageTable) (ex : Nat → Prop)
    (hinv : PTInv m pt ex)
    (hroot : pt2.root = pt.root)
    (hfs : m.freeStart ≤ m2.freeStart)
    (hl1 : ∀ i0, Gov ex i0 → l1At m2 pt2 i0 = l1At m pt i0)
    (hl2 : ∀ i0 i1, Gov ex i0 → l2At m2 pt2 i0 i1 = l2At m pt i0 i1) :
    PTInv m2 pt2 ex := by
  refine ⟨?_, ?_, ?_, ?_, ?_, ?_, ?_, ?_⟩
  · rw [hroot]
    exact Nat.lt_of_lt_of_le hinv.root_lt hfs
  · intro i0 t1 hg h
    rw [hl1 i0 hg] at h
    exact Nat.lt_of_lt_of_le (hinv.l1_lt i0 t1 hg h) hfs
  · intro i0 t1 hg h
    rw [hl1 i0 hg] at h
    rw [hroot]
    exact hinv.l1_ne_root i0 t1 hg h
  · intro i0 i0' t hg hg' h h'
    rw [hl1 i0 hg] at h
    rw [hl1 i0' hg'] at h'
    exact hinv.l1_inj i0 i0' t hg hg' h h'
  · intro i0 i1 t2 hg hi1 h
    rw [hl2 i0 i1 hg] at h
    exact Nat.lt_of_lt_of_le (hinv.l2_lt i0 i1 t2 hg hi1 h) hfs
  · intro i0 i1 t2 hg hi1 h
    rw [hl2 i0 i1 hg] at h
    rw [hroot]
    exact hinv.l2_ne_root i0 i1 t2 hg hi1 h
  · intro i0 i1 t2 j0 hg hi1 hgj h
    rw [hl2 i0 i1 hg] at h
    rw [hl1 j0 hgj]
    exact hinv.l2_ne_l1 i0 i1 t2 j0 hg hi1 hgj h
  · intro i0 i1 i0' i1' t hg hi1 hg' hi1' h h'
    rw [hl2 i0 i1 hg] at h
    rw [hl2 i0' i1' hg'] at h'
    exact hinv.l2_inj i0 i1 i0' i1' t hg hi1 hg' hi1' h h'

/-- Transport of table membership along equal walks. -/
theorem IsTable_congr (m m2 : Machine) (pt pt2 : PageTable) (ex : Nat → Prop)
    (hroot : pt2.root = pt.root)
    (hl1 : ∀ i0, Gov ex i0 → l1At m2 pt2 i0 = l1At m pt i0)
    (hl2 : ∀ i0 i1, Gov ex i0 → l2At m2 pt2 i0 i1 = l2At m pt i0 i1)
    (p : Nat) : IsTable m2 pt2 ex p ↔ IsTable m pt ex p := by
  rw [IsTable, IsTable, hroot]
  constructor
  · rintro (h | ⟨i0, hg, h⟩ | ⟨i0, i1, hg, hi1, h⟩)
    · exact Or.inl h
    · exact Or.inr (Or.inl ⟨i0, hg, by rw [← hl1 i0 hg]; exact h⟩)
    · exact Or.inr (Or.inr ⟨i0, i1, hg, hi1, by rw [← hl2 i0 i1 hg]; exact h⟩)
  · rintro (h | ⟨i0, hg, h⟩ | ⟨i0, i1, hg, hi1, h⟩)
    · exact Or.inl h
    · exact Or.inr (Or.inl ⟨i0, hg, by rw [hl1 i0 hg]; exact h⟩)
    · exact Or.inr (Or.inr ⟨i0, i1, hg, hi1, by rw [hl2 i0 i1 hg]; exact h⟩)

/-- Writing into a leaf cell of an existing level-2 table disturbs no
interior walk. -/
theorem leafWrite_stable (m : Machine) (pt : PageTable) (ex : Nat → Prop)
    (t2 i0v i1v i2v v : Nat)
    (hinv : PTInv m pt ex) (hgov : Gov ex i0v) (hi1 : i1v < 512)
    (hl2v : l2At m pt i0v i1v = some t2) :
    (∀ i0, Gov ex i0 → l1At (m.writeCell t2 i2v v) pt i0 = l1At m pt i0) ∧
    (∀ i0 i1, Gov ex i0 → l2At (m.writeCell t2 i2v v) pt i0 i1 = l2At m pt i0 i1) ∧
    (∀ vpn2, Gov ex (idx0 vpn2) →
      findPte (m.writeCell t2 i2v v) pt vpn2 = findPte m pt vpn2) ∧
    PTInv (m.writeCell t2 i2v v) pt ex ∧
    (∀ p, IsTable (m.writeCell t2 i2v v) pt ex p ↔ IsTable m pt ex p) := by
  have hroot_ne : pt.root ≠ t2 :=
    fun h => hinv.l2_ne_root i0v i1v t2 hgov hi1 hl2v h.symm
  have hl1' : ∀ i0, Gov ex i0 → l1At (m.writeCell t2 i2v v) pt i0 = l1At m pt i0 := by
    intro i0 hg
    exact l1At_congr _ _ _ _ _ rfl (writeCell_read_ne_page _ _ _ _ _ _ hroot_ne)
  have hl2' : ∀ i0 i1, Gov ex i0 →
      l2At (m.writeCell t2 i2v v) pt i0 i1 = l2At m pt i0 i1 := by
    intro i0 i1 hg
    rw [l2At, l2At, hl1' i0 hg]
    cases hc : l1At m pt i0 with
    | none => rfl
    | some t1 =>
      have ht1 : t1 ≠ t2 := fun h => hinv.l2_ne_l1 i0v i1v t2 i0 hgov hi1 hg hl2v (by rw [hc, h])
      dsimp only
      rw [writeCell_read_ne_page _ _ _ _ _ _ ht1]
  have hfind' : ∀ vpn2, Gov ex (idx0 vpn2) →
      findPte (m.writeCell t2 i2v v) pt vpn2 = findPte m pt vpn2 := by
    intro vpn2 hg
    rw [findPte, findPte, hl2' _ _ hg]
  refine ⟨hl1', hl2', hfind', ?_, ?_⟩
  · exact PTInv_congr m _ pt pt ex hinv rfl (le_refl _) hl1' hl2'
  · intro p
    exact IsTable_congr m _ pt pt ex rfl hl1' hl2' p

/-- Behaviour of find_pte_create on a well-formed table: it returns the
level-2 table of `vpn` (allocating fresh zeroed interior tables as
needed), preserves the invariant, every pre-existing leaf, and all frames
that are neither table pages nor freshly allocated. -/
theorem findPteCreate_spec (m : Machine) (pt : PageTable) (ex : Nat → Prop) (vpn : Nat)
    (hinv : PTInv m pt ex) (hgov : Gov ex (idx0 vpn))
    (hcap : m.freeStart + 2 < 2 ^ 44)
    (hfree : LeafFree m pt vpn) :
    ∃ m1 pt1 t2, findPteCreate m pt vpn = (m1, pt1, t2, idx2 vpn) ∧
      pt1.root = pt.root ∧
      m1.thead = m.thead ∧
      m.freeStart ≤ m1.freeStart ∧ m1.freeStart ≤ m.freeStart + 2 ∧
      PTInv m1 pt1 ex ∧
      l2At m1 pt1 (idx0 vpn) (idx1 vpn) = some t2 ∧
      pteValid (m1.mem t2 (idx2 vpn)) = false ∧
      (∀ vpn2 loc2, Gov ex (idx0 vpn2) → findPte m pt vpn2 = some loc2 →
        findPte m1 pt1 vpn2 = some loc2 ∧ m1.mem loc2.1 loc2.2 = m.mem loc2.1 loc2.2) ∧
      (∀ vpn2, Gov ex (idx0 vpn2) → findPte m pt vpn2 = none →
        findPte m1 pt1 vpn2 = none ∨
          ∃ loc2, findPte m1 pt1 vpn2 = some loc2 ∧ m1.mem loc2.1 loc2.2 = 0) ∧
      (∀ p i, p < m.freeStart → ¬ IsTable m pt ex p → m1.mem p i = m.mem p i) ∧
      (∀ p, IsTable m1 pt1 ex p → IsTable m pt ex p ∨ m.freeStart ≤ p) := by
  cases hv0 : pteValid (m.mem pt.root (idx0 vpn)) with
  | true =>
    have hl1v : l1At m pt (idx0 vpn) = some (ptePageId (m.mem pt.root (idx0 vpn))) :=
      l1At_of_valid m pt _ hv0
    set t1 : Nat := ptePageId (m.mem pt.root (idx0 vpn)) with ht1def
    have ht1lt : t1 < m.freeStart := hinv.l1_lt _ _ hgov hl1v
    cases hv1 : pteValid (m.mem t1 (idx1 vpn)) with
    | true =>
      -- Case A: both interior levels already present; no writes at all.
      have hl2v : l2At m pt (idx0 vpn) (idx1 vpn) = some (ptePageId (m.mem t1 (idx1 vpn))) :=
        l2At_of_valid m pt _ _ t1 hl1v hv1
      set t2 : Nat := ptePageId (m.mem t1 (idx1 vpn)) with ht2def
      have hstep : findPteCreate m pt vpn = (m, pt, t2, idx2 vpn) := by
        rw [findPteCreate]
        simp only [hv0, if_true, hv1, ← ht1def, ← ht2def]
      refine ⟨m, pt, t2, hstep, rfl, rfl, le_refl _, by omega, hinv, hl2v, ?_, ?_, ?_, ?_, ?_⟩
      · have hfind : findPte m pt vpn = some (t2, idx2 vpn) := by
          rw [findPte, hl2v]
        exact hfree (t2, idx2 vpn) hfind
      · intro vpn2 loc2 _ h
        exact ⟨h, rfl⟩
      · intro vpn2 _ h
        exact Or.inl h
      · intro p i _ _
        rfl
      · intro p h
        exact Or.inl h
    | false =>
      -- Case B: level-1 entry missing; allocate one fresh level-2 table.
      have hl2none : l2At m pt (idx0 vpn) (idx1 vpn) = none :=
        l2At_of_invalid m pt _ _ t1 hl1v hv1
      set f : Nat := m.freeStart with hfdef
      set m1 : Machine :=
        (((m.zeroPage f).incFree 1).writeCell t1 (idx1 vpn) (pteNew f 1)) with hm1def
      set pt1 : PageTable := ⟨pt.root, pt.pages ++ [f]⟩ with hpt1def
      have hfval : ptePageId (pteNew f 1) = f := pteNew_interior_pageId f (by omega)
      have hstep : findPteCreate m pt vpn = (m1, pt1, f, idx2 vpn) := by
        rw [findPteCreate]
        simp only [hv0, if_true, ← ht1def, hv1, Bool.false_eq_true, if_false,
          pageAlloc, ← hfdef, ← hm1def, hfval]
      -- reads in m1
      have hm1read : ∀ p i, m1.mem p i =
          if p = t1 ∧ i = idx1 vpn then pteNew f 1
          else if p = f then 0 else m.mem p i := by
        intro p i
        rfl
      have ht1nroot : t1 ≠ pt.root := hinv.l1_ne_root _ _ hgov hl1v
      have hrootlt : pt.root < f := hinv.root_lt
      have hrootne : pt.root ≠ t1 := fun h => ht1nroot h.symm
      have hrootnef : pt.root ≠ f := by omega
      -- the root row is untouched
      have hl1eq : ∀ i0, l1At m1 pt1 i0 = l1At m pt i0 := by
        intro i0
        apply l1At_congr
        · rfl
        · rw [hm1read]
          simp [hrootne, hrootnef]
      -- level-2 reads
      have hl2eq : ∀ i0 i1, Gov ex i0 → (i0 ≠ idx0 vpn ∨ i1 ≠ idx1 vpn) →
          l2At m1 pt1 i0 i1 = l2At m pt i0 i1 := by
        intro i0 i1 hg hne
        rw [l2At, l2At, hl1eq i0]
        cases hc : l1At m pt i0 with
        | none => rfl
        | some t1' =>
          dsimp only
          have ht1'lt : t1' < f := hinv.l1_lt _ _ hg hc
          have ht1'nef : t1' ≠ f := by omega
          rcases hne with hne | hne
          · have : t1' ≠ t1 := by
              intro h
              exact hne (hinv.l1_inj i0 (idx0 vpn) t1 hg hgov (h ▸ hc) hl1v)
            rw [hm1read]
            simp [this, ht1'nef]
          · rw [hm1read]
            by_cases hpt1' : t1' = t1
            · simp [hne, ht1'nef]
            · simp [hpt1', ht1'nef]
      have hl2new : l2At m1 pt1 (idx0 vpn) (idx1 vpn) = some f := by
        rw [l2At, hl1eq _, hl1v]
        dsimp only
        rw [hm1read]
        simp [pteNew_interior_valid, hfval]
      -- freshly allocated table is zero away from the written interior cell
      have hfzero : ∀ i, m1.mem f i = if f = t1 ∧ i = idx1 vpn then pteNew f 1 else 0 := by
        intro i
        rw [hm1read]
        by_cases h : f = t1 ∧ i = idx1 vpn
        · simp [h]
        · simp [h]
      have hfnet1 : f ≠ t1 := by omega
      refine ⟨m1, pt1, f, hstep, rfl, rfl, by rw [hm1def]; show m.freeStart ≤ m.freeStart + 1; omega,
        by rw [hm1def]; show m.freeStart + 1 ≤ m.freeStart + 2; omega, ?_, hl2new, ?_, ?_, ?_, ?_, ?_⟩
      · -- PTInv m1 pt1
        refine ⟨?_, ?_, ?_, ?_, ?_, ?_, ?_, ?_⟩
        · show pt.root < m.freeStart + 1
          omega
        · intro i0 t hg h
          rw [hl1eq] at h
          have := hinv.l1_lt i0 t hg h
          show t < m.freeStart + 1
          omega
        · intro i0 t hg h
          rw [hl1eq] at h
          exact hinv.l1_ne_root i0 t hg h
        · intro i0 i0' t hg hg' h h'
          rw [hl1eq] at h h'
          exact hinv.l1_inj i0 i0' t hg hg' h h'
        · intro i0 i1 t hg hi1 h
          show t < m.freeStart + 1
          by_cases hcase : i0 = idx0 vpn ∧ i1 = idx1 vpn
          · rw [hcase.1, hcase.2, hl2new] at h
            cases h
            omega
          · rw [hl2eq i0 i1 hg (by tauto)] at h
            have := hinv.l2_lt i0 i1 t hg hi1 h
            omega
        · intro i0 i1 t hg hi1 h
          by_cases hcase : i0 = idx0 vpn ∧ i1 = idx1 vpn
          · rw [hcase.1, hcase.2, hl2new] at h
            cases h
            show f ≠ pt.root
            omega
          · rw [hl2eq i0 i1 hg (by tauto)] at h
            exact hinv.l2_ne_root i0 i1 t hg hi1 h
        · intro i0 i1 t j0 hg hi1 hgj h
          rw [hl1eq]
          by_cases hcase : i0 = idx0 vpn ∧ i1 = idx1 vpn
          · rw [hcase.1, hcase.2, hl2new] at h
            cases h
            intro hc
            have := hinv.l1_lt j0 f hgj hc
            omega
          · rw [hl2eq i0 i1 hg (by tauto)] at h
            exact hinv.l2_ne_l1 i0 i1 t j0 hg hi1 hgj h
        · intro i0 i1 i0' i1' t hg hi1 hg' hi1' h h'
          by_cases hcase : i0 = idx0 vpn ∧ i1 = idx1 vpn
          · by_cases hcase' : i0' = idx0 vpn ∧ i1' = idx1 vpn
            · refine ⟨by rw [hcase.1, hcase'.1], by rw [hcase.2, hcase'.2]⟩
            · rw [hcase.1, hcase.2, hl2new] at h
              cases h
              rw [hl2eq i0' i1' hg' (by tauto)] at h'
              have := hinv.l2_lt i0' i1' f hg' hi1' h'
              omega
          · rw [hl2eq i0 i1 hg (by tauto)] at h
            by_cases hcase' : i0' = idx0 vpn ∧ i1' = idx1 vpn
            · rw [hcase'.1, hcase'.2, hl2new] at h'
              cases h'
              have := hinv.l2_lt i0 i1 f hg hi1 h
              omega
            · rw [hl2eq i0' i1' hg' (by tauto)] at h'
              exact hinv.l2_inj i0 i1 i0' i1' t hg hi1 hg' hi1' h h'
      · -- fresh leaf cell is zero hence invalid
        rw [hfzero]
        simp [hfnet1, pteValid_zero]
      · -- P1
        intro vpn2 loc2 hg2 h
        rw [findPte] at h
        cases hc : l2At m pt (idx0 vpn2) (idx1 vpn2) with
        | none =>
          rw [hc] at h
          cases h
        | some t2' =>
          rw [hc] at h
          cases h
          have hpair : ¬ (idx0 vpn2 = idx0 vpn ∧ idx1 vpn2 = idx1 vpn) := by
            intro hpair
            rw [hpair.1, hpair.2, hl2none] at hc
            cases hc
          have hfind1 : findPte m1 pt1 vpn2 = some (t2', idx2 vpn2) := by
            rw [findPte, hl2eq _ _ hg2 (by tauto), hc]
          refine ⟨hfind1, ?_⟩
          have ht2'lt : t2' < f := hinv.l2_lt _ _ _ hg2 (idx1_lt vpn2) hc
          have ht2'ne1 : t2' ≠ t1 := fun h =>
            hinv.l2_ne_l1 _ _ t2' (idx0 vpn) hg2 (idx1_lt vpn2) hgov hc (by rw [h, hl1v])
          rw [hm1read]
          simp [ht2'ne1, show t2' ≠ f by omega]
      · -- P2
        intro vpn2 hg2 h
        rw [findPte] at h
        cases hc : l2At m pt (idx0 vpn2) (idx1 vpn2) with
        | some t2' => rw [hc] at h; cases h
        | none =>
          by_cases hpair : idx0 vpn2 = idx0 vpn ∧ idx1 vpn2 = idx1 vpn
          · right
            refine ⟨(f, idx2 vpn2), ?_, ?_⟩
            · rw [findPte, hpair.1, hpair.2, hl2new]
            · rw [hfzero]
              simp [hfnet1]
          · left
            rw [findPte, hl2eq _ _ hg2 (by tauto), hc]
      · -- frame
        intro p i hp hnt
        have hpt1ne : p ≠ t1 := fun h => hnt (Or.inr (Or.inl ⟨idx0 vpn, hgov, h ▸ hl1v⟩))
        rw [hm1read]
        simp [hpt1ne, show p ≠ f by omega]
      · -- table growth
        intro p h
        rcases h with h | ⟨i0, hg, h⟩ | ⟨i0, i1, hg, hi1, h⟩
        · exact Or.inl (Or.inl h)
        · rw [hl1eq] at h
          exact Or.inl (Or.inr (Or.inl ⟨i0, hg, h⟩))
        · by_cases hcase : i0 = idx0 vpn ∧ i1 = idx1 vpn
          · rw [hcase.1, hcase.2, hl2new] at h
            cases h
            right
            omega
          · rw [hl2eq i0 i1 hg (by tauto)] at h
            exact Or.inl (Or.inr (Or.inr ⟨i0, i1, hg, hi1, h⟩))
  | false =>
    -- Case C: no level-1 table; allocate two fresh tables.
    have hl1none : l1At m pt (idx0 vpn) = none := l1At_of_invalid m pt _ hv0
    set f : Nat := m.freeStart with hfdef
    set mA : Machine :=
      (((m.zeroPage f).incFree 1).writeCell pt.root (idx0 vpn) (pteNew f 1)) with hmAdef
    have hfval : ptePageId (pteNew f 1) = f := pteNew_interior_pageId f (by omega)
    have hf1val : ptePageId (pteNew (f + 1) 1) = f + 1 := pteNew_interior_pageId (f + 1) (by omega)
    have hrootlt : pt.root < f := hinv.root_lt
    have hmAread : ∀ p i, mA.mem p i =
        if p = pt.root ∧ i = idx0 vpn then pteNew f 1
        else if p = f then 0 else m.mem p i := by
      intro p i
      rfl
    have hv1A : pteValid (mA.mem f (idx1 vpn)) = false := by
      rw [hmAread]
      simp [show f ≠ pt.root by omega, pteValid_zero]
    set m1 : Machine :=
      (((mA.zeroPage (f + 1)).incFree 1).writeCell f (idx1 vpn) (pteNew (f + 1) 1)) with hm1def
    set pt1 : PageTable := ⟨pt.root, pt.pages ++ [f] ++ [f + 1]⟩ with hpt1def
    have hstep : findPteCreate m pt vpn = (m1, pt1, f + 1, idx2 vpn) := by
      rw [findPteCreate]
      simp only [hv0, Bool.false_eq_true, if_false, pageAlloc, ← hfdef, ← hmAdef, hfval]
      have hfsA : mA.freeStart = f + 1 := rfl
      simp only [hv1A, Bool.false_eq_true, if_false, hfsA, ← hm1def, hf1val, ← hpt1def]
    have hm1read : ∀ p i, m1.mem p i =
        if p = f ∧ i = idx1 vpn then pteNew (f + 1) 1
        else if p = f + 1 then 0
        else if p = pt.root ∧ i = idx0 vpn then pteNew f 1
        else if p = f then 0 else m.mem p i := by
      intro p i
      rw [hm1def]
      rw [writeCell_read]
      by_cases h1 : p = f ∧ i = idx1 vpn
      · simp [h1]
      · simp only [h1, if_false]
        show (if p = f + 1 then 0 else mA.mem p i) =
          if p = f + 1 then 0
          else if p = pt.root ∧ i = idx0 vpn then pteNew f 1
          else if p = f then 0 else m.mem p i
        by_cases h2 : p = f + 1
        · simp [h2]
        · simp only [h2, if_false]
          rw [hmAread]
    have hfs1 : m1.freeStart = f + 2 := rfl
    -- level-1 walk
    have hl1eq : ∀ i0, i0 ≠ idx0 vpn → l1At m1 pt1 i0 = l1At m pt i0 := by
      intro i0 hne
      apply l1At_congr
      · rfl
      · rw [hm1read]
        simp [show pt.root ≠ f by omega, show pt.root ≠ f + 1 by omega, hne]
    have hl1new : l1At m1 pt1 (idx0 vpn) = some f := by
      rw [l1At]
      show (if pteValid (m1.mem pt.root (idx0 vpn)) = true
        then some (ptePageId (m1.mem pt.root (idx0 vpn))) else none) = some f
      rw [hm1read]
      simp [show pt.root ≠ f by omega, show pt.root ≠ f + 1 by omega,
        pteNew_interior_valid, hfval]
    -- level-2 walk
    have hl2eq : ∀ i0 i1, Gov ex i0 → i0 ≠ idx0 vpn →
        l2At m1 pt1 i0 i1 = l2At m pt i0 i1 := by
      intro i0 i1 hg hne
      rw [l2At, l2At, hl1eq i0 hne]
      cases hc : l1At m pt i0 with
      | none => rfl
      | some t1' =>
        dsimp only
        have ht1'lt : t1' < f := hinv.l1_lt _ _ hg hc
        have ht1'nr : t1' ≠ pt.root := hinv.l1_ne_root _ _ hg hc
        rw [hm1read]
        simp [show t1' ≠ f by omega, show t1' ≠ f + 1 by omega, ht1'nr]
    have hl2new : l2At m1 pt1 (idx0 vpn) (idx1 vpn) = some (f + 1) := by
      rw [l2At, hl1new]
      dsimp only
      rw [hm1read]
      simp [pteNew_interior_valid, hf1val]
    have hl2newother : ∀ i1, i1 ≠ idx1 vpn → l2At m1 pt1 (idx0 vpn) i1 = none := by
      intro i1 hne
      rw [l2At, hl1new]
      dsimp only
      rw [hm1read]
      simp [hne, pteValid_zero, show f ≠ pt.root by omega]
    refine ⟨m1, pt1, f + 1, hstep, rfl, rfl, by rw [hfs1]; omega, by rw [hfs1],
      ?_, hl2new, ?_, ?_, ?_, ?_, ?_⟩
    · -- PTInv m1 pt1
      refine ⟨?_, ?_, ?_, ?_, ?_, ?_, ?_, ?_⟩
      · show pt.root < m1.freeStart
        rw [hfs1]
        omega
      · intro i0 t hg h
        show t < m1.freeStart
        rw [hfs1]
        by_cases hcase : i0 = idx0 vpn
        · rw [hcase, hl1new] at h
          cases h
          omega
        · rw [hl1eq i0 hcase] at h
          have := hinv.l1_lt i0 t hg h
          omega
      · intro i0 t hg h
        by_cases hcase : i0 = idx0 vpn
        · rw [hcase, hl1new] at h
          cases h
          show f ≠ pt1.root
          show f ≠ pt.root
          omega
        · rw [hl1eq i0 hcase] at h
          exact hinv.l1_ne_root i0 t hg h
      · intro i0 i0' t hg hg' h h'
        by_cases hcase : i0 = idx0 vpn
        · by_cases hcase' : i0' = idx0 vpn
          · rw [hcase, hcase']
          · rw [hcase, hl1new] at h
            cases h
            rw [hl1eq i0' hcase'] at h'
            have := hinv.l1_lt i0' f hg' h'
            omega
        · rw [hl1eq i0 hcase] at h
          by_cases hcase' : i0' = idx0 vpn
          · rw [hcase', hl1new] at h'
            cases h'
            have := hinv.l1_lt i0 f hg h
            omega
          · rw [hl1eq i0' hcase'] at h'
            exact hinv.l1_inj i0 i0' t hg hg' h h'
      · intro i0 i1 t hg hi1 h
        show t < m1.freeStart
        rw [hfs1]
        by_cases hcase : i0 = idx0 vpn
        · subst hcase
          by_cases hcase1 : i1 = idx1 vpn
          · rw [hcase1, hl2new] at h
            cases h
            omega
          · rw [hl2newother i1 hcase1] at h
            cases h
        · rw [hl2eq i0 i1 hg hcase] at h
          have := hinv.l2_lt i0 i1 t hg hi1 h
          omega
      · intro i0 i1 t hg hi1 h
        by_cases hcase : i0 = idx0 vpn
        · subst hcase
          by_cases hcase1 : i1 = idx1 vpn
          · rw [hcase1, hl2new] at h
            cases h
            show f + 1 ≠ pt1.root
            show f + 1 ≠ pt.root
            omega
          · rw [hl2newother i1 hcase1] at h
            cases h
        · rw [hl2eq i0 i1 hg hcase] at h
          exact hinv.l2_ne_root i0 i1 t hg hi1 h
      · intro i0 i1 t j0 hg hi1 hgj h
        by_cases hcase : i0 = idx0 vpn
        · subst hcase
          by_cases hcase1 : i1 = idx1 vpn
          · rw [hcase1, hl2new] at h
            cases h
            by_cases hj : j0 = idx0 vpn
            · rw [hj, hl1new]
              intro hcc
              cases hcc
            · rw [hl1eq j0 hj]
              intro hcc
              have := hinv.l1_lt j0 (f + 1) hgj hcc
              omega
          · rw [hl2newother i1 hcase1] at h
            cases h
        · rw [hl2eq i0 i1 hg hcase] at h
          by_cases hj : j0 = idx0 vpn
          · rw [hj, hl1new]
            intro hcc
            cases hcc
            have := hinv.l2_lt i0 i1 f hg hi1 h
            omega
          · rw [hl1eq j0 hj]
            exact hinv.l2_ne_l1 i0 i1 t j0 hg hi1 hgj h
      · intro i0 i1 i0' i1' t hg hi1 hg' hi1' h h'
        by_cases hcase : i0 = idx0 vpn
        · subst hcase
          by_cases hcase1 : i1 = idx1 vpn
          · subst hcase1
            rw [hl2new] at h
            cases h
            by_cases hcase' : i0' = idx0 vpn
            · subst hcase'
              by_cases hcase1' : i1' = idx1 vpn
              · subst hcase1'
                exact ⟨rfl, rfl⟩
              · rw [hl2newother i1' hcase1'] at h'
                cases h'
            · rw [hl2eq i0' i1' hg' hcase'] at h'
              have := hinv.l2_lt i0' i1' (f + 1) hg' hi1' h'
              omega
          · rw [hl2newother i1 hcase1] at h
            cases h
        · rw [hl2eq i0 i1 hg hcase] at h
          by_cases hcase' : i0' = idx0 vpn
          · subst hcase'
            by_cases hcase1' : i1' = idx1 vpn
            · subst hcase1'
              rw [hl2new] at h'
              cases h'
              have := hinv.l2_lt i0 i1 (f + 1) hg hi1 h
              omega
            · rw [hl2newother i1' hcase1'] at h'
              cases h'
          · rw [hl2eq i0' i1' hg' hcase'] at h'
            exact hinv.l2_inj i0 i1 i0' i1' t hg hi1 hg' hi1' h h'
    · -- fresh leaf cell: page f + 1 is zero everywhere
      rw [hm1read]
      simp [show f + 1 ≠ f by omega, pteValid_zero]
    · -- P1
      intro vpn2 loc2 hg2 h
      rw [findPte] at h
      cases hc : l2At m pt (idx0 vpn2) (idx1 vpn2) with
      | none =>
        rw [hc] at h
        cases h
      | some t2' =>
        rw [hc] at h
        cases h
        have hi0ne : idx0 vpn2 ≠ idx0 vpn := by
          intro heq
          rw [l2At, heq, hl1none] at hc
          cases hc
        have hfind1 : findPte m1 pt1 vpn2 = some (t2', idx2 vpn2) := by
          rw [findPte, hl2eq _ _ hg2 hi0ne, hc]
        refine ⟨hfind1, ?_⟩
        have ht2'lt : t2' < f := hinv.l2_lt _ _ _ hg2 (idx1_lt vpn2) hc
        have ht2'nr : t2' ≠ pt.root := hinv.l2_ne_root _ _ _ hg2 (idx1_lt vpn2) hc
        rw [hm1read]
        simp [show t2' ≠ f by omega, show t2' ≠ f + 1 by omega, ht2'nr]
    · -- P2
      intro vpn2 hg2 h
      rw [findPte] at h
      cases hc : l2At m pt (idx0 vpn2) (idx1 vpn2) with
      | some t2' => rw [hc] at h; cases h
      | none =>
        by_cases hi0 : idx0 vpn2 = idx0 vpn
        · by_cases hi1 : idx1 vpn2 = idx1 vpn
          · right
            refine ⟨(f + 1, idx2 vpn2), ?_, ?_⟩
            · rw [findPte, hi0, hi1, hl2new]
            · rw [hm1read]
              simp [show f + 1 ≠ f by omega]
          · left
            rw [findPte, hi0, hl2newother _ hi1]
        · left
          rw [findPte, hl2eq _ _ hg2 hi0, hc]
    · -- frame
      intro p i hp hnt
      have hpnr : p ≠ pt.root := fun h => hnt (Or.inl h)
      rw [hm1read]
      simp [show p ≠ f by omega, show p ≠ f + 1 by omega, hpnr]
    · -- table growth
      intro p h
      rcases h with h | ⟨i0, hg, h⟩ | ⟨i0, i1, hg, hi1, h⟩
      · exact Or.inl (Or.inl h)
      · by_cases hcase : i0 = idx0 vpn
        · rw [hcase, hl1new] at h
          cases h
          right
          omega
        · rw [hl1eq i0 hcase] at h
          exact Or.inl (Or.inr (Or.inl ⟨i0, hg, h⟩))
      · by_cases hcase : i0 = idx0 vpn
        · subst hcase
          by_cases hcase1 : i1 = idx1 vpn
          · rw [hcase1, hl2new] at h
            cases h
            right
            omega
          · rw [hl2newother i1 hcase1] at h
            cases h
        · rw [hl2eq i0 i1 hg hcase] at h
          exact Or.inl (Or.inr (Or.inr ⟨i0, i1, hg, hi1, h⟩))

theorem page_div (vpn : Nat) : vpn * PAGE_SIZE / PAGE_SIZE = vpn := by
  rw [PAGE_SIZE]
  omega

theorem findPte_inv (m : Machine) (pt : PageTable) (vpn : Nat) (loc : Nat × Nat)
    (h : findPte m pt vpn = some loc) :
    l2At m pt (idx0 vpn) (idx1 vpn) = some loc.1 ∧ loc.2 = idx2 vpn := by
  rw [findPte] at h
  cases hc : l2At m pt (idx0 vpn) (idx1 vpn) with
  | none =>
    rw [hc] at h
    cases h
  | some t2 =>
    rw [hc] at h
    cases h
    exact ⟨rfl, rfl⟩

/-- Full behaviour of PageTable::map at a page-aligned address on a
well-formed table with a free leaf. -/
theorem mapPT_spec (m : Machine) (pt : PageTable) (ex : Nat → Prop) (vpn pa flags : Nat)
    (hinv : PTInv m pt ex) (hgov : Gov ex (idx0 vpn))
    (hfree : LeafFree m pt vpn)
    (hpa : pa / PAGE_SIZE < 2 ^ 44) (hfl : flags < 256)
    (hcap : m.freeStart + 2 < 2 ^ 44) :
    ∃ m2 pt2, mapPT m pt (vpn * PAGE_SIZE) pa flags = some (m2, pt2) ∧
      pt2.root = pt.root ∧ m2.thead = m.thead ∧
      m.freeStart ≤ m2.freeStart ∧ m2.freeStart ≤ m.freeStart + 2 ∧
      PTInv m2 pt2 ex ∧
      (∃ loc, findPte m2 pt2 vpn = some loc ∧
        m2.mem loc.1 loc.2 = mkPteVal m.thead (vpn * PAGE_SIZE) pa flags) ∧
      (∀ vpn2 loc2, Gov ex (idx0 vpn2) →
        (idx0 vpn2 ≠ idx0 vpn ∨ idx1 vpn2 ≠ idx1 vpn ∨ idx2 vpn2 ≠ idx2 vpn) →
        findPte m pt vpn2 = some loc2 →
        findPte m2 pt2 vpn2 = some loc2 ∧ m2.mem loc2.1 loc2.2 = m.mem loc2.1 loc2.2) ∧
      (∀ vpn2, Gov ex (idx0 vpn2) →
        (idx0 vpn2 ≠ idx0 vpn ∨ idx1 vpn2 ≠ idx1 vpn ∨ idx2 vpn2 ≠ idx2 vpn) →
        findPte m pt vpn2 = none → LeafFree m2 pt2 vpn2) ∧
      (∀ p i, p < m.freeStart → ¬ IsTable m pt ex p → m2.mem p i = m.mem p i) ∧
      (∀ p, IsTable m2 pt2 ex p → IsTable m pt ex p ∨ m.freeStart ≤ p) := by
  obtain ⟨m1, pt1, t2, hstep, hroot1, hth1, hfs1a, hfs1b, hinv1, hl2v1, hleafinv,
    hP1, hP2, hframe1, htab1⟩ := findPteCreate_spec m pt ex vpn hinv hgov hcap hfree
  have hfind1 : findPte m1 pt1 vpn = some (t2, idx2 vpn) := by
    rw [findPte, hl2v1]
  obtain ⟨hl1s, hl2s, hfinds, hinv2, htabs⟩ :=
    leafWrite_stable m1 pt1 ex t2 (idx0 vpn) (idx1 vpn) (idx2 vpn)
      (mkPteVal m1.thead (vpn * PAGE_SIZE) pa flags) hinv1 hgov (idx1_lt vpn) hl2v1
  set m2 : Machine :=
    m1.writeCell t2 (idx2 vpn) (mkPteVal m1.thead (vpn * PAGE_SIZE) pa flags) with hm2def
  have hmap : mapPT m pt (vpn * PAGE_SIZE) pa flags = some (m2, pt1) := by
    rw [mapPT, page_div, hstep]
    show (match setPte m1 t2 (idx2 vpn) pa (vpn * PAGE_SIZE) flags with
      | none => none
      | some m2' => some (m2', pt1)) = some (m2, pt1)
    rw [setPte]
    simp [hleafinv]
  refine ⟨m2, pt1, hmap, hroot1, ?_, ?_, ?_, hinv2, ?_, ?_, ?_, ?_, ?_⟩
  · show m2.thead = m.thead
    rw [hm2def, writeCell_thead, hth1]
  · rw [hm2def, writeCell_freeStart]
    exact hfs1a
  · rw [hm2def, writeCell_freeStart]
    exact hfs1b
  · refine ⟨(t2, idx2 vpn), ?_, ?_⟩
    · rw [hfinds vpn hgov, hfind1]
    · show m2.mem t2 (idx2 vpn) = _
      rw [hm2def, writeCell_read_same, hth1]
  · -- P1
    intro vpn2 loc2 hg2 hne h
    obtain ⟨hold, holdv⟩ := hP1 vpn2 loc2 hg2 h
    obtain ⟨hl2l, hl2i⟩ := findPte_inv m1 pt1 vpn2 loc2 hold
    refine ⟨by rw [hfinds vpn2 hg2, hold], ?_⟩
    have hcell : m2.mem loc2.1 loc2.2 = m1.mem loc2.1 loc2.2 := by
      by_cases hpeq : loc2.1 = t2
      · have := hinv1.l2_inj (idx0 vpn2) (idx1 vpn2) (idx0 vpn) (idx1 vpn) t2 hg2
          (idx1_lt vpn2) hgov (idx1_lt vpn) (hpeq ▸ hl2l) hl2v1
        have hi2ne : idx2 vpn2 ≠ idx2 vpn := by tauto
        rw [hm2def, hpeq, writeCell_read_ne_cell]
        rw [hl2i]
        exact hi2ne
      · rw [hm2def, writeCell_read_ne_page _ _ _ _ _ _ hpeq]
    rw [hcell, holdv]
  · -- P2
    intro vpn2 hg2 hne h
    rcases hP2 vpn2 hg2 h with hnone | ⟨loc2, hsome, hzero⟩
    · intro loc hl
      rw [hfinds vpn2 hg2, hnone] at hl
      cases hl
    · intro loc hl
      rw [hfinds vpn2 hg2, hsome] at hl
      cases hl
      obtain ⟨hl2l, hl2i⟩ := findPte_inv m1 pt1 vpn2 loc2 hsome
      have hcell : m2.mem loc2.1 loc2.2 = m1.mem loc2.1 loc2.2 := by
        by_cases hpeq : loc2.1 = t2
        · have := hinv1.l2_inj (idx0 vpn2) (idx1 vpn2) (idx0 vpn) (idx1 vpn) t2 hg2
            (idx1_lt vpn2) hgov (idx1_lt vpn) (hpeq ▸ hl2l) hl2v1
          have hi2ne : idx2 vpn2 ≠ idx2 vpn := by tauto
          rw [hm2def, hpeq, writeCell_read_ne_cell]
          rw [hl2i]
          exact hi2ne
        · rw [hm2def, writeCell_read_ne_page _ _ _ _ _ _ hpeq]
      rw [hcell, hzero, pteValid_zero]
  · -- frame
    intro p i hp hnt
    have hpne : p ≠ t2 := by
      intro hpeq
      have : IsTable m1 pt1 ex t2 :=
        Or.inr (Or.inr ⟨idx0 vpn, idx1 vpn, hgov, idx1_lt vpn, hl2v1⟩)
      rcases htab1 t2 this with hh | hh
      · exact hnt (hpeq ▸ hh)
      · omega
    rw [hm2def, writeCell_read_ne_page _ _ _ _ _ _ hpne]
    exact hframe1 p i hp hnt
  · -- tables
    intro p h
    exact htab1 p ((htabs p).mp h)

/-- Full behaviour of PageTable::unmap at a page-aligned address of a
mapped page on a well-formed table. -/
theorem unmapPT_spec (m : Machine) (pt : PageTable) (ex : Nat → Prop) (vpn : Nat)
    (loc : Nat × Nat)
    (hinv : PTInv m pt ex) (hgov : Gov ex (idx0 vpn))
    (hfind : findPte m pt vpn = some loc)
    (hvalid : pteValid (m.mem loc.1 loc.2) = true) :
    unmapPT m pt (vpn * PAGE_SIZE) = some (m.writeCell loc.1 loc.2 0) ∧
    PTInv (m.writeCell loc.1 loc.2 0) pt ex ∧
    LeafFree (m.writeCell loc.1 loc.2 0) pt vpn ∧
    (∀ vpn2 loc2, Gov ex (idx0 vpn2) →
      (idx0 vpn2 ≠ idx0 vpn ∨ idx1 vpn2 ≠ idx1 vpn ∨ idx2 vpn2 ≠ idx2 vpn) →
      findPte m pt vpn2 = some loc2 →
      findPte (m.writeCell loc.1 loc.2 0) pt vpn2 = some loc2 ∧
        (m.writeCell loc.1 loc.2 0).mem loc2.1 loc2.2 = m.mem loc2.1 loc2.2) ∧
    (∀ p i, p < m.freeStart → ¬ IsTable m pt ex p →
      (m.writeCell loc.1 loc.2 0).mem p i = m.mem p i) ∧
    (∀ p, IsTable (m.writeCell loc.1 loc.2 0) pt ex p ↔ IsTable m pt ex p) ∧
    (m.writeCell loc.1 loc.2 0).freeStart = m.freeStart ∧
    (m.writeCell loc.1 loc.2 0).thead = m.thead := by
  obtain ⟨hl2l, hl2i⟩ := findPte_inv m pt vpn loc hfind
  obtain ⟨hl1s, hl2s, hfinds, hinv2, htabs⟩ :=
    leafWrite_stable m pt ex loc.1 (idx0 vpn) (idx1 vpn) loc.2 0 hinv hgov
      (idx1_lt vpn) hl2l
  have hstep : unmapPT m pt (vpn * PAGE_SIZE) = some (m.writeCell loc.1 loc.2 0) := by
    rw [unmapPT, page_div, hfind]
    simp [hvalid]
  refine ⟨hstep, hinv2, ?_, ?_, ?_, htabs, rfl, rfl⟩
  · intro loc2 hl
    rw [hfinds vpn hgov, hfind] at hl
    cases hl
    rw [writeCell_read_same, pteValid_zero]
  · intro vpn2 loc2 hg2 hne h
    obtain ⟨hl2l2, hl2i2⟩ := findPte_inv m pt vpn2 loc2 h
    refine ⟨by rw [hfinds vpn2 hg2, h], ?_⟩
    by_cases hpeq : loc2.1 = loc.1
    · have := hinv.l2_inj (idx0 vpn2) (idx1 vpn2) (idx0 vpn) (idx1 vpn) loc.1 hg2
        (idx1_lt vpn2) hgov (idx1_lt vpn) (hpeq ▸ hl2l2) hl2l
      have hi2ne : idx2 vpn2 ≠ idx2 vpn := by tauto
      rw [hpeq, writeCell_read_ne_cell]
      rw [hl2i2, hl2i]
      exact hi2ne
    · rw [writeCell_read_ne_page _ _ _ _ _ _ hpeq]
  · intro p i hp hnt
    have hpne : p ≠ loc.1 := by
      intro hpeq
      exact hnt (hpeq ▸ Or.inr (Or.inr ⟨idx0 vpn, idx1 vpn, hgov, idx1_lt vpn, hl2l⟩))
    rw [writeCell_read_ne_page _ _ _ _ _ _ hpne]

/-! ## Claim C4: PageTable map / unmap / translate -/

/-- Claim C4 counterexample: with the page-unaligned virtual address
`va = 4097` and the page-aligned physical address `pa = 8192`, after
`map(va, pa, flags)` the translation of `va` is `Some 8193`
(= `pa + va % 4096`), not `Some pa` as the claim states for every virtual
address. -/
theorem pageTable_c4_counterexample :
    Option.map (fun r => translatePT r.1 r.2 4097)
      (mapPT (PageTable.new ⟨fun _ _ => 0, 10, false⟩).1
        (PageTable.new ⟨fun _ _ => 0, 10, false⟩).2 4097 8192 22) =
      some (some 8193) ∧
    some (some (8193 : Nat)) ≠ some (some (8192 : Nat)) := by
  constructor
  · decide
  · decide

/-- Claim C4 (amended): for a fresh PageTable, a page-aligned `pa` and a
page-aligned `va` (the claim's arbitrary `va` must be aligned): every
translation on the fresh table is `None`; after `map(va, pa, flags)`,
`translate(va + off) = Some (pa + off)` for every `off < 4096`; after a
subsequent `unmap(va)` the translation of `va` is `None` again (the leaf
PTE is invalid). -/
theorem pageTable_map_translate_props (m : Machine) (va pa flags : Nat)
    (hva : va % PAGE_SIZE = 0) (hpa : pa % PAGE_SIZE = 0)
    (hva64 : va + PAGE_SIZE ≤ USIZE)
    (hpa44 : pa / PAGE_SIZE < 2 ^ 44) (hfl : flags < 256)
    (hcap : m.freeStart + 3 < 2 ^ 44) :
    (∀ va2, translatePT (PageTable.new m).1 (PageTable.new m).2 va2 = none) ∧
    ∃ m2 pt2, mapPT (PageTable.new m).1 (PageTable.new m).2 va pa flags = some (m2, pt2) ∧
      (∀ off, off < PAGE_SIZE → translatePT m2 pt2 (va + off) = some (pa + off)) ∧
      ∃ m3, unmapPT m2 pt2 va = some m3 ∧ translatePT m3 pt2 va = none := by
  obtain ⟨hfindnone, htransnone⟩ := fresh_leaves m
  refine ⟨htransnone, ?_⟩
  set vpn : Nat := va / PAGE_SIZE with hvpndef
  have hvaeq : vpn * PAGE_SIZE = va := by
    rw [hvpndef]
    exact Nat.div_mul_cancel (Nat.dvd_of_mod_eq_zero hva)
  have hinv1 : PTInv (PageTable.new m).1 (PageTable.new m).2 (fun _ => False) :=
    PTInv_new m _
  have hfree1 : LeafFree (PageTable.new m).1 (PageTable.new m).2 vpn := by
    intro loc h
    rw [hfindnone] at h
    cases h
  have hgov : Gov (fun _ => False) (idx0 vpn) := ⟨idx0_lt vpn, fun h => h⟩
  have hcap1 : (PageTable.new m).1.freeStart + 2 < 2 ^ 44 := by
    rw [PageTable.new]
    show m.freeStart + 1 + 2 < 2 ^ 44
    omega
  obtain ⟨m2, pt2, hmap, hroot2, hth2, hfsa, hfsb, hinv2, ⟨loc, hfindloc, hval⟩,
    _, _, _, _⟩ :=
    mapPT_spec (PageTable.new m).1 (PageTable.new m).2 (fun _ => False) vpn pa flags
      hinv1 hgov hfree1 hpa44 hfl hcap1
  rw [hvaeq] at hmap
  have hvalid : pteValid (m2.mem loc.1 loc.2) = true := by
    rw [hval]
    exact mkPteVal_valid _ _ _ _ hfl hpa44
  refine ⟨m2, pt2, hmap, ?_, ?_⟩
  · intro off hoff
    have h64 : vpn * PAGE_SIZE + off < USIZE := by
      rw [hvaeq]
      rw [PAGE_SIZE] at *
      omega
    have := translatePT_some_off m2 pt2 vpn off loc hoff h64 hfindloc hvalid
    rw [hvaeq] at this
    rw [this, hval]
    rw [mkPteVal_pageId _ _ _ _ hfl hpa44]
    rw [Nat.div_mul_cancel (Nat.dvd_of_mod_eq_zero hpa)]
  · obtain ⟨hunmap, hinv3, hfree3, _, _, _, _, _⟩ :=
      unmapPT_spec m2 pt2 (fun _ => False) vpn loc hinv2 hgov hfindloc hvalid
    rw [hvaeq] at hunmap
    refine ⟨_, hunmap, ?_⟩
    have := translatePT_none_off (m2.writeCell loc.1 loc.2 0) pt2 vpn 0
      (by rw [PAGE_SIZE]; omega) hfree3
    rw [Nat.add_zero, hvaeq] at this
    exact this

/-- Witness for the amended C4 theorem at a concrete machine and
`va = 4096`, `pa = 8192`, `flags = 22`. -/
theorem pageTable_map_translate_props_witness :
    ((4096 : Nat) % PAGE_SIZE = 0 ∧ (8192 : Nat) % PAGE_SIZE = 0 ∧
      (4096 : Nat) + PAGE_SIZE ≤ USIZE ∧ (8192 : Nat) / PAGE_SIZE < 2 ^ 44 ∧
      (22 : Nat) < 256 ∧ (10 : Nat) + 3 < 2 ^ 44) ∧
    ((∀ va2, translatePT (PageTable.new ⟨fun _ _ => 0, 10, false⟩).1
        (PageTable.new ⟨fun _ _ => 0, 10, false⟩).2 va2 = none) ∧
    ∃ m2 pt2, mapPT (PageTable.new ⟨fun _ _ => 0, 10, false⟩).1
        (PageTable.new ⟨fun _ _ => 0, 10, false⟩).2 4096 8192 22 = some (m2, pt2) ∧
      (∀ off, off < PAGE_SIZE → translatePT m2 pt2 (4096 + off) = some (8192 + off)) ∧
      ∃ m3, unmapPT m2 pt2 4096 = some m3 ∧ translatePT m3 pt2 4096 = none) :=
  ⟨⟨by decide, by decide, by decide, by decide, by decide, by decide⟩,
    pageTable_map_translate_props ⟨fun _ _ => 0, 10, false⟩ 4096 8192 22
      (by decide) (by decide) (by decide) (by decide) (by decide) (by decide)⟩

/-! ## ProcessMemory (src/src/process/process_memory.rs)

`maps` is the `BTreeMap<VirtPageId, (PhyPage, PTEFlags)>`, embedded as an
association list with unique keys (`insert` replaces, `remove` deletes;
BTreeMap's sorted iteration order is not relied on by any claim). -/

/-- Entry: (virtual page id, owned physical page id, PTEFlags bits). -/
abbrev MapsList := List (Nat × Nat × Nat)

def mapsInsert : MapsList → Nat → Nat → Nat → MapsList
  | [], k, pg, fl => [(k, pg, fl)]
  | e :: rest, k, pg, fl =>
    if e.1 = k then (k, pg, fl) :: rest else e :: mapsInsert rest k pg fl

def mapsLookup : MapsList → Nat → Option (Nat × Nat)
  | [], _ => none
  | e :: rest, k => if e.1 = k then some (e.2.1, e.2.2) else mapsLookup rest k

def mapsRemove : MapsList → Nat → MapsList
  | [], _ => []
  | e :: rest, k => if e.1 = k then rest else e :: mapsRemove rest k

def mapsContains (l : MapsList) (k : Nat) : Bool :=
  (mapsLookup l k).isSome

structure ProcessMemory where
  page_table : PageTable
  maps : MapsList
  prog_end : Nat
  min_brk : Nat
  brk : Nat
  stack_base : Nat
  stack_top : Nat
  mmap_base : Nat

/-- Root-table index of the kernel huge-page entry
(`KERNEL_SPACE_BASE >> 30 = 2`); the software walk never goes through it
for the user claims. -/
def kernelEx : Nat → Prop := fun i0 => i0 = 2

/-- ProcessMemory::new: fresh page table plus the kernel huge mapping
(R|W|X|G = 46); all bounds at their initial values. -/
def ProcessMemory.new (m : Machine) : Option (Machine × ProcessMemory) :=
  match mapBig (PageTable.new m).1 (PageTable.new m).2
      KERNEL_SPACE_BASE KERNEL_SPACE_BASE 46 with
  | none => none
  | some m2 => some (m2,
      { page_table := (PageTable.new m).2
        maps := []
        prog_end := 0
        min_brk := 0
        brk := 0
        stack_base := PROCESS_USER_STACK_BASE
        stack_top := PROCESS_USER_STACK_BASE
        mmap_base := PROCESS_MMAP_BASE })

/-- ProcessMemory::map: install the PTE and move the frame into `maps`. -/
def pmMap (m : Machine) (pm : ProcessMemory) (vpn pg flags : Nat) :
    Option (Machine × ProcessMemory) :=
  match mapPT m pm.page_table (vpn * PAGE_SIZE) (pg * PAGE_SIZE) flags with
  | none => none
  | some (m2, pt2) => some (m2,
      { pm with page_table := pt2, maps := mapsInsert pm.maps vpn pg flags })

/-- ProcessMemory::unmap: drop the entry and clear the PTE (`none` covers
both the "page is not mapped" error and the unmap assertions). -/
def pmUnmap (m : Machine) (pm : ProcessMemory) (vpn : Nat) :
    Option (Machine × ProcessMemory) :=
  if mapsContains pm.maps vpn then
    match unmapPT m pm.page_table (vpn * PAGE_SIZE) with
    | none => none
    | some m2 => some (m2, { pm with maps := mapsRemove pm.maps vpn })
  else none

/-- ProcessMemory::increase_user_stack: allocate one R|W|U page directly
below `stack_top` and lower `stack_top` by one page. -/
def increaseUserStack (m : Machine) (pm : ProcessMemory) :
    Option (Machine × ProcessMemory) :=
  let r := pageAlloc m
  match pmMap r.1 pm (pm.stack_top / PAGE_SIZE - 1) r.2 22 with
  | none => none
  | some (m2, pm2) =>
    some (m2, { pm2 with stack_top := (pm.stack_top / PAGE_SIZE - 1) * PAGE_SIZE })

/-- The grow loop of ProcessMemory::set_brk: while `new_brk > real_brk`,
allocate a page, map it R|W|U at the page of `real_brk + 1`, and advance
`real_brk` by one page. -/
def brkLoop (m : Machine) (pm : ProcessMemory) (realBrk newBrk : Nat) :
    Option (Machine × ProcessMemory) :=
  if newBrk > realBrk then
    let r := pageAlloc m
    match pmMap r.1 pm ((realBrk + 1) / PAGE_SIZE) r.2 22 with
    | none => none
    | some (m2, pm2) => brkLoop m2 pm2 (realBrk + PAGE_SIZE) newBrk
  else some (m, pm)
termination_by newBrk - realBrk
decreasing_by
  rw [PAGE_SIZE]
  omega

/-- ProcessMemory::set_brk.  Returns the machine, the memory and the
returned (effective) brk; `none` is the unimplemented shrink `todo!`
or a map panic. -/
def setBrk (m : Machine) (pm : ProcessMemory) (newBrk : Nat) :
    Option (Machine × ProcessMemory × Nat) :=
  let realBrk := round_up_to (to_offset_neg pm.brk 1) PAGE_SIZE
  if newBrk < pm.min_brk then some (m, pm, pm.brk)
  else if newBrk = pm.brk then some (m, { pm with brk := newBrk }, newBrk)
  else if newBrk > pm.brk then
    match brkLoop m pm realBrk newBrk with
    | none => none
    | some (m2, pm2) => some (m2, { pm2 with brk := newBrk }, newBrk)
  else none

/-- The per-entry body of ProcessMemory::copy_from: allocate a fresh
frame, copy the 4096 bytes of the source frame, map it with the source
flags. -/
def copyFromGo (m : Machine) (dst : ProcessMemory) : MapsList →
    Option (Machine × ProcessMemory)
  | [] => some (m, dst)
  | (vpn, pg, fl) :: rest =>
    let r := pageAlloc m
    let m1 := r.1.copyPageBytes r.2 pg
    match pmMap m1 dst vpn r.2 fl with
    | none => none
    | some (m2, dst2) => copyFromGo m2 dst2 rest

/-- ProcessMemory::copy_from: copy the stack/brk bounds, then clone every
entry of `other.maps` into a freshly allocated frame. -/
def copyFrom (m : Machine) (dst other : ProcessMemory) (copyStack : Bool) :
    Option (Machine × ProcessMemory) :=
  copyFromGo m
    { dst with
      stack_top := other.stack_top
      stack_base := other.stack_base
      brk := other.brk
      prog_end := other.prog_end }
    other.maps

/-- ProcessMemory::reset: fresh root with the kernel huge entry, cleared
maps, bounds back to their initial values — except `min_brk`, which the
source does not touch. -/
def pmReset (m : Machine) (pm : ProcessMemory) : Option (Machine × ProcessMemory) :=
  match mapBig (PageTable.new m).1 (PageTable.new m).2
      KERNEL_SPACE_BASE KERNEL_SPACE_BASE 46 with
  | none => none
  | some m2 => some (m2,
      { page_table := (PageTable.new m).2
        maps := []
        prog_end := 0
        min_brk := pm.min_brk
        brk := 0
        stack_base := PROCESS_USER_STACK_BASE
        stack_top := PROCESS_USER_STACK_BASE
        mmap_base := PROCESS_MMAP_BASE })

/-! ## Association-list lemmas -/

theorem mapsLookup_insert_self (l : MapsList) (k pg fl : Nat) :
    mapsLookup (mapsInsert l k pg fl) k = some (pg, fl) := by
  induction l with
  | nil => simp [mapsInsert, mapsLookup]
  | cons e rest ih =>
    rw [mapsInsert]
    by_cases h : e.1 = k
    · simp [h, mapsLookup]
    · simp only [h, if_false]
      rw [mapsLookup]
      simp [h, ih]

theorem mapsLookup_insert_ne (l : MapsList) (k pg fl k2 : Nat) (h : k2 ≠ k) :
    mapsLookup (mapsInsert l k pg fl) k2 = mapsLookup l k2 := by
  have hkk : ¬ (k = k2) := fun hh => h hh.symm
  induction l with
  | nil =>
    simp [mapsInsert, mapsLookup, hkk]
  | cons e rest ih =>
    rw [mapsInsert]
    by_cases he : e.1 = k
    · rw [if_pos he, mapsLookup, if_neg hkk, mapsLookup,
        if_neg (show ¬ e.1 = k2 by rw [he]; exact hkk)]
    · rw [if_neg he, mapsLookup, mapsLookup, ih]

theorem mapsInsert_mem (l : MapsList) (k pg fl : Nat) (e : Nat × Nat × Nat)
    (h : e ∈ mapsInsert l k pg fl) :
    e = (k, pg, fl) ∨ e ∈ l := by
  induction l with
  | nil =>
    rw [mapsInsert] at h
    exact Or.inl (List.mem_singleton.mp h)
  | cons x rest ih =>
    rw [mapsInsert] at h
    by_cases hx : x.1 = k
    · simp only [hx, if_true] at h
      rcases List.mem_cons.mp h with h | h
      · exact Or.inl h
      · exact Or.inr (List.mem_cons_of_mem _ h)
    · simp only [hx, if_false] at h
      rcases List.mem_cons.mp h with h | h
      · exact Or.inr (h ▸ List.mem_cons_self _ _)
      · rcases ih h with h | h
        · exact Or.inl h
        · exact Or.inr (List.mem_cons_of_mem _ h)

theorem mapsLookup_none_mem (l : MapsList) (k : Nat)
    (h : mapsLookup l k = none) : ∀ e, e ∈ l → e.1 ≠ k := by
  induction l with
  | nil =>
    intro e he
    cases he
  | cons x rest ih =>
    rw [mapsLookup] at h
    by_cases hx : x.1 = k
    · simp [hx] at h
    · simp only [hx, if_false] at h
      intro e he
      rcases List.mem_cons.mp he with he | he
      · rw [he]
        exact hx
      · exact ih h e he

theorem mapsLookup_mem (l : MapsList) (k pg fl : Nat)
    (h : mapsLookup l k = some (pg, fl)) : (k, pg, fl) ∈ l := by
  induction l with
  | nil => cases h
  | cons x rest ih =>
    rw [mapsLookup] at h
    by_cases hx : x.1 = k
    · rw [if_pos hx] at h
      have hinj := Option.some.inj h
      have hxe : x = (k, pg, fl) := by
        rcases x with ⟨x1, x2, x3⟩
        simp only at hx hinj
        have h1 := congrArg Prod.fst hinj
        have h2 := congrArg Prod.snd hinj
        simp only at h1 h2
        simp [hx, h1, h2]
      exact hxe ▸ List.mem_cons_self _ _
    · rw [if_neg hx] at h
      exact List.mem_cons_of_mem _ (ih h)

theorem mapsInsert_keys_nodup (l : MapsList) (k pg fl : Nat)
    (h : (l.map (fun e => e.1)).Nodup) :
    ((mapsInsert l k pg fl).map (fun e => e.1)).Nodup := by
  induction l with
  | nil => simp [mapsInsert]
  | cons x rest ih =>
    rw [mapsInsert]
    rw [List.map_cons, List.nodup_cons] at h
    by_cases hx : x.1 = k
    · rw [if_pos hx, List.map_cons, List.nodup_cons]
      refine ⟨?_, h.2⟩
      rw [← hx]
      exact h.1
    · rw [if_neg hx, List.map_cons, List.nodup_cons]
      refine ⟨?_, ih h.2⟩
      intro hc
      rcases List.mem_map.mp hc with ⟨e, he, hee⟩
      rcases mapsInsert_mem rest k pg fl e he with hcc | hcc
      · rw [hcc] at hee
        exact hx hee.symm
      · exact h.1 (List.mem_map.mpr ⟨e, hcc, hee⟩)

theorem mapsLookup_of_mem (l : MapsList) (k pg fl : Nat)
    (hnd : (l.map (fun e => e.1)).Nodup)
    (h : (k, pg, fl) ∈ l) : mapsLookup l k = some (pg, fl) := by
  induction l with
  | nil => cases h
  | cons x rest ih =>
    rw [List.map_cons, List.nodup_cons] at hnd
    rw [mapsLookup]
    rcases List.mem_cons.mp h with he | he
    · rw [← he]
      simp
    · have hx : x.1 ≠ k := by
        intro hx
        exact hnd.1 (List.mem_map.mpr ⟨(k, pg, fl), he, hx.symm⟩)
      rw [if_neg hx]
      exact ih hnd.2 he

/-! ## ProcessMemory invariant -/

/-- Invariant tying `maps` to the hardware page table: every tracked entry
is a user page whose leaf PTE holds exactly the frame and prepared flags
that ProcessMemory::map installed; untracked user pages have no valid
leaf. -/
structure PMInv (m : Machine) (pm : ProcessMemory) : Prop where
  pt_inv : PTInv m pm.page_table kernelEx
  keys_nodup : (pm.maps.map (fun e => e.1)).Nodup
  entries : ∀ vpn pg fl, (vpn, pg, fl) ∈ pm.maps →
    vpn < 2 ^ 27 ∧ idx0 vpn ≠ 2 ∧ pg < m.freeStart ∧ pg < 2 ^ 44 ∧ fl < 256 ∧
    ¬ IsTable m pm.page_table kernelEx pg ∧
    ∃ loc, findPte m pm.page_table vpn = some loc ∧
      m.mem loc.1 loc.2 = mkPteVal m.thead (vpn * PAGE_SIZE) (pg * PAGE_SIZE) fl
  unmapped : ∀ vpn, vpn < 2 ^ 27 → idx0 vpn ≠ 2 →
    mapsLookup pm.maps vpn = none → LeafFree m pm.page_table vpn

theorem gov_of_user (vpn : Nat) (h2 : idx0 vpn ≠ 2) : Gov kernelEx (idx0 vpn) :=
  ⟨idx0_lt vpn, h2⟩

/-- A tracked entry translates (with any sub-page offset) to its frame. -/
theorem translate_of_PMInv (m : Machine) (pm : ProcessMemory) (vpn pg fl off : Nat)
    (hinv : PMInv m pm) (hmem : (vpn, pg, fl) ∈ pm.maps) (hoff : off < PAGE_SIZE) :
    translatePT m pm.page_table (vpn * PAGE_SIZE + off) = some (pg * PAGE_SIZE + off) := by
  obtain ⟨hv27, hvi0, hpglt, hpg44, hfl, hnt, loc, hfind, hval⟩ :=
    hinv.entries vpn pg fl hmem
  have hvalid : pteValid (m.mem loc.1 loc.2) = true := by
    rw [hval]
    exact mkPteVal_valid _ _ _ _ hfl (by rw [page_div]; exact hpg44)
  have h64 : vpn * PAGE_SIZE + off < USIZE := by
    rw [PAGE_SIZE, USIZE] at *
    have : vpn * 4096 < 2 ^ 27 * 4096 := by omega
    omega
  rw [translatePT_some_off m pm.page_table vpn off loc hoff h64 hfind hvalid]
  rw [hval, mkPteVal_pageId _ _ _ _ hfl (by rw [page_div]; exact hpg44), page_div]

/-- An untracked user page does not translate. -/
theorem translate_none_of_PMInv (m : Machine) (pm : ProcessMemory) (vpn off : Nat)
    (hinv : PMInv m pm) (hv27 : vpn < 2 ^ 27) (hvi0 : idx0 vpn ≠ 2)
    (hnone : mapsLookup pm.maps vpn = none) (hoff : off < PAGE_SIZE) :
    translatePT m pm.page_table (vpn * PAGE_SIZE + off) = none :=
  translatePT_none_off m pm.page_table vpn off hoff
    (hinv.unmapped vpn hv27 hvi0 hnone)

/-- The invariant of one ProcessMemory survives machine changes made on
behalf of another, as long as its table pages keep their contents and the
allocator only moves forward. -/
theorem PMInv_transfer (m m2 : Machine) (pm : ProcessMemory)
    (hinv : PMInv m pm)
    (hmono : m.freeStart ≤ m2.freeStart)
    (hth : m2.thead = m.thead)
    (hframe : ∀ p i, p < m.freeStart → IsTable m pm.page_table kernelEx p →
      m2.mem p i = m.mem p i) :
    PMInv m2 pm ∧
    (∀ i0, Gov kernelEx i0 → l1At m2 pm.page_table i0 = l1At m pm.page_table i0) ∧
    (∀ i0 i1, Gov kernelEx i0 →
      l2At m2 pm.page_table i0 i1 = l2At m pm.page_table i0 i1) ∧
    (∀ vpn, Gov kernelEx (idx0 vpn) →
      findPte m2 pm.page_table vpn = findPte m pm.page_table vpn) ∧
    (∀ p, IsTable m2 pm.page_table kernelEx p ↔ IsTable m pm.page_table kernelEx p) := by
  have hl1 : ∀ i0, Gov kernelEx i0 →
      l1At m2 pm.page_table i0 = l1At m pm.page_table i0 := by
    intro i0 hg
    apply l1At_congr
    · rfl
    · exact hframe _ _ hinv.pt_inv.root_lt (Or.inl rfl)
  have hl2 : ∀ i0 i1, Gov kernelEx i0 →
      l2At m2 pm.page_table i0 i1 = l2At m pm.page_table i0 i1 := by
    intro i0 i1 hg
    rw [l2At, l2At, hl1 i0 hg]
    cases hc : l1At m pm.page_table i0 with
    | none => rfl
    | some t1 =>
      dsimp only
      rw [hframe _ _ (hinv.pt_inv.l1_lt i0 t1 hg hc) (Or.inr (Or.inl ⟨i0, hg, hc⟩))]
  have hfind : ∀ vpn, Gov kernelEx (idx0 vpn) →
      findPte m2 pm.page_table vpn = findPte m pm.page_table vpn := by
    intro vpn hg
    rw [findPte, findPte, hl2 _ _ hg]
  have htab : ∀ p, IsTable m2 pm.page_table kernelEx p ↔
      IsTable m pm.page_table kernelEx p :=
    IsTable_congr m m2 pm.page_table pm.page_table kernelEx rfl hl1 hl2
  have hleafcell : ∀ vpn loc, Gov kernelEx (idx0 vpn) →
      findPte m pm.page_table vpn = some loc →
      m2.mem loc.1 loc.2 = m.mem loc.1 loc.2 := by
    intro vpn loc hg hf
    obtain ⟨hl2l, hl2i⟩ := findPte_inv m pm.page_table vpn loc hf
    exact hframe _ _ (hinv.pt_inv.l2_lt _ _ _ hg (idx1_lt vpn) hl2l)
      (Or.inr (Or.inr ⟨idx0 vpn, idx1 vpn, hg, idx1_lt vpn, hl2l⟩))
  refine ⟨⟨?_, hinv.keys_nodup, ?_, ?_⟩, hl1, hl2, hfind, htab⟩
  · exact PTInv_congr m m2 pm.page_table pm.page_table kernelEx hinv.pt_inv rfl hmono hl1 hl2
  · intro vpn pg fl hmem
    obtain ⟨hv27, hvi0, hpglt, hpg44, hfl, hnt, loc, hf, hval⟩ :=
      hinv.entries vpn pg fl hmem
    have hg : Gov kernelEx (idx0 vpn) := gov_of_user vpn hvi0
    refine ⟨hv27, hvi0, by omega, hpg44, hfl, fun hc => hnt ((htab pg).mp hc),
      loc, by rw [hfind vpn hg, hf], ?_⟩
    rw [hleafcell vpn loc hg hf, hval, hth]
  · intro vpn hv27 hvi0 hnone
    have hg : Gov kernelEx (idx0 vpn) := gov_of_user vpn hvi0
    intro loc hl
    rw [hfind vpn hg] at hl
    rw [hleafcell vpn loc hg hl]
    exact hinv.unmapped vpn hv27 hvi0 hnone loc hl

/-- Full behaviour of ProcessMemory::map of a fresh frame at an untracked
user page. -/
theorem pmMap_spec (m : Machine) (pm : ProcessMemory) (vpn pg fl : Nat)
    (hinv : PMInv m pm)
    (hv27 : vpn < 2 ^ 27) (hvi0 : idx0 vpn ≠ 2)
    (hnone : mapsLookup pm.maps vpn = none)
    (hpglt : pg < m.freeStart)
    (hpg44 : pg < 2 ^ 44)
    (hpgnt : ¬ IsTable m pm.page_table kernelEx pg)
    (hfl : fl < 256)
    (hcap : m.freeStart + 2 < 2 ^ 44) :
    ∃ m2 pm2, pmMap m pm vpn pg fl = some (m2, pm2) ∧
      PMInv m2 pm2 ∧
      pm2.maps = mapsInsert pm.maps vpn pg fl ∧
      pm2.prog_end = pm.prog_end ∧ pm2.min_brk = pm.min_brk ∧ pm2.brk = pm.brk ∧
      pm2.stack_base = pm.stack_base ∧ pm2.stack_top = pm.stack_top ∧
      pm2.mmap_base = pm.mmap_base ∧
      m2.thead = m.thead ∧
      m.freeStart ≤ m2.freeStart ∧ m2.freeStart ≤ m.freeStart + 2 ∧
      (∀ p i, p < m.freeStart → ¬ IsTable m pm.page_table kernelEx p →
        m2.mem p i = m.mem p i) ∧
      (∀ p, IsTable m2 pm2.page_table kernelEx p →
        IsTable m pm.page_table kernelEx p ∨ m.freeStart ≤ p) := by
  have hg : Gov kernelEx (idx0 vpn) := gov_of_user vpn hvi0
  have hfree : LeafFree m pm.page_table vpn := hinv.unmapped vpn hv27 hvi0 hnone
  have hpa : pg * PAGE_SIZE / PAGE_SIZE < 2 ^ 44 := by
    rw [page_div]
    exact hpg44
  obtain ⟨m2, pt2, hmap, hroot2, hth2, hfsa, hfsb, hptinv2, ⟨loc, hfindloc, hval⟩,
    hP1, hP2, hframe, htab⟩ :=
    mapPT_spec m pm.page_table kernelEx vpn (pg * PAGE_SIZE) fl hinv.pt_inv hg hfree
      hpa hfl hcap
  have hkeyne : ∀ vpn2 pg2 fl2, (vpn2, pg2, fl2) ∈ pm.maps → vpn2 ≠ vpn := by
    intro vpn2 pg2 fl2 hmem
    exact mapsLookup_none_mem pm.maps vpn hnone (vpn2, pg2, fl2) hmem
  have htriple : ∀ vpn2, vpn2 < 2 ^ 27 → vpn2 ≠ vpn →
      (idx0 vpn2 ≠ idx0 vpn ∨ idx1 vpn2 ≠ idx1 vpn ∨ idx2 vpn2 ≠ idx2 vpn) := by
    intro vpn2 h27 hne
    by_contra hc
    push_neg at hc
    exact hne (vpn_ext vpn2 vpn h27 hv27 hc.1 hc.2.1 hc.2.2)
  refine ⟨m2, { pm with page_table := pt2, maps := mapsInsert pm.maps vpn pg fl },
    ?_, ?_, rfl, rfl, rfl, rfl, rfl, rfl, rfl, hth2, hfsa, hfsb, hframe, ?_⟩
  · rw [pmMap, hmap]
  · refine ⟨hptinv2, mapsInsert_keys_nodup _ _ _ _ hinv.keys_nodup, ?_, ?_⟩
    · intro vpn2 pg2 fl2 hmem
      rcases mapsInsert_mem pm.maps vpn pg fl _ hmem with heq | hold
      · cases heq
        refine ⟨hv27, hvi0, by omega, hpg44, hfl, ?_, loc, hfindloc, by rw [hval, hth2]⟩
        intro hc
        rcases htab pg hc with hc2 | hc2
        · exact hpgnt hc2
        · omega
      · obtain ⟨h27, hi0, hlt, h44, hf2, hnt2, loc2, hf2nd, hv2⟩ :=
          hinv.entries vpn2 pg2 fl2 hold
        have hne := hkeyne vpn2 pg2 fl2 hold
        obtain ⟨hfp, hvp⟩ := hP1 vpn2 loc2 (gov_of_user vpn2 hi0)
          (htriple vpn2 h27 hne) hf2nd
        refine ⟨h27, hi0, by omega, h44, hf2, ?_, loc2, hfp, by rw [hvp, hv2, hth2]⟩
        intro hc
        rcases htab pg2 hc with hc2 | hc2
        · exact hnt2 hc2
        · omega
    · intro vpn2 h27 hi0 hlk
      have hne : vpn2 ≠ vpn := by
        intro heq
        rw [heq, mapsLookup_insert_self] at hlk
        cases hlk
      rw [mapsLookup_insert_ne _ _ _ _ _ hne] at hlk
      have htr := htriple vpn2 h27 hne
      cases hfcase : findPte m pm.page_table vpn2 with
      | none =>
        exact hP2 vpn2 (gov_of_user vpn2 hi0) htr hfcase
      | some loc2 =>
        obtain ⟨hfp, hvp⟩ := hP1 vpn2 loc2 (gov_of_user vpn2 hi0) htr hfcase
        intro loc3 hl3
        rw [hfp] at hl3
        cases hl3
        rw [hvp]
        exact hinv.unmapped vpn2 h27 hi0 hlk loc2 hfcase
  · intro p h
    exact htab p h

/-- Facts about a fresh page table with the kernel huge entry installed —
the common step of ProcessMemory::new and ProcessMemory::reset. -/
theorem newKernelPT_spec (m : Machine) :
    ∃ mK, mapBig (PageTable.new m).1 (PageTable.new m).2
        KERNEL_SPACE_BASE KERNEL_SPACE_BASE 46 = some mK ∧
      (PageTable.new m).2.root = m.freeStart ∧
      mK.freeStart = m.freeStart + 1 ∧ mK.thead = m.thead ∧
      (∀ p i, mK.mem p i = if p = m.freeStart then
        (if i = 2 then mkPteVal m.thead KERNEL_SPACE_BASE KERNEL_SPACE_BASE 46 else 0)
        else m.mem p i) ∧
      PTInv mK (PageTable.new m).2 kernelEx ∧
      (∀ vpn, Gov kernelEx (idx0 vpn) → findPte mK (PageTable.new m).2 vpn = none) ∧
      (∀ va, idx0 (va / PAGE_SIZE) ≠ 2 →
        translatePT mK (PageTable.new m).2 va = none) ∧
      pteValid (mK.mem (PageTable.new m).2.root 2) = true ∧
      ptePageId (mK.mem (PageTable.new m).2.root 2) = KERNEL_SPACE_BASE / PAGE_SIZE ∧
      pteFlags (mK.mem (PageTable.new m).2.root 2) = prepareFlags 46 ∧
      (∀ p, IsTable mK (PageTable.new m).2 kernelEx p → p = m.freeStart) := by
  have hroot : (PageTable.new m).2.root = m.freeStart := rfl
  have hfreshmem : ∀ p i, (PageTable.new m).1.mem p i =
      if p = m.freeStart then 0 else m.mem p i := by
    intro p i
    rfl
  have hidx : KERNEL_SPACE_BASE >>> 30 = 2 := by decide
  have hzero2 : pteValid ((PageTable.new m).1.mem (PageTable.new m).2.root 2) = false := by
    rw [hfreshmem, hroot]
    simp [pteValid_zero]
  have hstep : mapBig (PageTable.new m).1 (PageTable.new m).2
      KERNEL_SPACE_BASE KERNEL_SPACE_BASE 46 =
      some ((PageTable.new m).1.writeCell (PageTable.new m).2.root 2
        (mkPteVal (PageTable.new m).1.thead KERNEL_SPACE_BASE KERNEL_SPACE_BASE 46)) := by
    rw [mapBig, hidx]
    rw [if_pos (by omega)]
    rw [setPte, if_neg (by rw [hzero2]; simp)]
  have hth : (PageTable.new m).1.thead = m.thead := rfl
  rw [hth] at hstep
  set mK : Machine := (PageTable.new m).1.writeCell (PageTable.new m).2.root 2
    (mkPteVal m.thead KERNEL_SPACE_BASE KERNEL_SPACE_BASE 46) with hmKdef
  have hread : ∀ p i, mK.mem p i = if p = m.freeStart then
      (if i = 2 then mkPteVal m.thead KERNEL_SPACE_BASE KERNEL_SPACE_BASE 46 else 0)
      else m.mem p i := by
    intro p i
    rw [hmKdef, writeCell_read, hroot, hfreshmem]
    by_cases hp : p = m.freeStart
    · by_cases hi : i = 2
      · simp [hp, hi]
      · simp [hp, hi]
    · simp [hp]
  have hK44 : KERNEL_SPACE_BASE / PAGE_SIZE < 2 ^ 44 := by decide
  have hKfl : (46 : Nat) < 256 := by decide
  have hl1none : ∀ i0, Gov kernelEx i0 → l1At mK (PageTable.new m).2 i0 = none := by
    intro i0 hg
    apply l1At_of_invalid
    rw [hroot, hread]
    have hne2 : i0 ≠ 2 := hg.2
    simp [hne2, pteValid_zero]
  have hfindnone : ∀ vpn, Gov kernelEx (idx0 vpn) →
      findPte mK (PageTable.new m).2 vpn = none := by
    intro vpn hg
    rw [findPte, l2At_none_of_l1_none _ _ _ _ (hl1none _ hg)]
  refine ⟨mK, hstep, hroot, rfl, rfl, hread, ?_, hfindnone, ?_, ?_, ?_, ?_, ?_⟩
  · refine ⟨?_, ?_, ?_, ?_, ?_, ?_, ?_, ?_⟩
    · show m.freeStart < m.freeStart + 1
      omega
    · intro i0 t1 hg h
      rw [hl1none i0 hg] at h
      cases h
    · intro i0 t1 hg h
      rw [hl1none i0 hg] at h
      cases h
    · intro i0 i0' t hg hg' h h'
      rw [hl1none i0 hg] at h
      cases h
    · intro i0 i1 t2 hg hi1 h
      rw [l2At_none_of_l1_none _ _ _ _ (hl1none i0 hg)] at h
      cases h
    · intro i0 i1 t2 hg hi1 h
      rw [l2At_none_of_l1_none _ _ _ _ (hl1none i0 hg)] at h
      cases h
    · intro i0 i1 t2 j0 hg hi1 hgj h
      rw [l2At_none_of_l1_none _ _ _ _ (hl1none i0 hg)] at h
      cases h
    · intro i0 i1 i0' i1' t hg hi1 hg' hi1' h h'
      rw [l2At_none_of_l1_none _ _ _ _ (hl1none i0 hg)] at h
      cases h
  · intro va hva
    rw [translatePT, hfindnone _ ⟨idx0_lt _, hva⟩]
  · rw [hroot, hread]
    simp [mkPteVal_valid _ _ _ _ hKfl hK44]
  · rw [hroot, hread]
    simp [mkPteVal_pageId _ _ _ _ hKfl hK44]
  · rw [hroot, hread]
    simp [mkPteVal_flags _ _ _ _ hKfl hK44]
  · intro p h
    rcases h with h | ⟨i0, hg, h⟩ | ⟨i0, i1, hg, hi1, h⟩
    · rw [hroot] at h
      exact h
    · rw [hl1none i0 hg] at h
      cases h
    · rw [l2At_none_of_l1_none _ _ _ _ (hl1none i0 hg)] at h
      cases h

/-- A user virtual address (below the kernel window) has a governed
root index. -/
theorem user_va_idx0 (va : Nat) (h : va < KERNEL_SPACE_BASE) :
    idx0 (va / PAGE_SIZE) ≠ 2 := by
  rw [idx0_eq, PAGE_SIZE]
  rw [KERNEL_SPACE_BASE] at h
  rw [Nat.div_div_eq_div_mul]
  have : va / (4096 * 2 ^ 18) < 2 := by omega
  omega

/-- A user virtual page id (below `2 ^ 19`) has a governed root index. -/
theorem user_vpn_idx0 (vpn : Nat) (h : vpn < 2 ^ 19) : idx0 vpn ≠ 2 := by
  rw [idx0_eq]
  have : vpn / 2 ^ 18 < 2 := by omega
  omega

/-- Full behaviour of ProcessMemory::new. -/
theorem pmNew_spec (m : Machine) :
    ∃ m1 pm, ProcessMemory.new m = some (m1, pm) ∧
      PMInv m1 pm ∧ pm.maps = [] ∧
      pm.page_table.root = m.freeStart ∧
      m1.freeStart = m.freeStart + 1 ∧ m1.thead = m.thead ∧
      pm.prog_end = 0 ∧ pm.min_brk = 0 ∧ pm.brk = 0 ∧
      pm.stack_base = PROCESS_USER_STACK_BASE ∧
      pm.stack_top = PROCESS_USER_STACK_BASE ∧
      pm.mmap_base = PROCESS_MMAP_BASE ∧
      (∀ p, IsTable m1 pm.page_table kernelEx p → p = m.freeStart) ∧
      (∀ p i, p ≠ m.freeStart → m1.mem p i = m.mem p i) ∧
      (∀ va, idx0 (va / PAGE_SIZE) ≠ 2 → translatePT m1 pm.page_table va = none) := by
  obtain ⟨mK, hstep, hroot, hfs, hth, hread, hptinv, hfindnone, htrans,
    hvalid2, hpid2, hflags2, htab⟩ := newKernelPT_spec m
  refine ⟨mK, ⟨(PageTable.new m).2, [], 0, 0, 0, PROCESS_USER_STACK_BASE,
    PROCESS_USER_STACK_BASE, PROCESS_MMAP_BASE⟩,
    ?_, ?_, rfl, hroot, hfs, hth, rfl, rfl, rfl, rfl, rfl, rfl,
    htab, ?_, htrans⟩
  · rw [ProcessMemory.new, hstep]
  · refine ⟨hptinv, by simp, ?_, ?_⟩
    · intro vpn pg fl hmem
      cases hmem
    · intro vpn h27 hi0 hlk
      intro loc hl
      rw [hfindnone vpn (gov_of_user vpn hi0)] at hl
      cases hl
  · intro p i hp
    rw [hread]
    simp [hp]

/-! ## Claim C6: ProcessMemory::reset -/

/-- Claim C6 counterexample: on a concrete zero-RAM machine, take a fresh
address space, set `min_brk := 0x5000` (as load_elf does), and reset.
Afterwards `min_brk` is still `0x5000`, not its post-construction value
`0`; and the kernel base address does not translate through
`PageTable::translate` either (the software walk does not implement the
huge entry: it reads the kernel frame as a table, here zero). -/
theorem pmReset_c6_counterexample :
    (Option.bind (ProcessMemory.new ⟨fun _ _ => 0, 10, false⟩) (fun r =>
      Option.map (fun r2 =>
          (r2.2.min_brk, translatePT r2.1 r2.2.page_table KERNEL_SPACE_BASE))
        (pmReset r.1 { r.2 with min_brk := 0x5000 }))) =
      some (0x5000, none) ∧
    (0x5000 : Nat) ≠ 0 := by
  constructor
  · decide
  · decide

/-- Claim C6 (amended): after `reset()`, every user virtual address
(below the kernel window) translates to `None`; the kernel huge-page
root entry is reinstalled (valid, frame `KERNEL_SPACE_BASE`, flags
R|W|X|G with A/D/V added) — though `PageTable::translate` itself does not
decode huge entries; `maps` is empty; and `prog_end`, `brk`,
`stack_base`, `stack_top`, `mmap_base` are back at their initial values,
while `min_brk` keeps its pre-reset value. -/
theorem pmReset_props (m : Machine) (pm : ProcessMemory) :
    ∃ m2 pm2, pmReset m pm = some (m2, pm2) ∧
      (∀ va, va < KERNEL_SPACE_BASE → translatePT m2 pm2.page_table va = none) ∧
      pteValid (m2.mem pm2.page_table.root 2) = true ∧
      ptePageId (m2.mem pm2.page_table.root 2) = KERNEL_SPACE_BASE / PAGE_SIZE ∧
      pteFlags (m2.mem pm2.page_table.root 2) = prepareFlags 46 ∧
      pm2.maps = [] ∧ pm2.prog_end = 0 ∧ pm2.brk = 0 ∧
      pm2.stack_base = PROCESS_USER_STACK_BASE ∧
      pm2.stack_top = PROCESS_USER_STACK_BASE ∧
      pm2.mmap_base = PROCESS_MMAP_BASE ∧
      pm2.min_brk = pm.min_brk ∧
      PMInv m2 pm2 := by
  obtain ⟨mK, hstep, hroot, hfs, hth, hread, hptinv, hfindnone, htrans,
    hvalid2, hpid2, hflags2, htab⟩ := newKernelPT_spec m
  refine ⟨mK, ⟨(PageTable.new m).2, [], 0, pm.min_brk, 0, PROCESS_USER_STACK_BASE,
    PROCESS_USER_STACK_BASE, PROCESS_MMAP_BASE⟩, ?_, ?_, hvalid2, hpid2, hflags2,
    rfl, rfl, rfl, rfl, rfl, rfl, rfl, ?_⟩
  · rw [pmReset, hstep]
  · intro va hva
    exact htrans va (user_va_idx0 va hva)
  · refine ⟨hptinv, by simp, ?_, ?_⟩
    · intro vpn pg fl hmem
      cases hmem
    · intro vpn h27 hi0 hlk loc hl
      rw [hfindnone vpn (gov_of_user vpn hi0)] at hl
      cases hl

/-- The page allocator does not disturb an address space: its write goes
to the fresh frame, above every table and tracked frame. -/
theorem pageAlloc_PMInv (m : Machine) (pm : ProcessMemory) (hinv : PMInv m pm) :
    PMInv (pageAlloc m).1 pm ∧
    (∀ p, IsTable (pageAlloc m).1 pm.page_table kernelEx p ↔
      IsTable m pm.page_table kernelEx p) ∧
    ¬ IsTable (pageAlloc m).1 pm.page_table kernelEx m.freeStart := by
  have hframe : ∀ p i, p < m.freeStart → IsTable m pm.page_table kernelEx p →
      (pageAlloc m).1.mem p i = m.mem p i := by
    intro p i hp _
    rw [pageAlloc_fst_mem]
    simp [show p ≠ m.freeStart by omega]
  obtain ⟨hinv2, hl1, hl2, hfind, htab⟩ :=
    PMInv_transfer m (pageAlloc m).1 pm hinv (by rw [pageAlloc_fst_freeStart]; omega)
      (pageAlloc_fst_thead m) hframe
  refine ⟨hinv2, htab, ?_⟩
  intro hc
  rcases (htab _).mp hc with h | ⟨i0, hg, h⟩ | ⟨i0, i1, hg, hi1, h⟩
  · have := hinv.pt_inv.root_lt
    omega
  · have := hinv.pt_inv.l1_lt i0 _ hg h
    omega
  · have := hinv.pt_inv.l2_lt i0 i1 _ hg hi1 h
    omega

/-- Behaviour of the set_brk grow loop, by induction on a page-count
bound `cnt`. -/
theorem brkLoop_spec (cnt : Nat) : ∀ (m : Machine) (pm : ProcessMemory)
    (realBrk newBrk : Nat),
    newBrk - realBrk ≤ cnt * PAGE_SIZE →
    PMInv m pm →
    realBrk % PAGE_SIZE = 0 →
    newBrk ≤ 2 ^ 31 →
    (∀ p, realBrk ≤ p * PAGE_SIZE → p * PAGE_SIZE < newBrk →
      mapsLookup pm.maps p = none) →
    m.freeStart + 3 * cnt < 2 ^ 44 →
    ∃ m2 pm2, brkLoop m pm realBrk newBrk = some (m2, pm2) ∧
      PMInv m2 pm2 ∧
      (∀ p, realBrk ≤ p * PAGE_SIZE → p * PAGE_SIZE < newBrk →
        ∃ pg, mapsLookup pm2.maps p = some (pg, 22)) ∧
      (∀ k v, mapsLookup pm.maps k = some v → mapsLookup pm2.maps k = some v) ∧
      pm2.brk = pm.brk ∧ pm2.min_brk = pm.min_brk ∧ pm2.prog_end = pm.prog_end ∧
      pm2.stack_base = pm.stack_base ∧ pm2.stack_top = pm.stack_top ∧
      pm2.mmap_base = pm.mmap_base := by
  induction cnt with
  | zero =>
    intro m pm realBrk newBrk hle hinv halign hbound hun hcap
    have hstop : ¬ (newBrk > realBrk) := by omega
    refine ⟨m, pm, ?_, hinv, ?_, fun k v h => h, rfl, rfl, rfl, rfl, rfl, rfl⟩
    · rw [brkLoop, if_neg hstop]
    · intro p h1 h2
      omega
  | succ n ih =>
    intro m pm realBrk newBrk hle hinv halign hbound hun hcap
    by_cases hgt : newBrk > realBrk
    · -- one iteration
      set vpn : Nat := (realBrk + 1) / PAGE_SIZE with hvpndef
      have hvpneq : vpn = realBrk / PAGE_SIZE := by
        rw [hvpndef, PAGE_SIZE] at *
        omega
      have hvpnmul : vpn * PAGE_SIZE = realBrk := by
        rw [hvpneq, PAGE_SIZE] at *
        omega
      have hv19 : vpn < 2 ^ 19 := by
        have : vpn * PAGE_SIZE < 2 ^ 31 := by omega
        rw [PAGE_SIZE] at this
        omega
      obtain ⟨hinvA, htabA, hfreshA⟩ := pageAlloc_PMInv m pm hinv
      have hlk : mapsLookup pm.maps vpn = none := by
        apply hun
        · omega
        · omega
      obtain ⟨m2, pm2, hmap, hinv2, hmaps2, hpe, hmb, hbk, hsb, hst, hmm, hth2,
        hfsa, hfsb, hframe2, htab2⟩ :=
        pmMap_spec (pageAlloc m).1 pm vpn m.freeStart 22 hinvA
          (by omega) (user_vpn_idx0 vpn hv19) hlk
          (by rw [pageAlloc_fst_freeStart]; omega)
          (by omega) hfreshA (by omega)
          (by rw [pageAlloc_fst_freeStart]; omega)
      have hfs2 : m2.freeStart ≤ m.freeStart + 3 := by
        rw [pageAlloc_fst_freeStart] at hfsb
        omega
      obtain ⟨m3, pm3, hloop, hinv3, hnew3, hold3, hbk3, hmb3, hpe3, hsb3, hst3, hmm3⟩ :=
        ih m2 pm2 (realBrk + PAGE_SIZE) newBrk
          (by rw [PAGE_SIZE] at *; omega) hinv2
          (by rw [PAGE_SIZE] at *; omega) hbound
          (by
            intro p h1 h2
            have hpne : p ≠ vpn := by
              intro he
              rw [he, hvpnmul] at h1
              rw [PAGE_SIZE] at h1
              omega
            rw [hmaps2, mapsLookup_insert_ne _ _ _ _ _ hpne]
            exact hun p (by omega) h2)
          (by omega)
      refine ⟨m3, pm3, ?_, hinv3, ?_, ?_, by rw [hbk3, hbk], by rw [hmb3, hmb],
        by rw [hpe3, hpe], by rw [hsb3, hsb], by rw [hst3, hst], by rw [hmm3, hmm]⟩
      · rw [brkLoop, if_pos hgt]
        show (match pmMap (pageAlloc m).1 pm ((realBrk + 1) / PAGE_SIZE)
            (pageAlloc m).2 22 with
          | none => none
          | some (m2', pm2') => brkLoop m2' pm2' (realBrk + PAGE_SIZE) newBrk) =
          some (m3, pm3)
        rw [pageAlloc_snd, ← hvpndef, hmap]
        exact hloop
      · intro p h1 h2
        by_cases hp : p = vpn
        · refine ⟨m.freeStart, ?_⟩
          apply hold3
          rw [hp, hmaps2, mapsLookup_insert_self]
        · apply hnew3 p _ h2
          have : p * PAGE_SIZE ≠ realBrk := by
            intro he
            apply hp
            rw [← hvpnmul] at he
            rw [PAGE_SIZE] at he
            omega
          rw [PAGE_SIZE] at *
          omega
      · intro k v h
        apply hold3
        have hkne : k ≠ vpn := by
          intro he
          rw [he, hlk] at h
          cases h
        rw [hmaps2, mapsLookup_insert_ne _ _ _ _ _ hkne]
        exact h
    · refine ⟨m, pm, ?_, hinv, ?_, fun k v h => h, rfl, rfl, rfl, rfl, rfl, rfl⟩
      · rw [brkLoop, if_neg hgt]
      · intro p h1 h2
        omega

/-! ## Claim C5: set_brk -/

/-- Claim C5: if `new_brk < min_brk` nothing changes and the old brk is
returned; if `new_brk > brk` (with the brk invariant `min_brk ≤ brk`,
the brk range free of foreign mappings, and — when the old brk is not
page-aligned — its partial page already mapped R|W|U), every page
covering `[old_brk, new_brk)` is afterwards tracked with flags R|W|U
(value 22) and translates, and the returned value is the new brk. -/
theorem setBrk_props (m : Machine) (pm : ProcessMemory) (newBrk : Nat)
    (hinv : PMInv m pm)
    (hb31 : newBrk ≤ 2 ^ 31)
    (hmin : pm.min_brk ≤ pm.brk)
    (hbrk31 : pm.brk ≤ 2 ^ 31)
    (hcap : m.freeStart + 3 * 2 ^ 19 < 2 ^ 44)
    (hun : ∀ p, round_up_to (to_offset_neg pm.brk 1) PAGE_SIZE ≤ p * PAGE_SIZE →
      p * PAGE_SIZE < newBrk → mapsLookup pm.maps p = none)
    (hpart : pm.brk % PAGE_SIZE = 0 ∨
      ∃ pg, mapsLookup pm.maps (pm.brk / PAGE_SIZE) = some (pg, 22)) :
    (newBrk < pm.min_brk → setBrk m pm newBrk = some (m, pm, pm.brk)) ∧
    (pm.brk < newBrk →
      ∃ m2 pm2, setBrk m pm newBrk = some (m2, pm2, newBrk) ∧
        pm2.brk = newBrk ∧ pm2.min_brk = pm.min_brk ∧ PMInv m2 pm2 ∧
        (∀ p, pm.brk < (p + 1) * PAGE_SIZE → p * PAGE_SIZE < newBrk →
          ∃ pg, mapsLookup pm2.maps p = some (pg, 22) ∧
            translatePT m2 pm2.page_table (p * PAGE_SIZE) = some (pg * PAGE_SIZE))) := by
  constructor
  · intro hlt
    rw [setBrk, if_pos hlt]
  · intro hgt
    set rb : Nat := round_up_to (to_offset_neg pm.brk 1) PAGE_SIZE with hrbdef
    have hrb : rb = (to_offset_neg pm.brk 1 + 4095) / 4096 * 4096 := by
      have h1 : to_offset_neg pm.brk 1 + (2 ^ 12 - 1) < USIZE := by
        rw [to_offset_neg, USIZE]
        split
        · omega
        · omega
      have h2 : PAGE_SIZE = 2 ^ 12 := by decide
      rw [hrbdef, h2, round_up_to_pow2_eq _ 12 (by omega), Nat.mod_eq_of_lt h1]
      norm_num
    have hrbalign : rb % PAGE_SIZE = 0 := by
      rw [hrb, PAGE_SIZE]
      omega
    obtain ⟨m2, pm2, hloop, hinv2, hnew2, hold2, hbk2, hmb2, hpe2, hsb2, hst2, hmm2⟩ :=
      brkLoop_spec (2 ^ 19) m pm rb newBrk
        (by rw [PAGE_SIZE]; omega) hinv hrbalign hb31 (fun p h1 h2 => hun p h1 h2) hcap
    have hsetbrk : setBrk m pm newBrk =
        some (m2, { pm2 with brk := newBrk }, newBrk) := by
      rw [setBrk, if_neg (by omega), if_neg (by omega), if_pos hgt, ← hrbdef, hloop]
    refine ⟨m2, { pm2 with brk := newBrk }, hsetbrk, rfl, by show pm2.min_brk = _; rw [hmb2],
      ?_, ?_⟩
    · -- PMInv is untouched by the brk field update
      refine ⟨hinv2.pt_inv, hinv2.keys_nodup, hinv2.entries, hinv2.unmapped⟩
    · intro p hp1 hp2
      have hcase : rb ≤ p * PAGE_SIZE ∨
          (pm.brk % PAGE_SIZE ≠ 0 ∧ p = pm.brk / PAGE_SIZE) := by
        rcases Nat.lt_or_ge (p * PAGE_SIZE) rb with hlt | hge
        · right
          rw [hrb, to_offset_neg] at hlt
          rw [PAGE_SIZE] at *
          split at hlt
          · omega
          · omega
        · exact Or.inl hge
      rcases hcase with hge | ⟨hunal, hpeq⟩
      · obtain ⟨pg, hlkp⟩ := hnew2 p hge hp2
        refine ⟨pg, hlkp, ?_⟩
        have hmem := mapsLookup_mem pm2.maps p pg 22 hlkp
        simpa using translate_of_PMInv m2 pm2 p pg 22 0 hinv2 hmem (by decide)
      · rcases hpart with h | ⟨pg, hlkp⟩
        · exact absurd h hunal
        · have hlkp2 : mapsLookup pm2.maps p = some (pg, 22) := by
            rw [hpeq]
            exact hold2 _ _ hlkp
          refine ⟨pg, hlkp2, ?_⟩
          have hmem := mapsLookup_mem pm2.maps p pg 22 hlkp2
          simpa using translate_of_PMInv m2 pm2 p pg 22 0 hinv2 hmem (by decide)

/-- A concrete machine used to instantiate theorems: zeroed RAM, frame
allocator watermark at page 10, no vendor quirk. -/
def witnessMachine : Machine := ⟨fun _ _ => 0, 10, false⟩

/-- The concrete fresh address space built on `witnessMachine`. -/
def witnessNew : Machine × ProcessMemory :=
  match ProcessMemory.new witnessMachine with
  | some r => r
  | none => (witnessMachine, ⟨⟨0, []⟩, [], 0, 0, 0, 0, 0, 0⟩)

/-- Witness for the C5 theorem at the concrete fresh address space and
`new_brk = 0x2000`. -/
theorem setBrk_props_witness :
    (PMInv witnessNew.1 witnessNew.2 ∧
     (0x2000 : Nat) ≤ 2 ^ 31 ∧
     witnessNew.2.min_brk ≤ witnessNew.2.brk ∧
     witnessNew.2.brk ≤ 2 ^ 31 ∧
     witnessNew.1.freeStart + 3 * 2 ^ 19 < 2 ^ 44 ∧
     (∀ p, round_up_to (to_offset_neg witnessNew.2.brk 1) PAGE_SIZE ≤ p * PAGE_SIZE →
       p * PAGE_SIZE < 0x2000 → mapsLookup witnessNew.2.maps p = none) ∧
     (witnessNew.2.brk % PAGE_SIZE = 0 ∨
       ∃ pg, mapsLookup witnessNew.2.maps (witnessNew.2.brk / PAGE_SIZE) =
         some (pg, 22))) ∧
    ((0x2000 < witnessNew.2.min_brk →
      setBrk witnessNew.1 witnessNew.2 0x2000 =
        some (witnessNew.1, witnessNew.2, witnessNew.2.brk)) ∧
     (witnessNew.2.brk < 0x2000 →
      ∃ m2 pm2, setBrk witnessNew.1 witnessNew.2 0x2000 = some (m2, pm2, 0x2000) ∧
        pm2.brk = 0x2000 ∧ pm2.min_brk = witnessNew.2.min_brk ∧ PMInv m2 pm2 ∧
        (∀ p, witnessNew.2.brk < (p + 1) * PAGE_SIZE → p * PAGE_SIZE < 0x2000 →
          ∃ pg, mapsLookup pm2.maps p = some (pg, 22) ∧
            translatePT m2 pm2.page_table (p * PAGE_SIZE) =
              some (pg * PAGE_SIZE)))) := by
  obtain ⟨m1, pm1, heq, hinv, hmapsnil, hroot, hfs, hth, hpe, hmb, hbk, hsb, hst,
    hmm, htab, hframe, htrans⟩ := pmNew_spec witnessMachine
  have hw : witnessNew = (m1, pm1) := by
    rw [witnessNew, heq]
  rw [hw]
  have hun : ∀ p, round_up_to (to_offset_neg pm1.brk 1) PAGE_SIZE ≤ p * PAGE_SIZE →
      p * PAGE_SIZE < 0x2000 → mapsLookup pm1.maps p = none := by
    intro p _ _
    rw [hmapsnil]
    rfl
  have h1 : pm1.min_brk ≤ pm1.brk := by
    rw [hmb, hbk]
  have h2 : pm1.brk ≤ 2 ^ 31 := by
    rw [hbk]
    omega
  have h3 : m1.freeStart + 3 * 2 ^ 19 < 2 ^ 44 := by
    rw [hfs]
    show witnessMachine.freeStart + 1 + 3 * 2 ^ 19 < 2 ^ 44
    decide
  have h4 : pm1.brk % PAGE_SIZE = 0 ∨
      ∃ pg, mapsLookup pm1.maps (pm1.brk / PAGE_SIZE) = some (pg, 22) := by
    left
    rw [hbk]
    decide
  exact ⟨⟨hinv, by decide, h1, h2, h3, hun, h4⟩,
    setBrk_props m1 pm1 0x2000 hinv (by decide) h1 h2 h3 hun h4⟩

/-- Behaviour of the copy loop of ProcessMemory::copy_from.  `f0` is a
fence: every table and data page of the source lies below it, and every
table of the destination at or above it. -/
theorem copyFromGo_spec : ∀ (l : MapsList) (m : Machine) (dst src : ProcessMemory)
    (f0 : Nat),
    (∀ e, e ∈ l → e ∈ src.maps) →
    PMInv m src →
    PMInv m dst →
    f0 ≤ m.freeStart →
    (∀ p, IsTable m src.page_table kernelEx p → p < f0) →
    (∀ vpn pg fl, (vpn, pg, fl) ∈ src.maps → pg < f0) →
    (∀ p, IsTable m dst.page_table kernelEx p → f0 ≤ p) →
    (∀ e, e ∈ l → mapsLookup dst.maps e.1 = none) →
    ((l.map (fun e => e.1)).Nodup) →
    (m.freeStart + 3 * l.length < 2 ^ 44) →
    ∃ m2 dst2, copyFromGo m dst l = some (m2, dst2) ∧
      PMInv m2 src ∧ PMInv m2 dst2 ∧
      m.freeStart ≤ m2.freeStart ∧
      (∀ p, IsTable m2 dst2.page_table kernelEx p → f0 ≤ p) ∧
      (∀ k v, mapsLookup dst.maps k = some v → mapsLookup dst2.maps k = some v) ∧
      (∀ p i, p < m.freeStart → ¬ IsTable m dst.page_table kernelEx p →
        m2.mem p i = m.mem p i) ∧
      (∀ vpn pg fl, (vpn, pg, fl) ∈ l →
        ∃ pg2, mapsLookup dst2.maps vpn = some (pg2, fl) ∧ pg2 ≠ pg ∧ f0 ≤ pg2 ∧
          (∀ i, i < PAGE_SIZE → m2.mem pg2 i = m2.mem pg i)) ∧
      dst2.prog_end = dst.prog_end ∧ dst2.min_brk = dst.min_brk ∧
      dst2.brk = dst.brk ∧ dst2.stack_base = dst.stack_base ∧
      dst2.stack_top = dst.stack_top ∧ dst2.mmap_base = dst.mmap_base := by
  intro l
  induction l with
  | nil =>
    intro m dst src f0 hsub hsrc hdst hf0 hsrcb hsrcd hdstt hfresh hnd hcap
    refine ⟨m, dst, rfl, hsrc, hdst, le_refl _, hdstt, fun k v h => h,
      fun p i _ _ => rfl, ?_, rfl, rfl, rfl, rfl, rfl, rfl⟩
    intro vpn pg fl hmem
    cases hmem
  | cons e rest ih =>
    intro m dst src f0 hsub hsrc hdst hf0 hsrcb hsrcd hdstt hfresh hnd hcap
    rcases e with ⟨vpn, pg, fl⟩
    have hesrc : (vpn, pg, fl) ∈ src.maps := hsub _ (List.mem_cons_self _ _)
    obtain ⟨hv27, hvi0, _, hpg44s, hfl, _, _⟩ := hsrc.entries vpn pg fl hesrc
    have hpgf0 : pg < f0 := hsrcd vpn pg fl hesrc
    -- step 1: allocate the child frame (pg2 = m.freeStart)
    set pg2 : Nat := m.freeStart with hpg2def
    obtain ⟨hdstA, htabA, hfreshA⟩ := pageAlloc_PMInv m dst hdst
    have hsrcAframe : ∀ p i, p < m.freeStart → IsTable m src.page_table kernelEx p →
        (pageAlloc m).1.mem p i = m.mem p i := by
      intro p i hp _
      rw [pageAlloc_fst_mem]
      simp [show p ≠ m.freeStart by omega]
    obtain ⟨hsrcA, _, _, _, htabsrcA⟩ :=
      PMInv_transfer m (pageAlloc m).1 src hsrc
        (by rw [pageAlloc_fst_freeStart]; omega) (pageAlloc_fst_thead m) hsrcAframe
    -- step 2: copy the parent bytes into the child frame
    set mB : Machine := (pageAlloc m).1.copyPageBytes pg2 pg with hmBdef
    have hmBread : ∀ p i, mB.mem p i =
        if p = pg2 ∧ i < PAGE_SIZE then m.mem pg i
        else if p = pg2 then 0 else m.mem p i := by
      intro p i
      rw [hmBdef, copyPageBytes_read]
      by_cases h1 : p = pg2 ∧ i < PAGE_SIZE
      · simp only [if_pos h1, pageAlloc_fst_mem]
        rw [if_neg (show ¬ pg = m.freeStart by omega)]
      · simp only [if_neg h1, pageAlloc_fst_mem]
    have hmBfs : mB.freeStart = m.freeStart + 1 := rfl
    have hmBth : mB.thead = m.thead := rfl
    have hBframe : ∀ p i, p ≠ pg2 → mB.mem p i = m.mem p i := by
      intro p i hp
      rw [hmBread, if_neg (by tauto), if_neg hp]
    obtain ⟨hsrcB, _, _, _, htabsrcB⟩ :=
      PMInv_transfer m mB src hsrc (by omega) hmBth
        (fun p i hp ht => hBframe p i (by have := hsrcb p ht; omega))
    have hdstBframe : ∀ p i, p < m.freeStart → IsTable m dst.page_table kernelEx p →
        mB.mem p i = m.mem p i := by
      intro p i hp _
      exact hBframe p i (by omega)
    obtain ⟨hdstB, _, _, _, htabdstB⟩ :=
      PMInv_transfer m mB dst hdst (by omega) hmBth hdstBframe
    -- step 3: map the child frame into dst
    have hlkdst : mapsLookup dst.maps vpn = none :=
      hfresh (vpn, pg, fl) (List.mem_cons_self _ _)
    have hpg2nt : ¬ IsTable mB dst.page_table kernelEx pg2 := by
      intro hc
      have := hdstt pg2 ((htabdstB pg2).mp hc)
      have hlt : pg2 < m.freeStart ∨ pg2 = m.freeStart := by omega
      rcases (htabdstB pg2).mp hc with hcc
      have := hdst.pt_inv.root_lt
      rcases hcc with h | ⟨i0, hg, h⟩ | ⟨i0, i1, hg, hi1, h⟩
      · omega
      · have := hdst.pt_inv.l1_lt i0 _ hg h
        omega
      · have := hdst.pt_inv.l2_lt i0 i1 _ hg hi1 h
        omega
    obtain ⟨m2, dst2, hmapstep, hdst2, hmaps2, hpe2, hmb2, hbk2, hsb2, hst2, hmm2,
      hth2, hfsa2, hfsb2, hframe2, htab2⟩ :=
      pmMap_spec mB dst vpn pg2 fl hdstB hv27 hvi0 hlkdst
        (by rw [hmBfs]; omega) (by have := hcap; simp [List.length] at this; omega)
        hpg2nt hfl (by rw [hmBfs]; simp [List.length] at hcap; omega)
    have hsrc2frame : ∀ p i, p < mB.freeStart → IsTable mB src.page_table kernelEx p →
        m2.mem p i = mB.mem p i := by
      intro p i hp ht
      apply hframe2 p i hp
      intro hc
      have h1 := hdstt p ((htabdstB p).mp hc)
      have h2 := hsrcb p ((htabsrcB p).mp ht)
      omega
    obtain ⟨hsrc2, _, _, _, htabsrc2⟩ :=
      PMInv_transfer mB m2 src hsrcB (by omega) hth2
        (fun p i hp ht => hsrc2frame p i hp ht)
    -- step 4: recurse
    have hcaprec : m2.freeStart + 3 * rest.length < 2 ^ 44 := by
      rw [hmBfs] at hfsb2
      simp [List.length] at hcap
      omega
    obtain ⟨m3, dst3, hrec, hsrc3, hdst3, hfs3, hdstt3, hold3, hframe3, hacc3,
      hpe3, hmb3, hbk3, hsb3, hst3, hmm3⟩ :=
      ih m2 dst2 src f0 (fun e he => hsub e (List.mem_cons_of_mem _ he))
        hsrc2 hdst2 (by omega)
        (fun p ht => hsrcb p ((htabsrcB p).mp ((htabsrc2 p).mp ht)))
        hsrcd
        (by
          intro p ht
          rcases htab2 p ht with h | h
          · exact hdstt p ((htabdstB p).mp h)
          · rw [hmBfs] at h
            omega)
        (by
          intro e2 he2
          have hne : e2.1 ≠ vpn := by
            intro heq
            rw [List.map_cons, List.nodup_cons] at hnd
            exact hnd.1 (heq ▸ List.mem_map.mpr ⟨e2, he2, rfl⟩)
          rw [hmaps2, mapsLookup_insert_ne _ _ _ _ _ hne]
          exact hfresh e2 (List.mem_cons_of_mem _ he2))
        (by
          rw [List.map_cons, List.nodup_cons] at hnd
          exact hnd.2)
        hcaprec
    -- assemble
    have hstep : copyFromGo m dst ((vpn, pg, fl) :: rest) = some (m3, dst3) := by
      rw [copyFromGo]
      rw [pageAlloc_snd, ← hpg2def, ← hmBdef, hmapstep]
      exact hrec
    have hdstfree : ∀ p, p < m.freeStart → ¬ IsTable m dst.page_table kernelEx p →
        ¬ IsTable m2 dst2.page_table kernelEx p := by
      intro p hp hnt hc
      rcases htab2 p hc with h | h
      · exact hnt ((htabdstB p).mp h)
      · rw [hmBfs] at h
        omega
    have hframe23 : ∀ p i, p < m.freeStart → ¬ IsTable m dst.page_table kernelEx p →
        m3.mem p i = m.mem p i := by
      intro p i hp hnt
      rw [hframe3 p i (by omega) (hdstfree p hp hnt)]
      rw [hframe2 p i (by rw [hmBfs]; omega) (fun hc => hnt ((htabdstB p).mp hc))]
      exact hBframe p i (by omega)
    refine ⟨m3, dst3, hstep, hsrc3, hdst3, by rw [hmBfs] at hfsa2; omega, hdstt3, ?_,
      hframe23, ?_,
      by rw [hpe3, hpe2], by rw [hmb3, hmb2], by rw [hbk3, hbk2],
      by rw [hsb3, hsb2], by rw [hst3, hst2], by rw [hmm3, hmm2]⟩
    · intro k v h
      apply hold3
      have hne : k ≠ vpn := by
        intro heq
        rw [heq, hlkdst] at h
        cases h
      rw [hmaps2, mapsLookup_insert_ne _ _ _ _ _ hne]
      exact h
    · intro vpn' pg' fl' hmem
      rcases List.mem_cons.mp hmem with heq | hmem2
      · cases heq
        refine ⟨pg2, ?_, by omega, by omega, ?_⟩
        · apply hold3
          rw [hmaps2, mapsLookup_insert_self]
        · intro i hi
          have hpg2dat : ¬ IsTable m2 dst2.page_table kernelEx pg2 := by
            obtain ⟨_, _, _, _, _, hnt, _⟩ := hdst2.entries vpn pg2 fl
              (mapsLookup_mem _ _ _ _ (by rw [hmaps2, mapsLookup_insert_self]))
            exact hnt
          have hpgdat : ¬ IsTable m2 dst2.page_table kernelEx pg := by
            intro hc
            rcases htab2 pg hc with h | h
            · have := hdstt pg ((htabdstB pg).mp h)
              omega
            · rw [hmBfs] at h
              omega
          have h1 : m3.mem pg2 i = m2.mem pg2 i :=
            hframe3 pg2 i (by rw [hmBfs] at hfsa2; omega) hpg2dat
          have h2 : m3.mem pg i = m2.mem pg i :=
            hframe3 pg i (by omega) hpgdat
          have h3 : m2.mem pg2 i = mB.mem pg2 i := by
            apply hframe2 pg2 i (by rw [hmBfs]; omega) hpg2nt
          have h4 : m2.mem pg i = mB.mem pg i := by
            apply hframe2 pg i (by rw [hmBfs]; omega)
            intro hc
            have := hdstt pg ((htabdstB pg).mp hc)
            omega
          have h5 : mB.mem pg2 i = m.mem pg i := by
            rw [hmBread, if_pos ⟨rfl, hi⟩]
          have h6 : mB.mem pg i = m.mem pg i := hBframe pg i (by omega)
          rw [h1, h2, h3, h4, h5, h6]
      · exact hacc3 vpn' pg' fl' hmem2

/-! ## Claim C7: ProcessMemory::copy_from -/

/-- Table pages of a well-formed table sit below the allocation
watermark. -/
theorem IsTable_lt_freeStart (m : Machine) (pt : PageTable) (ex : Nat → Prop)
    (hinv : PTInv m pt ex) (p : Nat) (h : IsTable m pt ex p) :
    p < m.freeStart := by
  rcases h with h | ⟨i0, hg, h⟩ | ⟨i0, i1, hg, hi1, h⟩
  · rw [h]
    exact hinv.root_lt
  · exact hinv.l1_lt i0 p hg h
  · exact hinv.l2_lt i0 i1 p hg hi1 h

/-- Behaviour of ProcessMemory::copy_from into a destination whose `maps`
is empty and whose tables sit at or above the fence `f0`, while every
table and data page of the source sits below it. -/
theorem copyFrom_spec (m : Machine) (dst other : ProcessMemory) (f0 : Nat)
    (cs : Bool)
    (hsrc : PMInv m other) (hdst : PMInv m dst)
    (hdmaps : dst.maps = [])
    (hf0 : f0 ≤ m.freeStart)
    (hsrct : ∀ p, IsTable m other.page_table kernelEx p → p < f0)
    (hsrcd : ∀ vpn pg fl, (vpn, pg, fl) ∈ other.maps → pg < f0)
    (hdstt : ∀ p, IsTable m dst.page_table kernelEx p → f0 ≤ p)
    (hcap : m.freeStart + 3 * other.maps.length < 2 ^ 44) :
    ∃ m2 dst2, copyFrom m dst other cs = some (m2, dst2) ∧
      dst2.stack_top = other.stack_top ∧ dst2.stack_base = other.stack_base ∧
      dst2.brk = other.brk ∧ dst2.prog_end = other.prog_end ∧
      dst2.min_brk = dst.min_brk ∧ dst2.mmap_base = dst.mmap_base ∧
      PMInv m2 dst2 ∧ PMInv m2 other ∧ m.freeStart ≤ m2.freeStart ∧
      (∀ vpn pg fl, (vpn, pg, fl) ∈ other.maps →
        ∃ pg2, mapsLookup dst2.maps vpn = some (pg2, fl) ∧ pg2 ≠ pg ∧
          translatePT m2 dst2.page_table (vpn * PAGE_SIZE) =
            some (pg2 * PAGE_SIZE) ∧
          translatePT m2 other.page_table (vpn * PAGE_SIZE) =
            some (pg * PAGE_SIZE) ∧
          pg2 * PAGE_SIZE ≠ pg * PAGE_SIZE ∧
          (∃ locD locS, findPte m2 dst2.page_table vpn = some locD ∧
            findPte m2 other.page_table vpn = some locS ∧
            pteFlags (m2.mem locD.1 locD.2) = pteFlags (m2.mem locS.1 locS.2)) ∧
          (∀ i, i < PAGE_SIZE → m2.mem pg2 i = m2.mem pg i)) := by
  have hdstB : PMInv m ({ dst with
      stack_top := other.stack_top
      stack_base := other.stack_base
      brk := other.brk
      prog_end := other.prog_end } : ProcessMemory) :=
    ⟨hdst.pt_inv, hdst.keys_nodup, hdst.entries, hdst.unmapped⟩
  obtain ⟨m2, dst2, hrun, hsrc2, hdst2, hfs2, htab2, hlk2, hfr2, hent2,
    hq1, hq2, hq3, hq4, hq5, hq6⟩ :=
    copyFromGo_spec other.maps m
      ({ dst with
        stack_top := other.stack_top
        stack_base := other.stack_base
        brk := other.brk
        prog_end := other.prog_end } : ProcessMemory)
      other f0
      (fun _ he => he) hsrc hdstB hf0 hsrct hsrcd
      (fun p hp => hdstt p hp)
      (fun e _ => by
        show mapsLookup dst.maps e.1 = none
        rw [hdmaps]
        rfl)
      hsrc.keys_nodup hcap
  refine ⟨m2, dst2, ?_, hq5, hq4, hq3, hq1, hq2, hq6, hdst2, hsrc2, hfs2, ?_⟩
  · rw [copyFrom]
    exact hrun
  intro vpn pg fl hmem
  obtain ⟨pg2, hlk, hne, hge, hbytes⟩ := hent2 vpn pg fl hmem
  have hmemD : (vpn, pg2, fl) ∈ dst2.maps := mapsLookup_mem dst2.maps vpn pg2 fl hlk
  obtain ⟨_, _, _, hpg2_44, hfl256, _, locD, hfD, hvD⟩ :=
    hdst2.entries vpn pg2 fl hmemD
  obtain ⟨_, _, _, hpg44, _, _, locS, hfS, hvS⟩ := hsrc2.entries vpn pg fl hmem
  have hoff : (0 : Nat) < PAGE_SIZE := by
    rw [PAGE_SIZE]
    omega
  refine ⟨pg2, hlk, hne, ?_, ?_, ?_, ⟨locD, locS, hfD, hfS, ?_⟩, hbytes⟩
  · have := translate_of_PMInv m2 dst2 vpn pg2 fl 0 hdst2 hmemD hoff
    simpa using this
  · have := translate_of_PMInv m2 other vpn pg fl 0 hsrc2 hmem hoff
    simpa using this
  · rw [PAGE_SIZE]
    intro hc
    omega
  · rw [hvD, hvS,
      mkPteVal_flags _ _ _ _ hfl256 (by rw [page_div]; exact hpg2_44),
      mkPteVal_flags _ _ _ _ hfl256 (by rw [page_div]; exact hpg44)]

/-- Claim C7: for a source address space `other` (satisfying the memory
invariant) and a freshly constructed destination, `copy_from(other, true)`
succeeds; the destination's stack_top, stack_base, brk and prog_end equal
`other`'s; and for every entry of `other.maps`, the destination maps the
same virtual page to a different physical frame with the same stored
flags, both sides translate that page (the physical results differ), the
installed leaf-PTE flag bits agree, and the 4096 bytes of the two frames
are identical in the final machine. -/
theorem copyFrom_props (m : Machine) (other : ProcessMemory)
    (hinv : PMInv m other)
    (hcap : m.freeStart + 1 + 3 * other.maps.length < 2 ^ 44) :
    ∃ m1 dst m2 dst2,
      ProcessMemory.new m = some (m1, dst) ∧
      copyFrom m1 dst other true = some (m2, dst2) ∧
      dst2.stack_top = other.stack_top ∧ dst2.stack_base = other.stack_base ∧
      dst2.brk = other.brk ∧ dst2.prog_end = other.prog_end ∧
      PMInv m2 dst2 ∧ PMInv m2 other ∧
      (∀ vpn pg fl, (vpn, pg, fl) ∈ other.maps →
        ∃ pg2, mapsLookup dst2.maps vpn = some (pg2, fl) ∧ pg2 ≠ pg ∧
          translatePT m2 dst2.page_table (vpn * PAGE_SIZE) =
            some (pg2 * PAGE_SIZE) ∧
          translatePT m2 other.page_table (vpn * PAGE_SIZE) =
            some (pg * PAGE_SIZE) ∧
          pg2 * PAGE_SIZE ≠ pg * PAGE_SIZE ∧
          (∃ locD locS, findPte m2 dst2.page_table vpn = some locD ∧
            findPte m2 other.page_table vpn = some locS ∧
            pteFlags (m2.mem locD.1 locD.2) = pteFlags (m2.mem locS.1 locS.2)) ∧
          (∀ i, i < PAGE_SIZE → m2.mem pg2 i = m2.mem pg i)) := by
  obtain ⟨m1, dst, heq, hinvd, hmaps0, hroot, hfs, hth, hpe, hmb, hbk, hsb, hst,
    hmm, htab, hframe, htrans⟩ := pmNew_spec m
  have hsrcframe : ∀ p i, p < m.freeStart → IsTable m other.page_table kernelEx p →
      m1.mem p i = m.mem p i := by
    intro p i hp _
    exact hframe p i (by omega)
  obtain ⟨hsrc1, _, _, _, htabsrc1⟩ :=
    PMInv_transfer m m1 other hinv (by omega) hth hsrcframe
  obtain ⟨m2, dst2, hrun, hst2, hsb2, hbk2, hpe2, _, _, hdst2, hsrc2, _, hent⟩ :=
    copyFrom_spec m1 dst other m.freeStart true hsrc1 hinvd hmaps0 (by omega)
      (fun p hp =>
        IsTable_lt_freeStart m other.page_table kernelEx hinv.pt_inv p
          ((htabsrc1 p).mp hp))
      (fun vpn pg fl hm => (hinv.entries vpn pg fl hm).2.2.1)
      (fun p hp => le_of_eq (htab p hp).symm)
      (by omega)
  exact ⟨m1, dst, m2, dst2, heq, hrun, hst2, hsb2, hbk2, hpe2, hdst2, hsrc2, hent⟩

/-- Claim C7 witness: a concrete source with one mapped page (virtual
page 5, physical frame 3, flags R|W|U) is copied into a fresh
destination; the clause of the claim theorem is instantiated at that
entry. -/
theorem copyFrom_props_witness :
    ∃ mS srcPM, pmMap witnessNew.1 witnessNew.2 5 3 22 = some (mS, srcPM) ∧
      (5, 3, 22) ∈ srcPM.maps ∧
      ∃ m1 dst m2 dst2,
        ProcessMemory.new mS = some (m1, dst) ∧
        copyFrom m1 dst srcPM true = some (m2, dst2) ∧
        dst2.brk = srcPM.brk ∧
        ∃ pg2, mapsLookup dst2.maps 5 = some (pg2, 22) ∧ pg2 ≠ 3 ∧
          translatePT m2 dst2.page_table (5 * PAGE_SIZE) =
            some (pg2 * PAGE_SIZE) ∧
          translatePT m2 srcPM.page_table (5 * PAGE_SIZE) =
            some (3 * PAGE_SIZE) ∧
          (∀ i, i < PAGE_SIZE → m2.mem pg2 i = m2.mem 3 i) := by
  obtain ⟨m1, pm1, heq, hinv, hmapsnil, hroot, hfs, hth, hpe, hmb, hbk, hsb, hst,
    hmm, htab, hframe, htrans⟩ := pmNew_spec witnessMachine
  have hw : witnessNew = (m1, pm1) := by
    rw [witnessNew, heq]
  rw [hw]
  have h10 : witnessMachine.freeStart = 10 := rfl
  obtain ⟨mS, srcPM, hmapeq, hSinv, hSmaps, _, _, _, _, _, _, hthS, hfsa, hfsb,
    _, _⟩ :=
    pmMap_spec m1 pm1 5 3 22 hinv (by decide) (by decide)
      (by rw [hmapsnil]; rfl)
      (by omega) (by decide)
      (fun hc => absurd (htab 3 hc) (by omega))
      (by decide) (by omega)
  have hSmaps1 : srcPM.maps = [(5, 3, 22)] := by
    rw [hSmaps, hmapsnil]
    rfl
  have hmem : (5, 3, 22) ∈ srcPM.maps := by
    rw [hSmaps1]
    exact List.mem_singleton.mpr rfl
  obtain ⟨mA, dst, m2, dst2, heq2, hrun2, hbst, hbsb, hbbk, hbpe, hinvD, hinvS,
    hent⟩ :=
    copyFrom_props mS srcPM hSinv
      (by rw [hSmaps1]; simp; omega)
  obtain ⟨pg2, hlk, hne, htD, htS, _, _, hbytes⟩ := hent 5 3 22 hmem
  exact ⟨mS, srcPM, hmapeq, hmem, mA, dst, m2, dst2, heq2, hrun2, hbbk,
    pg2, hlk, hne, htD, htS, hbytes⟩

/-! ## Process layer (src/src/process/process.rs, pid.rs; trap context from
src/src/interrupt/trap.rs)

`SyscallError` comes from src/src/syscall/error.rs, which is not present
in the sources.

Modelled from the spec: syscall errors are the POSIX errno constants,
returned as `Err(e)` and encoded as `-(e as isize)` on the syscall
boundary; the variants used by the embedded code are EPERM = 1,
ENOENT = 2, EIO = 5 (spelled `Eio` here), EBADF = 9, ECHILD = 10,
ENOMEM = 12, EINVAL = 22
and ESPIPE = 29. -/

inductive SyscallError
  | EPERM
  | ENOENT
  | Eio
  | EBADF
  | ECHILD
  | ENOMEM
  | EINVAL
  | ESPIPE
deriving DecidableEq

/-- The errno value of each error. -/
def SyscallError.code : SyscallError → Nat
  | .EPERM => 1
  | .ENOENT => 2
  | .Eio => 5
  | .EBADF => 9
  | .ECHILD => 10
  | .ENOMEM => 12
  | .EINVAL => 22
  | .ESPIPE => 29

inductive ProcessStatus
  | Ready
  | Running
  | Suspend
  | Zombie
deriving DecidableEq

/-- TrapContext (#[repr(C)]): 32 integer registers, then satp, sepc,
sstatus and the kernel stack pointer.  Register a0 is index 10. -/
structure TrapContext where
  reg : List Nat
  satp : Nat
  sepc : Nat
  sstatus : Nat
  kernel_sp : Nat
deriving DecidableEq

/-- TrapContext::new. -/
def TrapContext.new : TrapContext :=
  { reg := List.replicate 32 0, satp := 0, sepc := 0, sstatus := 0, kernel_sp := 0 }

/-- TrapContext::copy_from: only `sepc` and the register file are copied;
`satp`, `sstatus` and `kernel_sp` keep the receiver's values. -/
def TrapContext.copy_from (self other : TrapContext) : TrapContext :=
  { self with
    sepc := other.sepc
    reg := other.reg }

/-- The little-endian 64-bit word of page `p` at byte offset `off`. -/
def word64At (m : Machine) (p off : Nat) : Nat :=
  (List.range 8).foldr (fun j acc => acc * 256 + m.mem p (off + j)) 0

/-- The TrapContext stored at the base of physical page `p`
(`PhyAddr::from(id).get_ref_mut::<TrapContext>()` reinterprets the raw
page bytes; offsets follow the #[repr(C)] layout). -/
def TrapContext.load (m : Machine) (p : Nat) : TrapContext :=
  { reg := (List.range 32).map (fun i => word64At m p (8 * i))
    satp := word64At m p 256
    sepc := word64At m p 264
    sstatus := word64At m p 272
    kernel_sp := word64At m p 280 }

/-- An open file table slot.  The console devices are distinguished
values; other files are abstract handles. -/
inductive FileObj
  | stdin
  | stdout
  | vfile (n : Nat)
deriving DecidableEq

/-- ProcessData: the lock-protected part of a Process, together with its
pid (the `Process.pid` field).  The trap context lives at the base of
`kernel_stack[0]`; nothing else aliases that page, so it is carried as a
field, initialised from the raw page bytes when the process is created.
`cwd` is the DirEntry identity (root = 0); `TaskContext` and the exit
condvar carry no information the embedded code reads and are omitted. -/
structure ProcData where
  status : ProcessStatus
  exit_code : Nat
  parent : Option Nat
  children : List Nat
  kernel_stack : List Nat
  memory : ProcessMemory
  trap : TrapContext
  cwd : Nat
  files : List (Option FileObj)

/-- The process table: pid-keyed association list (BTreeMap). -/
abbrev PList := List (Nat × ProcData)

def plistLookup : PList → Nat → Option ProcData
  | [], _ => none
  | e :: rest, k => if e.1 = k then some e.2 else plistLookup rest k

def plistInsert : PList → Nat → ProcData → PList
  | [], k, v => [(k, v)]
  | e :: rest, k, v => if e.1 = k then (k, v) :: rest else e :: plistInsert rest k v

def plistRemove : PList → Nat → PList
  | [], _ => []
  | e :: rest, k => if e.1 = k then rest else e :: plistRemove rest k

/-- RecycleAllocator (src/src/process/pid.rs). -/
structure PidAllocator where
  max : Nat
  free : List Nat

/-- RecycleAllocator::alloc: pop a recycled id, else bump `max`. -/
def pidAlloc (a : PidAllocator) : PidAllocator × Nat :=
  match a.free with
  | id :: rest => (⟨a.max, rest⟩, id)
  | [] => (⟨a.max + 1, []⟩, a.max + 1)

/-- ProcessManager plus the global PID_ALLOCATOR. -/
structure PMState where
  process_list : PList
  previous_scheduled_pid : Nat
  pid_alloc : PidAllocator

/-- Process::new: allocate a pid and the 512-page kernel stack, build a
fresh address space, and set up ProcessData; the trap context (stored in
`kernel_stack[0]`) gets `kernel_sp` and `satp`, and the file table is
stdin/stdout/stdout. -/
def Process.newData (m2 : Machine) (ks : List Nat) (mem : ProcessMemory) :
    ProcData :=
  let tc0 := TrapContext.load m2 (ks.getD 0 0)
  { status := ProcessStatus.Ready
    exit_code := 0
    parent := none
    children := []
    kernel_stack := ks
    memory := mem
    trap := { tc0 with
      kernel_sp := (ks.getD (PROCESS_KERNEL_STACK_SIZE - 1) 0) * PAGE_SIZE +
        PAGE_SIZE * PROCESS_KERNEL_STACK_SIZE
      satp := mem.page_table.toSatp }
    cwd := 0
    files := [some FileObj.stdin, some FileObj.stdout, some FileObj.stdout] }

def Process.new (m : Machine) (pa : PidAllocator) :
    Option (Machine × PidAllocator × Nat × ProcData) :=
  let rp := pidAlloc pa
  let rk := pageAllocMany m PROCESS_KERNEL_STACK_SIZE
  match ProcessMemory.new rk.1 with
  | none => none
  | some (m2, mem) => some (m2, rp.1, rp.2, Process.newData m2 rk.2 mem)

/-- ProcessManager::spawn: create a process and insert it into the
table; returns the child pid. -/
def spawn (m : Machine) (st : PMState) : Option (Machine × PMState × Nat) :=
  match Process.new m st.pid_alloc with
  | none => none
  | some (m2, pa2, pid, pd) =>
    some (m2, { st with
      pid_alloc := pa2
      process_list := plistInsert st.process_list pid pd }, pid)

/-- ProcessManager::fork: spawn a child, link parent and child, copy the
address space eagerly, set the child Ready, inherit `cwd`, copy `sepc`
and the registers of the parent trap context, zero the child's a0, and
return the child pid.  The file table is not touched (the child keeps
the stdin/stdout/stdout table from Process::new). -/
def fork (m : Machine) (st : PMState) (parentPid childStack : Nat) :
    Option (Machine × PMState × Nat) :=
  match plistLookup st.process_list parentPid with
  | none => none
  | some parentData =>
    match spawn m st with
    | none => none
    | some (m1, st1, childPid) =>
      match plistLookup st1.process_list childPid with
      | none => none
      | some childData0 =>
        let childData1 := { childData0 with parent := some parentPid }
        let parentData2 :=
          { parentData with children := parentData.children ++ [childPid] }
        match copyFrom m1 childData1.memory parentData.memory true with
        | none => none
        | some (m2, childMem) =>
          let tc1 := childData1.trap.copy_from parentData.trap
          let tc2 := { tc1 with reg := tc1.reg.set 10 0 }
          let childData2 := { childData1 with
            memory := childMem
            status := ProcessStatus.Ready
            cwd := parentData.cwd
            trap := tc2 }
          let plist2 :=
            plistInsert (plistInsert st1.process_list parentPid parentData2)
              childPid childData2
          some (m2, { st1 with process_list := plist2 }, childPid)

/-- const WNOHANG (src/src/process/process.rs). -/
def WNOHANG : Nat := 1

/-- The outcome of one pass over the children in
ProcessManager::wait_for. -/
inductive WaitRes
  | err (e : SyscallError)
  | ok (pid : Nat) (exitCode : Option Nat)
  | blocked
deriving DecidableEq

/-- The zombie scan of ProcessManager::wait_for: the first surviving
child in Zombie status whose pid matches the request (`pid == -1` or
`pid == child.pid`), together with its exit code. -/
def findZombie (st : PMState) (pid : Int) : List Nat → Option (Nat × Nat)
  | [] => none
  | c :: rest =>
    match plistLookup st.process_list c with
    | none => findZombie st pid rest
    | some cd =>
      if cd.status = ProcessStatus.Zombie ∧ (pid = -1 ∨ pid = (c : Int)) then
        some (c, cd.exit_code)
      else findZombie st pid rest

/-- One iteration of the ProcessManager::wait_for loop: retain the
surviving children, fail with ECHILD when none survive, reap the first
matching zombie (removing it from the table and reporting its exit
code), return 0 when `option` equals WNOHANG exactly, and otherwise
block — except that waiting on a specific pid that is not in the table
fails with ECHILD.  `WaitRes.ok c (some code)` models storing `code`
through the user exit-code pointer and returning `Ok(c)`. -/
def waitForStep (st : PMState) (parentPid : Nat) (pid : Int) (opt : Nat) :
    Option (PMState × WaitRes) :=
  match plistLookup st.process_list parentPid with
  | none => none
  | some parentData =>
    let children2 := parentData.children.filter
      (fun c => (plistLookup st.process_list c).isSome)
    let plist1 :=
      plistInsert st.process_list parentPid
        { parentData with children := children2 }
    let st1 : PMState := { st with process_list := plist1 }
    if children2 = [] then some (st1, WaitRes.err SyscallError.ECHILD)
    else
      match findZombie st1 pid children2 with
      | some r =>
        some ({ st1 with process_list := plistRemove st1.process_list r.1 },
          WaitRes.ok r.1 (some r.2))
      | none =>
        if opt = WNOHANG then some (st1, WaitRes.ok 0 none)
        else if 0 < pid then
          match plistLookup st1.process_list pid.toNat with
          | some _ => some (st1, WaitRes.blocked)
          | none => some (st1, WaitRes.err SyscallError.ECHILD)
        else some (st1, WaitRes.blocked)

/-! ## Process-table lemmas -/

theorem plistLookup_insert_self (l : PList) (k : Nat) (v : ProcData) :
    plistLookup (plistInsert l k v) k = some v := by
  induction l with
  | nil => simp [plistInsert, plistLookup]
  | cons e rest ih =>
    rw [plistInsert]
    by_cases he : e.1 = k
    · rw [if_pos he, plistLookup, if_pos rfl]
    · rw [if_neg he, plistLookup, if_neg he]
      exact ih

theorem plistLookup_insert_ne (l : PList) (k k2 : Nat) (v : ProcData)
    (h : k ≠ k2) : plistLookup (plistInsert l k v) k2 = plistLookup l k2 := by
  induction l with
  | nil => simp [plistInsert, plistLookup, h]
  | cons e rest ih =>
    rw [plistInsert]
    by_cases he : e.1 = k
    · rw [if_pos he, plistLookup, if_neg h, plistLookup, if_neg]
      rw [he]
      exact h
    · rw [if_neg he, plistLookup, plistLookup]
      by_cases he2 : e.1 = k2
      · rw [if_pos he2, if_pos he2]
      · rw [if_neg he2, if_neg he2]
        exact ih

theorem plistInsert_keys_nodup (l : PList) (k : Nat) (v : ProcData)
    (h : (l.map (fun e => e.1)).Nodup) :
    ((plistInsert l k v).map (fun e => e.1)).Nodup := by
  induction l with
  | nil => simp [plistInsert]
  | cons x rest ih =>
    rw [plistInsert]
    rw [List.map_cons, List.nodup_cons] at h
    by_cases hx : x.1 = k
    · rw [if_pos hx, List.map_cons, List.nodup_cons]
      refine ⟨?_, h.2⟩
      rw [← hx]
      exact h.1
    · rw [if_neg hx, List.map_cons, List.nodup_cons]
      refine ⟨?_, ih h.2⟩
      intro hc
      rcases List.mem_map.mp hc with ⟨e, he, hee⟩
      have hmem : e.1 = k ∨ e ∈ rest := by
        clear hc ih h
        induction rest with
        | nil =>
          rw [plistInsert] at he
          rcases List.mem_singleton.mp he with h2
          left
          rw [h2]
        | cons y ys ih2 =>
          rw [plistInsert] at he
          by_cases hy : y.1 = k
          · rw [if_pos hy] at he
            rcases List.mem_cons.mp he with h2 | h2
            · left
              rw [h2]
            · right
              exact List.mem_cons_of_mem _ h2
          · rw [if_neg hy] at he
            rcases List.mem_cons.mp he with h2 | h2
            · right
              rw [h2]
              exact List.mem_cons_self _ _
            · rcases ih2 h2 with h3 | h3
              · left
                exact h3
              · right
                exact List.mem_cons_of_mem _ h3
      rcases hmem with h2 | h2
      · rw [hee] at h2
        exact hx h2
      · exact h.1 (List.mem_map.mpr ⟨e, h2, hee⟩)

theorem plistLookup_remove_self (l : PList) (k : Nat)
    (h : (l.map (fun e => e.1)).Nodup) :
    plistLookup (plistRemove l k) k = none := by
  induction l with
  | nil => rfl
  | cons e rest ih =>
    rw [List.map_cons, List.nodup_cons] at h
    rw [plistRemove]
    by_cases he : e.1 = k
    · rw [if_pos he]
      cases hl : plistLookup rest k with
      | none => rfl
      | some v =>
        exfalso
        have hmem : k ∈ rest.map (fun e => e.1) := by
          clear ih h he
          induction rest with
          | nil => cases hl
          | cons y ys ih2 =>
            rw [plistLookup] at hl
            by_cases hy : y.1 = k
            · rw [List.map_cons, ← hy]
              exact List.mem_cons_self _ _
            · rw [if_neg hy] at hl
              rw [List.map_cons]
              exact List.mem_cons_of_mem _ (ih2 hl)
        rw [← he] at hmem
        exact h.1 hmem
    · rw [if_neg he, plistLookup, if_neg he]
      exact ih h.2

set_option maxHeartbeats 2000000 in
/-- Process::new always succeeds; the new ProcessData has Ready status,
no parent, no children, the root cwd, the three console fds, a fresh
empty address space (one new root table page at `m.freeStart + 512`
after the 512 kernel-stack pages), and a trap context whose `satp` is
the satp of its own page table. -/
theorem processNew_spec (m : Machine) (pa : PidAllocator) :
    ∃ m2 pd, Process.new m pa = some (m2, (pidAlloc pa).1, (pidAlloc pa).2, pd) ∧
      pd.status = ProcessStatus.Ready ∧ pd.exit_code = 0 ∧ pd.parent = none ∧
      pd.children = [] ∧ pd.cwd = 0 ∧
      pd.files = [some FileObj.stdin, some FileObj.stdout, some FileObj.stdout] ∧
      pd.trap.satp = pd.memory.page_table.toSatp ∧
      pd.memory.maps = [] ∧ PMInv m2 pd.memory ∧
      pd.memory.page_table.root = m.freeStart + PROCESS_KERNEL_STACK_SIZE ∧
      pd.memory.prog_end = 0 ∧ pd.memory.min_brk = 0 ∧ pd.memory.brk = 0 ∧
      pd.memory.stack_base = PROCESS_USER_STACK_BASE ∧
      pd.memory.stack_top = PROCESS_USER_STACK_BASE ∧
      pd.memory.mmap_base = PROCESS_MMAP_BASE ∧
      m2.freeStart = m.freeStart + PROCESS_KERNEL_STACK_SIZE + 1 ∧
      m2.thead = m.thead ∧
      (∀ p, IsTable m2 pd.memory.page_table kernelEx p →
        p = m.freeStart + PROCESS_KERNEL_STACK_SIZE) ∧
      (∀ p i, p ≠ m.freeStart + PROCESS_KERNEL_STACK_SIZE →
        m2.mem p i = m.mem p i) := by
  obtain ⟨m1, pm1, heq, hinv, hmapsnil, hroot, hfs, hth, hpe, hmb, hbk, hsb, hst,
    hmm, htab, hframe, htrans⟩ :=
    pmNew_spec (m.incFree PROCESS_KERNEL_STACK_SIZE)
  refine ⟨m1,
    Process.newData m1 (pageAllocMany m PROCESS_KERNEL_STACK_SIZE).2 pm1,
    ?_, rfl, rfl, rfl, rfl, rfl, rfl, rfl, hmapsnil, hinv, hroot, hpe, hmb, hbk,
    hsb, hst, hmm, ?_, hth, htab, hframe⟩
  · simp only [Process.new]
    rw [show ProcessMemory.new (pageAllocMany m PROCESS_KERNEL_STACK_SIZE).1 =
      some (m1, pm1) from heq]
  · rw [hfs]
    rfl

/-! ## Root preservation through map and copy -/

theorem findPteCreate_root (m : Machine) (pt : PageTable) (vpn : Nat) :
    (findPteCreate m pt vpn).2.1.root = pt.root := by
  rw [findPteCreate]
  by_cases h0 : pteValid (m.mem pt.root (idx0 vpn))
  · simp only [if_pos h0]
    by_cases h1 : pteValid (m.mem pt.root (idx0 vpn)) <;> split <;> rfl
  · simp only [if_neg h0]
    split <;> rfl

theorem mapPT_root (m : Machine) (pt : PageTable) (va pa fl : Nat)
    (r : Machine × PageTable) (h : mapPT m pt va pa fl = some r) :
    r.2.root = pt.root := by
  rw [mapPT] at h
  split at h
  · cases h
  · cases h
    exact findPteCreate_root m pt (va / PAGE_SIZE)

theorem pmMap_root (m : Machine) (pm : ProcessMemory) (vpn pg fl : Nat)
    (r : Machine × ProcessMemory) (h : pmMap m pm vpn pg fl = some r) :
    r.2.page_table.root = pm.page_table.root := by
  rw [pmMap] at h
  cases hp : mapPT m pm.page_table (vpn * PAGE_SIZE) (pg * PAGE_SIZE) fl with
  | none => rw [hp] at h; cases h
  | some r2 =>
    rw [hp] at h
    obtain ⟨m2x, pt2x⟩ := r2
    cases h
    exact mapPT_root m pm.page_table (vpn * PAGE_SIZE) (pg * PAGE_SIZE) fl
      (m2x, pt2x) hp

theorem copyFromGo_root : ∀ (l : MapsList) (m : Machine) (dst : ProcessMemory)
    (m2 : Machine) (dst2 : ProcessMemory),
    copyFromGo m dst l = some (m2, dst2) →
    dst2.page_table.root = dst.page_table.root := by
  intro l
  induction l with
  | nil =>
    intro m dst m2 dst2 h
    cases h
    rfl
  | cons e rest ih =>
    intro m dst m2 dst2 h
    obtain ⟨vpn, pg, fl⟩ := e
    rw [copyFromGo] at h
    cases hp : pmMap ((pageAlloc m).1.copyPageBytes (pageAlloc m).2 pg) dst vpn
        (pageAlloc m).2 fl with
    | none => rw [hp] at h; cases h
    | some r =>
      rw [hp] at h
      obtain ⟨m3, dst3⟩ := r
      rw [ih m3 dst3 m2 dst2 h]
      exact pmMap_root _ dst vpn (pageAlloc m).2 fl (m3, dst3) hp

theorem copyFrom_root (m : Machine) (dst other : ProcessMemory) (cs : Bool)
    (m2 : Machine) (dst2 : ProcessMemory)
    (h : copyFrom m dst other cs = some (m2, dst2)) :
    dst2.page_table.root = dst.page_table.root := by
  rw [copyFrom] at h
  exact copyFromGo_root other.maps m
    ({ dst with
      stack_top := other.stack_top
      stack_base := other.stack_base
      brk := other.brk
      prog_end := other.prog_end }) m2 dst2 h

/-! ## Claim C2: ProcessManager::fork -/

set_option maxHeartbeats 4000000 in
/-- Claim C2 (amended): fork spawns the child, eagerly copies the parent
address space, sets the child Ready, inherits `cwd`, copies `sepc` and
the register file of the parent trap context with a0 zeroed, appends the
child to the parent's children, and returns the child pid — but the file
table is NOT inherited (the child keeps the fresh stdin/stdout/stdout
table), and the rest of the trap context (`satp`, `sstatus`,
`kernel_sp`) keeps the child's own values, since TrapContext::copy_from
copies only `sepc` and `reg`. -/
theorem fork_props (m : Machine) (st : PMState) (parentPid childStack : Nat)
    (parentData : ProcData)
    (hp : plistLookup st.process_list parentPid = some parentData)
    (hinv : PMInv m parentData.memory)
    (hcap : m.freeStart + PROCESS_KERNEL_STACK_SIZE + 1 +
      3 * parentData.memory.maps.length < 2 ^ 44) :
    ∃ m2 st2 childPid childData,
      fork m st parentPid childStack = some (m2, st2, childPid) ∧
      childPid = (pidAlloc st.pid_alloc).2 ∧
      plistLookup st2.process_list childPid = some childData ∧
      childData.status = ProcessStatus.Ready ∧
      childData.cwd = parentData.cwd ∧
      childData.parent = some parentPid ∧
      childData.files =
        [some FileObj.stdin, some FileObj.stdout, some FileObj.stdout] ∧
      childData.trap.reg = parentData.trap.reg.set 10 0 ∧
      childData.trap.sepc = parentData.trap.sepc ∧
      childData.trap.satp = childData.memory.page_table.toSatp ∧
      childData.memory.stack_top = parentData.memory.stack_top ∧
      childData.memory.stack_base = parentData.memory.stack_base ∧
      childData.memory.brk = parentData.memory.brk ∧
      childData.memory.prog_end = parentData.memory.prog_end ∧
      PMInv m2 childData.memory ∧
      (childPid ≠ parentPid →
        ∃ pd2, plistLookup st2.process_list parentPid = some pd2 ∧
          pd2.children = parentData.children ++ [childPid]) := by
  obtain ⟨m1, pd, heqP, hstat, hexit, hpar, hchil, hcwd, hfil, hsatp, hmaps0,
    hinvC, hrootC, hpeC, hmbC, hbkC, hsbC, hstC, hmmC, hfsC, hthC, htabC,
    hframeC⟩ := processNew_spec m st.pid_alloc
  obtain ⟨hsrc1, _, _, _, htabsrc1⟩ :=
    PMInv_transfer m m1 parentData.memory hinv (by omega) hthC
      (fun p i hplt _ => hframeC p i (by omega))
  obtain ⟨m2, childMem, hrunC, hstT, hsbT, hbkT, hpeT, hmbT, hmmT, hinvD2,
    hinvS2, hmono2, hent2⟩ :=
    copyFrom_spec m1 pd.memory parentData.memory
      (m.freeStart + PROCESS_KERNEL_STACK_SIZE) true hsrc1 hinvC hmaps0
      (by omega)
      (fun p hptab => by
        have h1 := IsTable_lt_freeStart m parentData.memory.page_table kernelEx
          hinv.pt_inv p ((htabsrc1 p).mp hptab)
        omega)
      (fun vpn pg fl hm => by
        have h1 := (hinv.entries vpn pg fl hm).2.2.1
        omega)
      (fun p hptab => le_of_eq (htabC p hptab).symm)
      (by omega)
  have hspawn : spawn m st = some (m1,
      { st with
        pid_alloc := (pidAlloc st.pid_alloc).1
        process_list :=
          plistInsert st.process_list (pidAlloc st.pid_alloc).2 pd },
      (pidAlloc st.pid_alloc).2) := by
    simp only [spawn]
    rw [heqP]
  have hlkC : plistLookup
      (plistInsert st.process_list (pidAlloc st.pid_alloc).2 pd)
      (pidAlloc st.pid_alloc).2 = some pd := plistLookup_insert_self _ _ _
  have hrunC2 : copyFrom m1
      ({ pd with parent := some parentPid } : ProcData).memory
      parentData.memory true = some (m2, childMem) := hrunC
  refine ⟨m2,
    { st with
      pid_alloc := (pidAlloc st.pid_alloc).1
      process_list := plistInsert
        (plistInsert (plistInsert st.process_list (pidAlloc st.pid_alloc).2 pd)
          parentPid
          { parentData with children :=
            parentData.children ++ [(pidAlloc st.pid_alloc).2] })
        (pidAlloc st.pid_alloc).2
        { pd with
          parent := some parentPid
          memory := childMem
          status := ProcessStatus.Ready
          cwd := parentData.cwd
          trap := { pd.trap.copy_from parentData.trap with
            reg := (pd.trap.copy_from parentData.trap).reg.set 10 0 } } },
    (pidAlloc st.pid_alloc).2,
    { pd with
      parent := some parentPid
      memory := childMem
      status := ProcessStatus.Ready
      cwd := parentData.cwd
      trap := { pd.trap.copy_from parentData.trap with
        reg := (pd.trap.copy_from parentData.trap).reg.set 10 0 } },
    ?_, rfl, ?_, ?_, ?_, ?_, ?_, ?_, ?_, ?_, ?_, ?_, ?_, ?_, ?_, ?_⟩
  · simp only [fork, hp, hspawn, hlkC, hrunC2]
  · exact plistLookup_insert_self _ _ _
  · rfl
  · rfl
  · rfl
  · exact hfil
  · show (pd.trap.copy_from parentData.trap).reg.set 10 0 =
      parentData.trap.reg.set 10 0
    rfl
  · rfl
  · show pd.trap.satp = childMem.page_table.toSatp
    rw [hsatp, PageTable.toSatp, PageTable.toSatp,
      copyFrom_root m1 pd.memory parentData.memory true m2 childMem hrunC]
  · exact hstT
  · exact hsbT
  · exact hbkT
  · exact hpeT
  · exact hinvD2
  · intro hne
    refine ⟨{ parentData with
        children := parentData.children ++ [(pidAlloc st.pid_alloc).2] },
      ?_, rfl⟩
    rw [plistLookup_insert_ne _ _ _ _ hne, plistLookup_insert_self]

/-- A concrete parent process for the fork claims: four open files
(stdin, stdout, stdout plus an extra file) and a trap context with
`sstatus = 42`. -/
def c2Parent : ProcData :=
  { status := ProcessStatus.Ready
    exit_code := 0
    parent := none
    children := []
    kernel_stack := []
    memory := witnessNew.2
    trap := { reg := List.replicate 32 7
              satp := 5
              sepc := 9
              sstatus := 42
              kernel_sp := 3 }
    cwd := 4
    files := [some FileObj.stdin, some FileObj.stdout, some FileObj.stdout,
      some (FileObj.vfile 7)] }

/-- A process table holding only the parent as pid 1. -/
def c2State : PMState :=
  { process_list := [(1, c2Parent)]
    previous_scheduled_pid := 0
    pid_alloc := ⟨1, []⟩ }

set_option maxRecDepth 100000 in
set_option maxHeartbeats 2000000 in
/-- Claim C2 counterexample: the parent has a four-entry fd table and
`sstatus = 42`, but the forked child's fd table is the fresh
stdin/stdout/stdout table of Process::new (fork never copies `files`),
and the child's `sstatus` is 0, not the parent's 42 (TrapContext::
copy_from copies only `sepc` and the registers) — so the child's cwd
and fd table do not both equal the parent's, and the child TrapContext
is not the parent's with only a0 changed. -/
theorem fork_c2_counterexample :
    (Option.map (fun r =>
        (r.2.2, (plistLookup r.2.1.process_list r.2.2).map
          (fun cd => (cd.files, cd.trap.sstatus))))
      (fork witnessNew.1 c2State 1 0)) =
      some (2, some
        ([some FileObj.stdin, some FileObj.stdout, some FileObj.stdout], 0)) ∧
    c2Parent.files ≠
      [some FileObj.stdin, some FileObj.stdout, some FileObj.stdout] ∧
    c2Parent.trap.sstatus = 42 ∧ (42 : Nat) ≠ 0 := by
  refine ⟨?_, by decide, rfl, by decide⟩
  decide

/-- Claim C2 witness: the amended fork theorem instantiated at the
concrete parent process (pid 1) of the counterexample state. -/
theorem fork_props_witness :
    PMInv witnessNew.1 c2Parent.memory ∧
    (∃ m2 st2 childPid childData,
      fork witnessNew.1 c2State 1 0 = some (m2, st2, childPid) ∧
      childPid = (pidAlloc c2State.pid_alloc).2 ∧
      plistLookup st2.process_list childPid = some childData ∧
      childData.status = ProcessStatus.Ready ∧
      childData.cwd = c2Parent.cwd ∧
      childData.parent = some 1 ∧
      childData.files =
        [some FileObj.stdin, some FileObj.stdout, some FileObj.stdout] ∧
      childData.trap.reg = c2Parent.trap.reg.set 10 0 ∧
      childData.trap.sepc = c2Parent.trap.sepc ∧
      childData.trap.satp = childData.memory.page_table.toSatp ∧
      childData.memory.stack_top = c2Parent.memory.stack_top ∧
      childData.memory.stack_base = c2Parent.memory.stack_base ∧
      childData.memory.brk = c2Parent.memory.brk ∧
      childData.memory.prog_end = c2Parent.memory.prog_end ∧
      PMInv m2 childData.memory ∧
      (childPid ≠ 1 →
        ∃ pd2, plistLookup st2.process_list 1 = some pd2 ∧
          pd2.children = c2Parent.children ++ [childPid])) := by
  obtain ⟨m1, pm1, heq, hinvN, hmapsnil, hroot, hfs, hth, hpe, hmb, hbk, hsb,
    hst, hmm, htab, hframe, htrans⟩ := pmNew_spec witnessMachine
  have hw : witnessNew = (m1, pm1) := by
    rw [witnessNew, heq]
  have hinv : PMInv witnessNew.1 c2Parent.memory := by
    show PMInv witnessNew.1 witnessNew.2
    rw [hw]
    exact hinvN
  refine ⟨hinv, fork_props witnessNew.1 c2State 1 0 c2Parent rfl hinv ?_⟩
  have hlen : c2Parent.memory.maps.length = 0 := by
    show witnessNew.2.maps.length = 0
    rw [hw]
    show pm1.maps.length = 0
    rw [hmapsnil]
    rfl
  rw [hlen]
  have hfs2 : witnessNew.1.freeStart = 11 := by
    rw [hw]
    rw [hfs]
    rfl
  rw [hfs2]
  decide

/-! ## Claim C3: ProcessManager::wait_for -/

theorem findZombie_spec (st : PMState) (pid : Int) :
    ∀ (l : List Nat) (c code : Nat),
    findZombie st pid l = some (c, code) →
    c ∈ l ∧ ∃ cd, plistLookup st.process_list c = some cd ∧
      cd.status = ProcessStatus.Zombie ∧ (pid = -1 ∨ pid = (c : Int)) ∧
      code = cd.exit_code := by
  intro l
  induction l with
  | nil =>
    intro c code h
    cases h
  | cons x rest ih =>
    intro c code h
    rw [findZombie] at h
    cases hl : plistLookup st.process_list x with
    | none =>
      rw [hl] at h
      obtain ⟨h1, cd, h2⟩ := ih c code h
      exact ⟨List.mem_cons_of_mem _ h1, cd, h2⟩
    | some cd =>
      rw [hl] at h
      have h3 : (if cd.status = ProcessStatus.Zombie ∧ (pid = -1 ∨ pid = (x : Int))
          then some (x, cd.exit_code) else findZombie st pid rest) =
          some (c, code) := h
      by_cases hc : cd.status = ProcessStatus.Zombie ∧ (pid = -1 ∨ pid = (x : Int))
      · rw [if_pos hc] at h3
        injection h3 with h2
        have hx : x = c := congrArg Prod.fst h2
        have hcode : cd.exit_code = code := congrArg Prod.snd h2
        subst hx
        exact ⟨List.mem_cons_self _ _, cd, hl, hc.1, hc.2, hcode.symm⟩
      · rw [if_neg hc] at h3
        obtain ⟨h1, cd2, h2⟩ := ih c code h3
        exact ⟨List.mem_cons_of_mem _ h1, cd2, h2⟩

/-- Claim C3 (amended): one pass of wait_for, with `survivors` the
children still present in the process table and `st1` the state after
the retain: no surviving children gives ECHILD; the first surviving
Zombie child matching the request (`pid == -1` or equal pid) is removed
from the table and its pid and stored exit code are returned; with no
matching zombie, `Ok(0)` is returned only when `option` equals WNOHANG
exactly (not when the WNOHANG bit is merely set). -/
theorem waitFor_props (st st1 : PMState) (parentPid : Nat) (pid : Int)
    (opt : Nat) (parentData : ProcData) (survivors : List Nat)
    (hp : plistLookup st.process_list parentPid = some parentData)
    (hnd : (st.process_list.map (fun e => e.1)).Nodup)
    (hs : survivors = parentData.children.filter
      (fun c => (plistLookup st.process_list c).isSome))
    (hst1 : st1 = { st with
      process_list := plistInsert st.process_list parentPid
        { parentData with children := survivors } }) :
    (survivors = [] →
      waitForStep st parentPid pid opt =
        some (st1, WaitRes.err SyscallError.ECHILD)) ∧
    (∀ c code, findZombie st1 pid survivors = some (c, code) →
      survivors ≠ [] →
      waitForStep st parentPid pid opt =
        some ({ st1 with process_list := plistRemove st1.process_list c },
          WaitRes.ok c (some code)) ∧
      ∃ cd, plistLookup st1.process_list c = some cd ∧
        cd.status = ProcessStatus.Zombie ∧ (pid = -1 ∨ pid = (c : Int)) ∧
        code = cd.exit_code ∧
        plistLookup (plistRemove st1.process_list c) c = none) ∧
    (findZombie st1 pid survivors = none → survivors ≠ [] → opt = WNOHANG →
      waitForStep st parentPid pid opt = some (st1, WaitRes.ok 0 none)) := by
  have hstep : waitForStep st parentPid pid opt =
      (if survivors = [] then some (st1, WaitRes.err SyscallError.ECHILD)
       else match findZombie st1 pid survivors with
         | some r =>
           some ({ st1 with process_list := plistRemove st1.process_list r.1 },
             WaitRes.ok r.1 (some r.2))
         | none =>
           if opt = WNOHANG then some (st1, WaitRes.ok 0 none)
           else if 0 < pid then
             match plistLookup st1.process_list pid.toNat with
             | some _ => some (st1, WaitRes.blocked)
             | none => some (st1, WaitRes.err SyscallError.ECHILD)
           else some (st1, WaitRes.blocked)) := by
    have hst1p : st1.process_list = plistInsert st.process_list parentPid
        { parentData with children := survivors } := by
      rw [hst1]
    simp only [waitForStep, hp]
    rw [← hs, ← hst1, ← hst1p,
      show st1.previous_scheduled_pid = st.previous_scheduled_pid from by
        rw [hst1],
      show st1.pid_alloc = st.pid_alloc from by rw [hst1]]
  have hnd1 : (st1.process_list.map (fun e => e.1)).Nodup := by
    rw [hst1]
    exact plistInsert_keys_nodup _ _ _ hnd
  refine ⟨?_, ?_, ?_⟩
  · intro h
    rw [hstep, if_pos h]
  · intro c code hfz hne
    obtain ⟨hmem, cd, hlk, hzomb, hpid, hcode⟩ :=
      findZombie_spec st1 pid survivors c code hfz
    refine ⟨?_, cd, hlk, hzomb, hpid, hcode,
      plistLookup_remove_self _ _ hnd1⟩
    rw [hstep, if_neg hne, hfz]
  · intro hfz hne hwn
    rw [hstep, if_neg hne, hfz, if_pos hwn]

/-- A running (non-zombie) child process. -/
def c3Child : ProcData :=
  { status := ProcessStatus.Ready
    exit_code := 0
    parent := some 1
    children := []
    kernel_stack := []
    memory := witnessNew.2
    trap := TrapContext.new
    cwd := 0
    files := [] }

/-- A parent whose only child is the running pid 2. -/
def c3Parent : ProcData :=
  { status := ProcessStatus.Ready
    exit_code := 0
    parent := none
    children := [2]
    kernel_stack := []
    memory := witnessNew.2
    trap := TrapContext.new
    cwd := 0
    files := [] }

def c3State : PMState :=
  { process_list := [(1, c3Parent), (2, c3Child)]
    previous_scheduled_pid := 0
    pid_alloc := ⟨2, []⟩ }

/-- Claim C3 counterexample: `option = 3` has the WNOHANG bit set
(`3 &&& WNOHANG = 1`), the parent's only child survives and is not a
Zombie, yet wait_for blocks instead of returning 0 — the source compares
`option == WNOHANG` for exact equality. -/
theorem waitFor_c3_counterexample :
    (Option.map (fun r => r.2) (waitForStep c3State 1 (-1) 3)) =
      some WaitRes.blocked ∧
    3 &&& WNOHANG = 1 ∧
    WaitRes.blocked ≠ WaitRes.ok 0 none := by
  refine ⟨?_, by decide, by decide⟩
  decide

/-- A zombie child with exit code 7. -/
def c3Zombie : ProcData :=
  { status := ProcessStatus.Zombie
    exit_code := 7
    parent := some 1
    children := []
    kernel_stack := []
    memory := witnessNew.2
    trap := TrapContext.new
    cwd := 0
    files := [] }

/-- A parent with a running child (pid 2) and a zombie child (pid 3). -/
def c3ZParent : ProcData :=
  { status := ProcessStatus.Ready
    exit_code := 0
    parent := none
    children := [2, 3]
    kernel_stack := []
    memory := witnessNew.2
    trap := TrapContext.new
    cwd := 0
    files := [] }

def c3WState : PMState :=
  { process_list := [(1, c3ZParent), (2, c3Child), (3, c3Zombie)]
    previous_scheduled_pid := 0
    pid_alloc := ⟨3, []⟩ }

def c3WState1 : PMState :=
  { c3WState with
    process_list :=
      plistInsert c3WState.process_list 1 { c3ZParent with children := [2, 3] } }

/-- Claim C3 witness: the wait_for theorem instantiated on the concrete
table with a running and a zombie child. -/
theorem waitFor_props_witness :
    ([2, 3] : List Nat) = c3ZParent.children.filter
      (fun c => (plistLookup c3WState.process_list c).isSome) ∧
    (([2, 3] : List Nat) = [] →
      waitForStep c3WState 1 (-1) 0 =
        some (c3WState1, WaitRes.err SyscallError.ECHILD)) ∧
    (∀ c code, findZombie c3WState1 (-1) [2, 3] = some (c, code) →
      ([2, 3] : List Nat) ≠ [] →
      waitForStep c3WState 1 (-1) 0 =
        some ({ c3WState1 with
          process_list := plistRemove c3WState1.process_list c },
          WaitRes.ok c (some code)) ∧
      ∃ cd, plistLookup c3WState1.process_list c = some cd ∧
        cd.status = ProcessStatus.Zombie ∧ ((-1 : Int) = -1 ∨ (-1 : Int) = (c : Int)) ∧
        code = cd.exit_code ∧
        plistLookup (plistRemove c3WState1.process_list c) c = none) ∧
    (findZombie c3WState1 (-1) [2, 3] = none → ([2, 3] : List Nat) ≠ [] →
      (0 : Nat) = WNOHANG →
      waitForStep c3WState 1 (-1) 0 = some (c3WState1, WaitRes.ok 0 none)) :=
  ⟨by decide,
    waitFor_props c3WState c3WState1 1 (-1) 0 c3ZParent [2, 3] rfl
      (by decide) (by decide) rfl⟩

/-! ## Claim C1: syscall numbers and dispatch (src/src/syscall/id.rs,
src/src/syscall/mod.rs, src/src/syscall/dummy.rs)

The `Syscall` enum is exactly id.rs; note that id.rs has no variants for
readv (65) or writev (66) (or the other stub names mod.rs refers to), so
those numbers do not decode. -/

inductive Syscall
  | getcwd
  | lseek
  | pipe2
  | dup
  | dup3
  | chdir
  | openat
  | close
  | getdents64
  | read
  | write
  | linkat
  | unlinkat
  | mkdirat
  | umount2
  | mount
  | fstat
  | clone
  | execve
  | wait4
  | exit
  | getppid
  | getpid
  | brk
  | munmap
  | mmap
  | times
  | uname
  | sched_yield
  | gettimeofday
  | nanosleep
  | ark_sleep_ticks
  | ark_breakpoint
  | Unknown
deriving DecidableEq

/-- `Syscall::try_from(id)` (num-derive FromPrimitive over the #[repr
(usize)] discriminants of id.rs): the ids that decode are exactly the
enum discriminants, `Unknown` being `usize::MAX`. -/
def syscallFromId (id : Nat) : Option Syscall :=
  if id = 17 then some .getcwd
  else if id = 62 then some .lseek
  else if id = 59 then some .pipe2
  else if id = 23 then some .dup
  else if id = 24 then some .dup3
  else if id = 49 then some .chdir
  else if id = 56 then some .openat
  else if id = 57 then some .close
  else if id = 61 then some .getdents64
  else if id = 63 then some .read
  else if id = 64 then some .write
  else if id = 37 then some .linkat
  else if id = 35 then some .unlinkat
  else if id = 34 then some .mkdirat
  else if id = 39 then some .umount2
  else if id = 40 then some .mount
  else if id = 80 then some .fstat
  else if id = 220 then some .clone
  else if id = 221 then some .execve
  else if id = 260 then some .wait4
  else if id = 93 then some .exit
  else if id = 173 then some .getppid
  else if id = 172 then some .getpid
  else if id = 214 then some .brk
  else if id = 215 then some .munmap
  else if id = 222 then some .mmap
  else if id = 153 then some .times
  else if id = 160 then some .uname
  else if id = 124 then some .sched_yield
  else if id = 169 then some .gettimeofday
  else if id = 101 then some .nanosleep
  else if id = 1002 then some .ark_sleep_ticks
  else if id = 20010125 then some .ark_breakpoint
  else if id = USIZE - 1 then some .Unknown
  else none

/-- The handler a decoded syscall is routed to by the `match` of
`syscall_handler` (src/src/syscall/mod.rs). -/
inductive Target
  | file_open
  | file_read
  | file_write
  | file_lseek
  | file_close
  | file_mkdirat
  | file_mount
  | file_fstat
  | file_getdents64
  | file_linkat
  | proc_exit
  | proc_clone
  | proc_execve
  | proc_wait_for
  | proc_getpid
  | proc_getppid
  | proc_yield
  | mem_brk
  | mem_mmap
  | mem_munmap
  | custom_sleep_ticks
  | custom_breakpoint
  | utils_uname
  | utils_getcwd
  | utils_chdir
  | unimp
deriving DecidableEq

/-- The routing table of syscall_handler, restricted to the variants that
exist in id.rs.  mod.rs names further variants (readv, writev,
newfstatat, the dummy uid/gid stubs, ppoll, …) that id.rs does not
declare, and it has no arm for `Unknown`, which therefore routes
nowhere. -/
def dispatchTarget : Syscall → Option Target
  | .openat => some .file_open
  | .read => some .file_read
  | .write => some .file_write
  | .lseek => some .file_lseek
  | .close => some .file_close
  | .mkdirat => some .file_mkdirat
  | .mount => some .file_mount
  | .fstat => some .file_fstat
  | .getdents64 => some .file_getdents64
  | .linkat => some .file_linkat
  | .exit => some .proc_exit
  | .clone => some .proc_clone
  | .execve => some .proc_execve
  | .wait4 => some .proc_wait_for
  | .getpid => some .proc_getpid
  | .getppid => some .proc_getppid
  | .sched_yield => some .proc_yield
  | .brk => some .mem_brk
  | .mmap => some .mem_mmap
  | .munmap => some .mem_munmap
  | .ark_sleep_ticks => some .custom_sleep_ticks
  | .ark_breakpoint => some .custom_breakpoint
  | .uname => some .utils_uname
  | .getcwd => some .utils_getcwd
  | .chdir => some .utils_chdir
  | .dup => some .unimp
  | .pipe2 => some .unimp
  | .dup3 => some .unimp
  | .unlinkat => some .unimp
  | .umount2 => some .unimp
  | .times => some .unimp
  | .gettimeofday => some .unimp
  | .nanosleep => some .unimp
  | .Unknown => none

/-- dummy::unimp: returns `Err(EPERM)`. -/
def unimp (s : Syscall) : Except SyscallError Nat :=
  Except.error SyscallError.EPERM

/-- syscall_handler on a stub arm: the argument registers are never read
and dummy::unimp's result is returned. -/
def stubCall (s : Syscall) (args : List Nat) : Except SyscallError Nat :=
  unimp s

/-- Claim C1 counterexample: dup (23) is in the supported list, decodes,
and is routed to dummy::unimp, which fails with EPERM for every
argument vector — so this "supported" call fails unconditionally, and
the same holds for dup3, pipe2, unlinkat, umount2, times, gettimeofday
and nanosleep. -/
theorem dispatch_c1_counterexample :
    syscallFromId 23 = some Syscall.dup ∧
    dispatchTarget Syscall.dup = some Target.unimp ∧
    stubCall Syscall.dup [1, 2, 3, 4, 5, 6] = Except.error SyscallError.EPERM ∧
    (∀ args : List Nat,
      stubCall Syscall.dup args = Except.error SyscallError.EPERM) ∧
    Target.unimp ≠ Target.file_open := by
  exact ⟨by decide, by decide, rfl, fun _ => rfl, by decide⟩

/-- Claim C1 (amended): the full decode-and-route table.  Every number of
the spec's supported list decodes to its variant except readv (65) and
writev (66), which id.rs does not declare; the implemented handlers
receive getcwd, mkdirat, linkat, mount, chdir, openat, close,
getdents64, lseek, read, write, fstat, exit, sched_yield, uname, getpid,
getppid, brk, munmap, clone, execve, mmap and wait4; while dup (23),
dup3 (24), unlinkat (35), umount2 (39), pipe2 (59), nanosleep (101),
sched-times (153), gettimeofday (169) are routed to dummy::unimp, which
returns Err(EPERM) unconditionally. -/
theorem syscall_dispatch_props :
    (syscallFromId 17 = some Syscall.getcwd ∧
      dispatchTarget Syscall.getcwd = some Target.utils_getcwd) ∧
    (syscallFromId 34 = some Syscall.mkdirat ∧
      dispatchTarget Syscall.mkdirat = some Target.file_mkdirat) ∧
    (syscallFromId 37 = some Syscall.linkat ∧
      dispatchTarget Syscall.linkat = some Target.file_linkat) ∧
    (syscallFromId 40 = some Syscall.mount ∧
      dispatchTarget Syscall.mount = some Target.file_mount) ∧
    (syscallFromId 49 = some Syscall.chdir ∧
      dispatchTarget Syscall.chdir = some Target.utils_chdir) ∧
    (syscallFromId 56 = some Syscall.openat ∧
      dispatchTarget Syscall.openat = some Target.file_open) ∧
    (syscallFromId 57 = some Syscall.close ∧
      dispatchTarget Syscall.close = some Target.file_close) ∧
    (syscallFromId 61 = some Syscall.getdents64 ∧
      dispatchTarget Syscall.getdents64 = some Target.file_getdents64) ∧
    (syscallFromId 62 = some Syscall.lseek ∧
      dispatchTarget Syscall.lseek = some Target.file_lseek) ∧
    (syscallFromId 63 = some Syscall.read ∧
      dispatchTarget Syscall.read = some Target.file_read) ∧
    (syscallFromId 64 = some Syscall.write ∧
      dispatchTarget Syscall.write = some Target.file_write) ∧
    (syscallFromId 65 = none ∧ syscallFromId 66 = none) ∧
    (syscallFromId 80 = some Syscall.fstat ∧
      dispatchTarget Syscall.fstat = some Target.file_fstat) ∧
    (syscallFromId 93 = some Syscall.exit ∧
      dispatchTarget Syscall.exit = some Target.proc_exit) ∧
    (syscallFromId 124 = some Syscall.sched_yield ∧
      dispatchTarget Syscall.sched_yield = some Target.proc_yield) ∧
    (syscallFromId 160 = some Syscall.uname ∧
      dispatchTarget Syscall.uname = some Target.utils_uname) ∧
    (syscallFromId 172 = some Syscall.getpid ∧
      dispatchTarget Syscall.getpid = some Target.proc_getpid) ∧
    (syscallFromId 173 = some Syscall.getppid ∧
      dispatchTarget Syscall.getppid = some Target.proc_getppid) ∧
    (syscallFromId 214 = some Syscall.brk ∧
      dispatchTarget Syscall.brk = some Target.mem_brk) ∧
    (syscallFromId 215 = some Syscall.munmap ∧
      dispatchTarget Syscall.munmap = some Target.mem_munmap) ∧
    (syscallFromId 220 = some Syscall.clone ∧
      dispatchTarget Syscall.clone = some Target.proc_clone) ∧
    (syscallFromId 221 = some Syscall.execve ∧
      dispatchTarget Syscall.execve = some Target.proc_execve) ∧
    (syscallFromId 222 = some Syscall.mmap ∧
      dispatchTarget Syscall.mmap = some Target.mem_mmap) ∧
    (syscallFromId 260 = some Syscall.wait4 ∧
      dispatchTarget Syscall.wait4 = some Target.proc_wait_for) ∧
    ((syscallFromId 23 = some Syscall.dup ∧
        dispatchTarget Syscall.dup = some Target.unimp) ∧
      (syscallFromId 24 = some Syscall.dup3 ∧
        dispatchTarget Syscall.dup3 = some Target.unimp) ∧
      (syscallFromId 35 = some Syscall.unlinkat ∧
        dispatchTarget Syscall.unlinkat = some Target.unimp) ∧
      (syscallFromId 39 = some Syscall.umount2 ∧
        dispatchTarget Syscall.umount2 = some Target.unimp) ∧
      (syscallFromId 59 = some Syscall.pipe2 ∧
        dispatchTarget Syscall.pipe2 = some Target.unimp) ∧
      (syscallFromId 101 = some Syscall.nanosleep ∧
        dispatchTarget Syscall.nanosleep = some Target.unimp) ∧
      (syscallFromId 153 = some Syscall.times ∧
        dispatchTarget Syscall.times = some Target.unimp) ∧
      (syscallFromId 169 = some Syscall.gettimeofday ∧
        dispatchTarget Syscall.gettimeofday = some Target.unimp)) ∧
    (∀ s args, dispatchTarget s = some Target.unimp →
      stubCall s args = Except.error SyscallError.EPERM) ∧
    dispatchTarget Syscall.Unknown = none := by
  refine ⟨?_, ?_, ?_, ?_, ?_, ?_, ?_, ?_, ?_, ?_, ?_, ?_, ?_, ?_, ?_, ?_, ?_,
    ?_, ?_, ?_, ?_, ?_, ?_, ?_, ?_, ?_, ?_⟩ <;>
    first
      | exact fun s args _ => rfl
      | decide

/-! ## Claim C10: the mmap syscall handler (src/src/syscall/memory.rs,
src/src/process/process_memory.rs) -/

/-- Wrapping usize subtraction (the kernel is built in release mode, so
underflow wraps). -/
def usizeSub (a b : Nat) : Nat := (a + (USIZE - b % USIZE)) % USIZE

/-- ProcessMemory::check_collapse: does any page of the range overlap an
existing mapping? -/
def checkCollapse (pm : ProcessMemory) (startVpn pages : Nat)
    (isIncreasing : Bool) : Bool :=
  let r := if isIncreasing then
      List.range' startVpn ((startVpn + pages) % USIZE - startVpn)
    else
      List.range' ((usizeSub startVpn pages + 1) % USIZE)
        ((startVpn + 1) % USIZE - ((usizeSub startVpn pages + 1) % USIZE))
  r.any (fun vpn => mapsContains pm.maps vpn)

/-- Sorted insertion, for the ascending key iteration of the BTreeMap. -/
def insertSorted (x : Nat) : List Nat → List Nat
  | [] => [x]
  | y :: rest => if x ≤ y then x :: y :: rest else y :: insertSorted x rest

/-- The keys of `maps` in ascending order (`maps.keys()`). -/
def sortedKeys (l : MapsList) : List Nat :=
  l.foldr (fun e acc => insertSorted e.1 acc) []

/-- The search of ProcessMemory::mmap when `addr` is None: try the page
below `mmap_base` first, then the first gap below an existing mapping
between the brk page and `mmap_base`. -/
def mmapSearch (pm : ProcessMemory) (pages : Nat) : Option Nat :=
  let mmapBaseVpn := usizeSub (pm.mmap_base / PAGE_SIZE) 1
  if !(mapsContains pm.maps mmapBaseVpn) &&
      !(checkCollapse pm mmapBaseVpn pages false) then
    some ((usizeSub mmapBaseVpn pages + 1) % USIZE)
  else
    let brkPage := round_up_to (to_offset_neg pm.brk 1) PAGE_SIZE / PAGE_SIZE
    ((sortedKeys pm.maps).filterMap (fun k =>
      if pm.mmap_base / PAGE_SIZE ≤ k ∨ k ≤ brkPage then none
      else if mapsContains pm.maps (usizeSub k 1) then none
      else some (usizeSub k 1))).findSome? (fun cand =>
        if !(checkCollapse pm cand pages false) then
          some ((usizeSub cand pages + 1) % USIZE)
        else none)

/-- The MAP_FIXED loop of ProcessMemory::mmap: unmap any existing page,
then allocate and map. -/
def pmMmapFixedGo (fl : Nat) :
    Machine → ProcessMemory → Nat → Nat → Option (Machine × ProcessMemory)
  | m, pm, _, 0 => some (m, pm)
  | m, pm, vpn, rest + 1 =>
    let step : Option (Machine × ProcessMemory) :=
      if mapsContains pm.maps vpn then pmUnmap m pm vpn else some (m, pm)
    match step with
    | none => none
    | some (m1, pm1) =>
      let r := pageAlloc m1
      match pmMap r.1 pm1 vpn r.2 fl with
      | none => none
      | some (m2, pm2) => pmMmapFixedGo fl m2 pm2 (vpn + 1) rest

/-- The allocation loop of ProcessMemory::mmap for a found free range. -/
def pmMmapAllocGo (fl : Nat) :
    Machine → ProcessMemory → Nat → Nat → Option (Machine × ProcessMemory)
  | m, pm, _, 0 => some (m, pm)
  | m, pm, vpn, rest + 1 =>
    let r := pageAlloc m
    match pmMap r.1 pm vpn r.2 fl with
    | none => none
    | some (m2, pm2) => pmMmapAllocGo fl m2 pm2 (vpn + 1) rest

/-- ProcessMemory::mmap.  The inner Option of the result is the
`Result<VirtAddr>` (its `none` is the "no enough memory" error); the
outer `none` models the panicking paths (unwrap of unmap, map
assertions). -/
def pmMmap (m : Machine) (pm : ProcessMemory) (addr : Option Nat)
    (pages fl : Nat) : Option (Machine × ProcessMemory × Option Nat) :=
  match addr with
  | some a =>
    let firstVpn := a / PAGE_SIZE
    match pmMmapFixedGo fl m pm firstVpn pages with
    | none => none
    | some (m2, pm2) => some (m2, pm2, some (firstVpn * PAGE_SIZE))
  | none =>
    match mmapSearch pm pages with
    | some firstVpn =>
      match pmMmapAllocGo fl m pm firstVpn pages with
      | none => none
      | some (m2, pm2) => some (m2, pm2, some (firstVpn * PAGE_SIZE))
    | none => some (m, pm, none)

/-- ProtFlags::from_bits: bits R=1, W=2, X=4. -/
def protFromBits (b : Nat) : Option Nat :=
  if b &&& 7 = b then some b else none

/-- MapFlags::from_bits: bits SHARED=1, PRIVATE=2, FIXED=0x10,
ANONYMOUS=0x20. -/
def mapFromBits (b : Nat) : Option Nat :=
  if b &&& 0x33 = b then some b else none

/-- The PTEFlags built by the mmap handler from the prot bits. -/
def mmapPteFlags (p : Nat) : Nat :=
  let f1 := 16
  let f2 := if p &&& 1 != 0 then f1 ||| 2 else f1
  let f3 := if p &&& 2 != 0 then f2 ||| 4 else f2
  if p &&& 4 != 0 then f3 ||| 8 else f3

/-- The per-page file read loop of the mmap handler: translate the page
and hand the frame to `File::read` (modelled by the oracle
`fileReadPage`, since the file objects live outside this crate); a
failed translation or read is the `.unwrap()`/`.expect()` panic. -/
def mmapReadGo (fileReadPage : FileObj → Nat → Machine → Option Machine)
    (f : FileObj) (pm : ProcessMemory) :
    Machine → Nat → Nat → Option Machine
  | m, _, 0 => some m
  | m, vpn, rest + 1 =>
    match translatePT m pm.page_table (vpn * PAGE_SIZE) with
    | none => none
    | some pa =>
      match fileReadPage f pa m with
      | none => none
      | some m2 => mmapReadGo fileReadPage f pm m2 (vpn + 1) rest

/-- The cleanup loop of the mmap handler when the fd is invalid. -/
def mmapUnmapGo :
    Machine → ProcessMemory → Nat → Nat → Option (Machine × ProcessMemory)
  | m, pm, _, 0 => some (m, pm)
  | m, pm, vpn, rest + 1 =>
    match pmUnmap m pm vpn with
    | none => none
    | some (m2, pm2) => mmapUnmapGo m2 pm2 (vpn + 1) rest

/-- The mmap syscall handler (src/src/syscall/memory.rs).  `fileSeekOk`
and `fileReadPage` are oracles for the external `dyn File` object; the
outer `none` models every panicking path (`unwrap` on from_bits or on
the MAP_FIXED result, the `todo!` for unaligned or offset mmap, seek or
read `.expect`). -/
def mmapSyscall (fileSeekOk : FileObj → Nat → Bool)
    (fileReadPage : FileObj → Nat → Machine → Option Machine)
    (m : Machine) (pm : ProcessMemory) (files : List (Option FileObj))
    (addr len prot flags fd offset : Nat) :
    Option (Machine × ProcessMemory × Except SyscallError Nat) :=
  let len2 := round_up_to len PAGE_SIZE
  if len2 = 0 then some (m, pm, Except.ok (USIZE - 1))
  else
    match protFromBits prot, mapFromBits flags with
    | some p, some f =>
      let pteFl := mmapPteFlags p
      let pagesCount := (len2 + addr % PAGE_SIZE) / PAGE_SIZE
      match (if f &&& 16 != 0 then
          match pmMmap m pm (some addr) pagesCount pteFl with
          | none => none
          | some (m2, pm2, some va) => some (m2, pm2, some va)
          | some (_, _, none) => none
        else pmMmap m pm none pagesCount pteFl) with
      | none => none
      | some (m2, pm2, none) => some (m2, pm2, Except.error SyscallError.ENOMEM)
      | some (m2, pm2, some startAddr) =>
        if addr % PAGE_SIZE != 0 || offset != 0 then none
        else if f &&& 32 == 0 then
          match files.get? fd with
          | some (some file) =>
            if fileSeekOk file offset then
              match mmapReadGo fileReadPage file pm2 m2 (startAddr / PAGE_SIZE)
                  pagesCount with
              | none => none
              | some m3 => some (m3, pm2, Except.ok startAddr)
            else none
          | _ =>
            match mmapUnmapGo m2 pm2 (startAddr / PAGE_SIZE) pagesCount with
            | none => none
            | some (m3, pm3) => some (m3, pm3, Except.error SyscallError.Eio)
        else some (m2, pm2, Except.ok startAddr)
    | _, _ => none

/-- Claim C10: whenever the rounded-up length is zero — in particular
for every call with `len = 0` — the mmap handler returns
`Ok(-1isize as usize)`, i.e. `2^64 - 1`, before touching any state: the
machine and the address space are returned unchanged, and the result is
an `Ok`, not an error. -/
theorem mmap_len_zero_props (fileSeekOk : FileObj → Nat → Bool)
    (fileReadPage : FileObj → Nat → Machine → Option Machine)
    (m : Machine) (pm : ProcessMemory) (files : List (Option FileObj))
    (addr len prot flags fd offset : Nat)
    (hlen : round_up_to len PAGE_SIZE = 0) :
    mmapSyscall fileSeekOk fileReadPage m pm files addr len prot flags fd
      offset = some (m, pm, Except.ok (USIZE - 1)) := by
  rw [mmapSyscall]
  simp only [hlen, if_true]

/-- Claim C10 witness: the handler at `len = 0` on a concrete machine
and address space. -/
theorem mmap_len_zero_props_witness :
    round_up_to 0 PAGE_SIZE = 0 ∧
    mmapSyscall (fun _ _ => true) (fun _ _ m2 => some m2)
      witnessMachine witnessNew.2 [] 0 0 0 0 0 0 =
      some (witnessMachine, witnessNew.2, Except.ok (USIZE - 1)) :=
  ⟨by decide,
    mmap_len_zero_props (fun _ _ => true) (fun _ _ m2 => some m2)
      witnessMachine witnessNew.2 [] 0 0 0 0 0 0 (by decide)⟩

/-- Witness for the C6 theorem: reset applied to a concrete address
space. -/
theorem pmReset_props_witness :
    ∃ m2 pm2, pmReset witnessMachine witnessNew.2 = some (m2, pm2) ∧
      (∀ va, va < KERNEL_SPACE_BASE →
        translatePT m2 pm2.page_table va = none) ∧
      pteValid (m2.mem pm2.page_table.root 2) = true ∧
      ptePageId (m2.mem pm2.page_table.root 2) = KERNEL_SPACE_BASE / PAGE_SIZE ∧
      pteFlags (m2.mem pm2.page_table.root 2) = prepareFlags 46 ∧
      pm2.maps = [] ∧ pm2.prog_end = 0 ∧ pm2.brk = 0 ∧
      pm2.stack_base = PROCESS_USER_STACK_BASE ∧
      pm2.stack_top = PROCESS_USER_STACK_BASE ∧
      pm2.mmap_base = PROCESS_MMAP_BASE ∧
      pm2.min_brk = witnessNew.2.min_brk ∧
      PMInv m2 pm2 :=
  pmReset_props witnessMachine witnessNew.2

/-- Witness for the C1 theorem: the routing table instantiated at dup
with a concrete argument vector. -/
theorem syscall_dispatch_props_witness :
    stubCall Syscall.dup [1, 2, 3, 4, 5, 6] = Except.error SyscallError.EPERM := by
  have h := syscall_dispatch_props
  exact h.2.2.2.2.2.2.2.2.2.2.2.2.2.2.2.2.2.2.2.2.2.2.2.2.2.1 Syscall.dup
    [1, 2, 3, 4, 5, 6] (by decide)

end Ark
